import Mathlib

/-!
A shallow embedding of the `raytrace` ray tracer

The C++ sources `raytracer.hpp` / `raytracer.cpp` are embedded as pure functions.

* `float` is idealised as an arbitrary linearly ordered field `F` (exact arithmetic,
  no rounding).  The two `<cmath>` functions the program calls, `sqrt` and `pow`, are
  not part of the repository; they are taken as the parameter `FloatOps`.
* `INFINITY` only occurs as the initial value of `t0`, `t1`, `tNear`; these three
  variables range over `WithTop F`, with `⊤` for `INFINITY`.
* Reference out-parameters (`float &t0, float &t1`) become explicit state passing.
* `exit(101)` is modelled by `none`.
* The recursion of `Scene::draw` is instrumented with a `CallTree` recording the
  nested recursive calls.
-/

namespace raytrace

/-- The `<cmath>` functions used by the program. -/
structure FloatOps (F : Type) where
  sqrt : F → F
  pow : F → F → F

/-- The class template `Vector<T>`: three components. -/
structure Vector (T : Type) where
  x : T
  y : T
  z : T
deriving DecidableEq, Repr

namespace Vector

variable {T : Type} [LinearOrderedField T]

/-- The constructor `Vector(const T &n)`. -/
def splat (n : T) : Vector T := ⟨n, n, n⟩

/-- The default constructor `Vector()`. -/
def zero : Vector T := ⟨0, 0, 0⟩

instance : Zero (Vector T) := ⟨Vector.zero⟩

instance : Inhabited (Vector T) := ⟨Vector.zero⟩

/-- The member `operator + (const Vector<T> &n)`. -/
def add (a n : Vector T) : Vector T := ⟨a.x + n.x, a.y + n.y, a.z + n.z⟩

/-- The member `operator - (const Vector<T> &n)`. -/
def sub (a n : Vector T) : Vector T := ⟨a.x - n.x, a.y - n.y, a.z - n.z⟩

instance : Add (Vector T) := ⟨Vector.add⟩

instance : Sub (Vector T) := ⟨Vector.sub⟩

/-- The member `operator * (const T &n)`. -/
def scale (a : Vector T) (n : T) : Vector T := ⟨a.x * n, a.y * n, a.z * n⟩

/-- The member `operator * (const Vector<T> &n)`. -/
def mul (a n : Vector T) : Vector T := ⟨a.x * n.x, a.y * n.y, a.z * n.z⟩

/-- The member `operator / (const T &n)`; `none` is `exit(101)`. -/
def divScalar (a : Vector T) (n : T) : Option (Vector T) :=
  if n < 0 then none else some ⟨a.x / n, a.y / n, a.z / n⟩

/-- The member `operator / (const Vector<T> &n)`; `none` is `exit(101)`. -/
def divVector (a n : Vector T) : Option (Vector T) :=
  if n.x < 0 ∨ n.y < 0 ∨ n.z < 0 then none else some ⟨a.x / n.x, a.y / n.y, a.z / n.z⟩

/-- The member `dotProduct`. -/
def dotProduct (a v : Vector T) : T := a.x * v.x + a.y * v.y + a.z * v.z

/-- The member `crossProduct`. -/
def crossProduct (a v : Vector T) : Vector T :=
  ⟨(a.y * v.z) - (a.z * v.y), (a.z * v.x) - (a.x * v.z), (a.x * v.y) - (a.y * v.x)⟩

/-- The member `magnitude`. -/
def magnitude (ops : FloatOps T) (a : Vector T) : T :=
  ops.sqrt (a.x * a.x + a.y * a.y + a.z * a.z)

/-- The member `normalize` (the value the object holds afterwards, which is also the
    value returned by reference). -/
def normalize (ops : FloatOps T) (a : Vector T) : Vector T :=
  let magInv := 1 / a.magnitude ops
  ⟨a.x * magInv, a.y * magInv, a.z * magInv⟩

/-- The member `sum`. -/
def sum (a : Vector T) : T := a.x + a.y + a.z

end Vector

/-- The class `Ray`. -/
structure Ray (F : Type) where
  origin : Vector F
  direction : Vector F
deriving DecidableEq, Repr

/-- The class `Light`. -/
structure Light (F : Type) where
  position : Vector F
  color : Vector F
deriving DecidableEq, Repr

/-- The class `Material`. -/
structure Material (F : Type) where
  KA : Vector F
  KD : Vector F
  KS : Vector F
  KR : Vector F
  KO : Vector F
  level : F
  eta : F
deriving DecidableEq, Repr

/-- The class `Sphere` with the members inherited from `Shape`. -/
structure Sphere (F : Type) where
  position : Vector F
  material : Material F
  lights : List (Light F)
  radius : F
  radSqrd : F
deriving DecidableEq, Repr

/-- The class `Triangle` with the members inherited from `Shape`. -/
structure Triangle (F : Type) where
  position : Vector F
  material : Material F
  lights : List (Light F)
  A : Vector F
  B : Vector F
  C : Vector F
  surfaceNorm : Vector F
deriving DecidableEq, Repr

/-- An object of (a subclass of) the abstract class `Shape`. -/
inductive Shape (F : Type) where
  | sphere (s : Sphere F)
  | triangle (t : Triangle F)
deriving DecidableEq, Repr

/-- The class `Camera`. -/
structure Camera (F : Type) where
  eye : Vector F
  lookAt : Vector F
  up : Vector F
  right : F
  left : F
  top : F
  bottom : F
  focalLength : F
deriving DecidableEq, Repr

/-- The class `Scene`. -/
structure Scene (F : Type) where
  shapes : List (Shape F)
  camera : Camera F
  height : Int
  width : Int
deriving DecidableEq, Repr

/-- The nested recursive calls made by one call of `Scene::draw`: none, the reflection
    call only, or the reflection call followed by the refraction call.  Each call is
    recorded with the ray it is made on. -/
inductive CallTree (F : Type) where
  | done : CallTree F
  | reflect (reflectRay : Ray F) (reflection : CallTree F) : CallTree F
  | both (reflectRay : Ray F) (reflection : CallTree F)
      (refractRay : Ray F) (refraction : CallTree F) : CallTree F
deriving Repr

/-- Length of the longest chain of nested recursive calls. -/
def CallTree.depth {F : Type} : CallTree F → Nat
  | .done => 0
  | .reflect _ r => r.depth + 1
  | .both _ r _ t => max r.depth t.depth + 1

/-- Whether the call traced a refraction ray. -/
def CallTree.tracesRefraction {F : Type} : CallTree F → Bool
  | .both _ _ _ _ => true
  | _ => false

section Code

variable {F : Type} [LinearOrderedField F]

/-- The default constructor `Ray()`. -/
def Ray.default : Ray F := ⟨Vector.zero, Vector.zero⟩

/-- The constructor `Sphere(pos, r, mat, lights)`. -/
def Sphere.new (pos : Vector F) (r : F) (mat : Material F) (lights : List (Light F)) :
    Sphere F :=
  { position := pos, material := mat, lights := lights, radius := r, radSqrd := r * r }

/-- The constructor `Triangle(a, b, c, sn, mat, lights)`; `Shape::position` is left
    default-constructed. -/
def Triangle.new (a b c sn : Vector F) (mat : Material F) (lights : List (Light F)) :
    Triangle F :=
  { position := Vector.zero, material := mat, lights := lights,
    A := a, B := b, C := c, surfaceNorm := sn }

/-- The accessor `Shape::getPos`. -/
def Shape.getPos : Shape F → Vector F
  | .sphere s => s.position
  | .triangle t => t.position

/-- The accessor `Shape::getMat`. -/
def Shape.getMat : Shape F → Material F
  | .sphere s => s.material
  | .triangle t => t.material

/-- The accessor `Shape::getLights`. -/
def Shape.getLights : Shape F → List (Light F)
  | .sphere s => s.lights
  | .triangle t => t.lights

/-- The free function `mix`. -/
def mix (a b mix : F) : F := b * mix + a * (1 - mix)

/-- The free function `refractRay`. -/
def refractRay (ops : FloatOps F) (W _pt N : Vector F) (eta1 eta2 : F) (_shape : Shape F) :
    Vector F :=
  let etar := eta1 / eta2
  let a := etar * -1
  let wn := W.dotProduct N
  let radsq := 1 - (etar * etar) * (1 - wn * wn)
  if radsq > 0 then
    let b := (etar * wn) - ops.sqrt radsq
    (W.scale a) + (N.scale b)
  else Vector.splat 0

/-- The free function `refractExit`. -/
def refractExit (ops : FloatOps F) (W pt : Vector F) (eta_in : F) (shape : Shape F) : Ray F :=
  let T1 := refractRay ops W pt ((pt - shape.getPos).normalize ops) 1 eta_in shape
  let t1_sum := T1.sum
  if t1_sum ≠ 0 then
    let exit := pt + (T1.scale 2).scale ((shape.getPos - pt).dotProduct T1)
    let Nin := shape.getPos - exit
    let T2 := refractRay ops (T1.scale (-1)) exit Nin eta_in 1 shape
    ⟨exit, T2⟩
  else Ray.default

/-- The method `Sphere::intersect`; the result is the returned `bool` with the values of
    `t0` and `t1` on return. -/
def Sphere.intersect (ops : FloatOps F) (s : Sphere F) (ray : Ray F) (t0 t1 : WithTop F) :
    Bool × WithTop F × WithTop F :=
  let L := ray.origin
  let D := ray.direction
  let tv := s.position - L
  let v := tv.dotProduct D
  if v < 0 then (false, t0, t1)
  else
    let dsq := tv.dotProduct tv - (v * v)
    if dsq > s.radSqrd then (false, t0, t1)
    else
      let b := ops.sqrt (s.radSqrd - dsq)
      (true, ((v - b : F) : WithTop F), ((v + b : F) : WithTop F))

/-- The method `Triangle::intersect`; the result is the returned `bool` with the values
    of `t0` and `t1` on return. -/
def Triangle.intersect (tr : Triangle F) (ray : Ray F) (t0 t1 : WithTop F) :
    Bool × WithTop F × WithTop F :=
  let E1 := tr.B - tr.A
  let E2 := tr.C - tr.A
  let dir := ray.direction
  let ori := ray.origin
  let pVect := dir.crossProduct E2
  let det := E1.dotProduct pVect
  let invDet := 1 / det
  if det < 1 / 10000000 then (false, t0, t1)
  else
    let tVect := ori - tr.A
    let u := tVect.dotProduct pVect * invDet
    if u < 0 ∨ u > 1 then (false, t0, t1)
    else
      let qVect := tVect.crossProduct E1
      let v := dir.dotProduct qVect * invDet
      if v < 0 ∨ u + v > 1 then (false, t0, t1)
      else (true, ((E2.dotProduct qVect * invDet : F) : WithTop F), t1)

/-- The virtual call `shape->intersect(ray, t0, t1)`. -/
def Shape.intersect (ops : FloatOps F) (shape : Shape F) (ray : Ray F) (t0 t1 : WithTop F) :
    Bool × WithTop F × WithTop F :=
  match shape with
  | .sphere s => s.intersect ops ray t0 t1
  | .triangle t => t.intersect ray t0 t1

/-- The constructor `Camera(e, la, u, fl)`. -/
def Camera.new (e la u : Vector F) (fl : F) : Camera F :=
  { eye := e, lookAt := la, up := u, right := 0, left := 0, top := 0, bottom := 0,
    focalLength := fl }

/-- The accessor `Camera::getW`. -/
def Camera.getW (ops : FloatOps F) (c : Camera F) : Vector F :=
  (c.eye - c.lookAt).normalize ops

/-- The accessor `Camera::getU`. -/
def Camera.getU (ops : FloatOps F) (c : Camera F) : Vector F :=
  (c.up.crossProduct (c.getW ops)).normalize ops

/-- The accessor `Camera::getV`. -/
def Camera.getV (ops : FloatOps F) (c : Camera F) : Vector F :=
  (c.getW ops).crossProduct (c.getU ops)

/-- One iteration of the loop over `shapes` in `Scene::draw`: the state is the pair
    of the local variables `tNear` and `shape`. -/
def Scene.scanStep (ops : FloatOps F) (ray : Ray F) (st : WithTop F × Option (Shape F))
    (sh : Shape F) : WithTop F × Option (Shape F) :=
  let r := sh.intersect ops ray ⊤ ⊤
  if r.1 then
    let t0 := if r.2.1 < 0 then r.2.2 else r.2.1
    if t0 < st.1 then (t0, some sh) else st
  else st

/-- The loop over `shapes` in `Scene::draw`, from `tNear = INFINITY`, `shape = NULL`. -/
def Scene.nearestHit (ops : FloatOps F) (shapes : List (Shape F)) (ray : Ray F) :
    WithTop F × Option (Shape F) :=
  shapes.foldl (Scene.scanStep ops ray) (⊤, none)

/-- One iteration of the loop over the lights of the hit shape in `Scene::draw`: the
    state is the local variable `pixelValue`. -/
def Scene.lightStep (ops : FloatOps F) (shape : Shape F) (ptos snorm : Vector F)
    (pixelValue : Vector F) (light : Light F) : Vector F :=
  let ptl := (light.position - ptos).normalize ops
  let eml := light.color
  if snorm.dotProduct ptl > 0 then
    let pixelValue := pixelValue + (eml.mul shape.getMat.KD).scale (max 0 (snorm.dotProduct ptl))
    pixelValue + (eml.mul shape.getMat.KS).scale
      (max 0 (ops.pow (snorm.dotProduct ptl) shape.getMat.level))
  else pixelValue

/-- The loop over the lights of the hit shape in `Scene::draw`. -/
def Scene.localIllumination (ops : FloatOps F) (shape : Shape F) (ptos snorm : Vector F) :
    Vector F :=
  shape.getLights.foldl (Scene.lightStep ops shape ptos snorm) Vector.zero

/-- The method `Scene::draw`, returning the colour together with the tree of the
    recursive calls it made.  `tNear` is finite whenever `shape` is not `NULL`; the
    `0` of `untop'` is never used. -/
def Scene.drawTrace (ops : FloatOps F) (scene : Scene F) (ray : Ray F) (level : Int) :
    Vector F × CallTree F :=
  let ori := ray.origin
  let dir := ray.direction
  let found := Scene.nearestHit ops scene.shapes ray
  match found.2 with
  | none => (Vector.splat 0, CallTree.done)
  | some shape =>
    let tNear := found.1.untop' 0
    let ptos := ori + dir.scale tNear
    let snorm := (ptos - shape.getPos).normalize ops
    let bias : F := 1 / 10000
    let pixelValue := Scene.localIllumination ops shape ptos snorm
    if _h : level > 0 then
      let faceLevel := dir.dotProduct snorm
      let lenseEffect := mix (ops.pow (1 - faceLevel) 4) 1 (1 / 10)
      let reflectDirect := (dir - (snorm.scale 2).scale faceLevel).normalize ops
      let reflectRay : Ray F := ⟨ptos + snorm.scale bias, reflectDirect⟩
      let reflection := Scene.drawTrace ops scene reflectRay (level - 1)
      let refractRay := refractExit ops (dir.scale (-1)) ptos shape.getMat.eta shape
      if refractRay.direction.sum ≠ 0 ∧ shape.getMat.KO.sum ≠ 0 then
        let refraction := Scene.drawTrace ops scene refractRay (level - 1)
        (pixelValue + (((reflection.1.scale lenseEffect).mul shape.getMat.KR)
            + ((refraction.1.scale lenseEffect).mul shape.getMat.KO)).mul shape.getMat.KD,
          CallTree.both reflectRay reflection.2 refractRay refraction.2)
      else
        (pixelValue + (((reflection.1.scale lenseEffect).mul shape.getMat.KR)
            + (((Vector.splat 0).scale lenseEffect).mul shape.getMat.KO)).mul shape.getMat.KD,
          CallTree.reflect reflectRay reflection.2)
    else (pixelValue, CallTree.done)
termination_by level.toNat
decreasing_by
  all_goals simp_wf
  all_goals omega

/-- The method `Scene::draw`: the colour returned. -/
def Scene.draw (ops : FloatOps F) (scene : Scene F) (ray : Ray F) (level : Int) : Vector F :=
  (Scene.drawTrace ops scene ray level).1

/-- The point of a ray at parameter `t`: `origin + direction * t`, as `Scene::draw`
    computes `ptos`. -/
def Ray.pointAt (ray : Ray F) (t : F) : Vector F := ray.origin + ray.direction.scale t

end Code

/-! ## Rendering and the output bytes -/

section Render

variable {F : Type} [LinearOrderedField F] [FloorRing F]

/-- The conversion `(unsigned char)v` of a `float`: the fractional part is discarded;
    `none` when the truncated value is not a value of `unsigned char` (the conversion
    is then undefined). -/
def toUnsignedChar (v : F) : Option Nat :=
  let t : Int := if 0 ≤ v then ⌊v⌋ else -⌊-v⌋
  if 0 ≤ t ∧ t ≤ 255 then some t.toNat else none

/-- The byte `Scene::render` writes for a channel value `x`:
    `(unsigned char)(std::min(float(1), x) * 255)`. -/
def Scene.channelByte (x : F) : Option Nat :=
  toUnsignedChar (min 1 x * 255)

/-- The primary ray of the pixel in row `i`, column `j`, as the loop body of
    `Scene::render` builds it. -/
def Scene.primaryRay (ops : FloatOps F) (scene : Scene F) (i j : Nat) : Ray F :=
  let W := scene.camera.getW ops
  let U := scene.camera.getU ops
  let V := scene.camera.getV ops
  let E := scene.camera.eye
  let fl := scene.camera.focalLength
  let r := scene.camera.right
  let l := scene.camera.left
  let t := scene.camera.top
  let b := scene.camera.bottom
  let aspectRatio : F := (scene.width : F) / (scene.height : F)
  let px : F := (j : F) / ((scene.width - 1 : Int) : F) * (r - l) + l
  let py : F := (i : F) / ((scene.height - 1 : Int) : F) * (t - b) + b
  let px := px * aspectRatio
  let ori := E + W.scale (-fl) + U.scale px + V.scale py
  let dir := (ori - E).normalize ops
  ⟨ori, dir⟩

/-- The pixel buffer `image` after the two nested loops of `Scene::render`: the
    pixels written row by row, followed by the default-constructed elements the loops
    did not reach.  `none` when `width * height` is negative (the allocation fails). -/
def Scene.renderImage (ops : FloatOps F) (scene : Scene F) : Option (List (Vector F)) :=
  if scene.width * scene.height < 0 then none
  else
    let written := (List.range scene.height.toNat).flatMap (fun i =>
      (List.range scene.width.toNat).map (fun j =>
        Scene.draw ops scene (Scene.primaryRay ops scene i j) 5))
    some (written ++
      List.replicate ((scene.width * scene.height).toNat - written.length) Vector.zero)

/-- The bytes `Scene::render` writes after the header, one per channel. -/
def Scene.render (ops : FloatOps F) (scene : Scene F) : Option (List (Option Nat)) :=
  (Scene.renderImage ops scene).map (fun image =>
    image.flatMap (fun p =>
      [Scene.channelByte p.x, Scene.channelByte p.y, Scene.channelByte p.z]))

end Render

/-! ## Names for the intermediate values of the scan and of `Scene::draw` -/

section Auxiliary

variable {F : Type} [LinearOrderedField F]

/-- Whether `shape->intersect(ray, t0, t1)` returns true from `t0 = t1 = INFINITY`. -/
def Shape.hits (ops : FloatOps F) (sh : Shape F) (ray : Ray F) : Bool :=
  (sh.intersect ops ray ⊤ ⊤).1

/-- The effective `t` of a shape in the loop of `Scene::draw`: the `t0` that
    `intersect` leaves, replaced by `t1` when it is negative. -/
def Shape.effectiveT (ops : FloatOps F) (sh : Shape F) (ray : Ray F) : WithTop F :=
  if (sh.intersect ops ray ⊤ ⊤).2.1 < 0 then (sh.intersect ops ray ⊤ ⊤).2.2
  else (sh.intersect ops ray ⊤ ⊤).2.1

/-- The loop invariant of the scan: `st` is the state after the shapes `seen`. -/
def Scene.ScanInv (ops : FloatOps F) (ray : Ray F) (seen : List (Shape F))
    (st : WithTop F × Option (Shape F)) : Prop :=
  (∀ s ∈ seen, s.hits ops ray = true → st.1 ≤ s.effectiveT ops ray) ∧
  (st.2 = none → st.1 = ⊤) ∧
  (∀ sh, st.2 = some sh → st.1 < ⊤ ∧ sh.hits ops ray = true ∧ sh.effectiveT ops ray = st.1 ∧
    ∃ pre post, seen = pre ++ sh :: post ∧
      ∀ s ∈ pre, s.hits ops ray = true → st.1 < s.effectiveT ops ray)

/-- The local variable `ptos` of `Scene::draw`. -/
def Scene.ptos (ops : FloatOps F) (scene : Scene F) (ray : Ray F) : Vector F :=
  ray.origin + ray.direction.scale ((Scene.nearestHit ops scene.shapes ray).1.untop' 0)

/-- The local variable `snorm` of `Scene::draw`, for the hit shape `shape`. -/
def Scene.snorm (ops : FloatOps F) (scene : Scene F) (ray : Ray F) (shape : Shape F) :
    Vector F :=
  (Scene.ptos ops scene ray - shape.getPos).normalize ops

/-- The value of `pixelValue` after the loop over the lights in `Scene::draw`. -/
def Scene.localColor (ops : FloatOps F) (scene : Scene F) (ray : Ray F) (shape : Shape F) :
    Vector F :=
  Scene.localIllumination ops shape (Scene.ptos ops scene ray)
    (Scene.snorm ops scene ray shape)

/-- The local variable `lenseEffect` of `Scene::draw`. -/
def Scene.lenseEffect (ops : FloatOps F) (scene : Scene F) (ray : Ray F) (shape : Shape F) :
    F :=
  mix (ops.pow (1 - ray.direction.dotProduct (Scene.snorm ops scene ray shape)) 4) 1 (1 / 10)

/-- The local variable `reflectRay` of `Scene::draw`. -/
def Scene.reflectRay (ops : FloatOps F) (scene : Scene F) (ray : Ray F) (shape : Shape F) :
    Ray F :=
  ⟨Scene.ptos ops scene ray + (Scene.snorm ops scene ray shape).scale (1 / 10000),
    (ray.direction - ((Scene.snorm ops scene ray shape).scale 2).scale
      (ray.direction.dotProduct (Scene.snorm ops scene ray shape))).normalize ops⟩

/-- The local variable `refractRay` of `Scene::draw`. -/
def Scene.refractRay (ops : FloatOps F) (scene : Scene F) (ray : Ray F) (shape : Shape F) :
    Ray F :=
  refractExit ops (ray.direction.scale (-1)) (Scene.ptos ops scene ray) shape.getMat.eta shape

/-- The contribution of one light with `N.L > 0` to `pixelValue`: the diffuse term plus
    the specular term. -/
def Scene.lightTerm (ops : FloatOps F) (shape : Shape F) (ptos snorm : Vector F)
    (light : Light F) : Vector F :=
  (light.color.mul shape.getMat.KD).scale
      (snorm.dotProduct ((light.position - ptos).normalize ops))
    + (light.color.mul shape.getMat.KS).scale
      (max 0 (ops.pow (snorm.dotProduct ((light.position - ptos).normalize ops))
        shape.getMat.level))

/-- Whether a light is on the visible side: `N.L > 0`. -/
def Scene.lit (ops : FloatOps F) (ptos snorm : Vector F) (light : Light F) : Bool :=
  decide (0 < snorm.dotProduct ((light.position - ptos).normalize ops))

/-- The ray of the refraction call made at the top of a call tree, if one was made. -/
def CallTree.refractedRay {F : Type} : CallTree F → Option (Ray F)
  | .both _ _ r _ => some r
  | _ => none

/-- A division `1 / d` that signals an error (`none`) on a zero divisor. -/
def guardedInv (d : F) : Option F :=
  if d = 0 then none else some (1 / d)

/-- The method `Triangle::intersect` with its division `1/det` made a guarded division,
    at the place where the source performs it; `none` is the error branch. -/
def Triangle.intersectGuarded (tr : Triangle F) (ray : Ray F) (t0 t1 : WithTop F) :
    Option (Bool × WithTop F × WithTop F) :=
  let E1 := tr.B - tr.A
  let E2 := tr.C - tr.A
  let dir := ray.direction
  let ori := ray.origin
  let pVect := dir.crossProduct E2
  let det := E1.dotProduct pVect
  match guardedInv det with
  | none => none
  | some invDet =>
    if det < 1 / 10000000 then some (false, t0, t1)
    else
      let tVect := ori - tr.A
      let u := tVect.dotProduct pVect * invDet
      if u < 0 ∨ u > 1 then some (false, t0, t1)
      else
        let qVect := tVect.crossProduct E1
        let v := dir.dotProduct qVect * invDet
        if v < 0 ∨ u + v > 1 then some (false, t0, t1)
        else some (true, ((E2.dotProduct qVect * invDet : F) : WithTop F), t1)

/-- The member `normalize` with its division `1/magnitude()` made a guarded division;
    `none` is the division by zero, where `float` has an infinite `magInv` and the product
    of a zero component with it is a `NaN`. -/
def Vector.normalizeGuarded (ops : FloatOps F) (a : Vector F) : Option (Vector F) :=
  match guardedInv (a.magnitude ops) with
  | none => none
  | some magInv => some ⟨a.x * magInv, a.y * magInv, a.z * magInv⟩

/-- The colour has no negative channel. -/
def Vector.Nonneg (a : Vector F) : Prop := 0 ≤ a.x ∧ 0 ≤ a.y ∧ 0 ≤ a.z

/-- Every light colour of the shape and its coefficients `KD`, `KS`, `KR`, `KO` have
    no negative component. -/
def Shape.NonnegCoefficients (sh : Shape F) : Prop :=
  (∀ l ∈ sh.getLights, l.color.Nonneg) ∧ sh.getMat.KD.Nonneg ∧ sh.getMat.KS.Nonneg ∧
    sh.getMat.KR.Nonneg ∧ sh.getMat.KO.Nonneg

end Auxiliary

/-! ## The arithmetic of `float` with its rounding made explicit

In the definitions above every `float` operation returns its exact result.  The
definitions below are the same functions with each operation followed by the rounding
`rnd` of its result to a `float`; `round32` is the rounding of binary32. -/

section Rounded

variable {F : Type} [LinearOrderedField F]

/-- The member `operator - (const Vector<T> &n)` for `T = float`: each difference is
    rounded. -/
def Vector.subR (rnd : F → F) (a n : Vector F) : Vector F :=
  ⟨rnd (a.x - n.x), rnd (a.y - n.y), rnd (a.z - n.z)⟩

/-- The member `operator + (const Vector<T> &n)` for `T = float`: each sum is rounded. -/
def Vector.addR (rnd : F → F) (a n : Vector F) : Vector F :=
  ⟨rnd (a.x + n.x), rnd (a.y + n.y), rnd (a.z + n.z)⟩

/-- The member `operator * (const T &n)` for `T = float`: each product is rounded. -/
def Vector.scaleR (rnd : F → F) (a : Vector F) (n : F) : Vector F :=
  ⟨rnd (a.x * n), rnd (a.y * n), rnd (a.z * n)⟩

/-- The member `dotProduct` for `T = float`: `(x*v.x + y*v.y) + z*v.z`, every product and
    sum rounded. -/
def Vector.dotProductR (rnd : F → F) (a v : Vector F) : F :=
  rnd (rnd (rnd (a.x * v.x) + rnd (a.y * v.y)) + rnd (a.z * v.z))

/-- The member `crossProduct` for `T = float`, every product and difference rounded. -/
def Vector.crossProductR (rnd : F → F) (a v : Vector F) : Vector F :=
  ⟨rnd (rnd (a.y * v.z) - rnd (a.z * v.y)),
   rnd (rnd (a.z * v.x) - rnd (a.x * v.z)),
   rnd (rnd (a.x * v.y) - rnd (a.y * v.x))⟩

/-- The member `magnitude` for `T = float`: `sqrt` of the rounded sum of squares. -/
def Vector.magnitudeR (rnd : F → F) (ops : FloatOps F) (a : Vector F) : F :=
  ops.sqrt (rnd (rnd (rnd (a.x * a.x) + rnd (a.y * a.y)) + rnd (a.z * a.z)))

/-- The member `normalize` for `T = float`: `magInv = 1/magnitude()` is rounded, and so
    is each product `x * magInv`. -/
def Vector.normalizeR (rnd : F → F) (ops : FloatOps F) (a : Vector F) : Vector F :=
  let magInv := rnd (1 / a.magnitudeR rnd ops)
  ⟨rnd (a.x * magInv), rnd (a.y * magInv), rnd (a.z * magInv)⟩

/-- The constructor `Sphere(pos, r, mat, lights)` for `float`: `radSqrd(r*r)` is the
    rounded product. -/
def Sphere.newR (rnd : F → F) (pos : Vector F) (r : F) (mat : Material F)
    (lights : List (Light F)) : Sphere F :=
  { position := pos, material := mat, lights := lights, radius := r, radSqrd := rnd (r * r) }

/-- The method `Sphere::intersect` with every `float` operation rounded. -/
def Sphere.intersectR (rnd : F → F) (ops : FloatOps F) (s : Sphere F) (ray : Ray F)
    (t0 t1 : WithTop F) : Bool × WithTop F × WithTop F :=
  let L := ray.origin
  let D := ray.direction
  let tv := s.position.subR rnd L
  let v := tv.dotProductR rnd D
  if v < 0 then (false, t0, t1)
  else
    let dsq := rnd (tv.dotProductR rnd tv - rnd (v * v))
    if dsq > s.radSqrd then (false, t0, t1)
    else
      let b := ops.sqrt (rnd (s.radSqrd - dsq))
      (true, ((rnd (v - b) : F) : WithTop F), ((rnd (v + b) : F) : WithTop F))

/-- The accessor `Camera::getW` with every `float` operation rounded. -/
def Camera.getWR (rnd : F → F) (ops : FloatOps F) (c : Camera F) : Vector F :=
  (c.eye.subR rnd c.lookAt).normalizeR rnd ops

/-- The accessor `Camera::getU` with every `float` operation rounded. -/
def Camera.getUR (rnd : F → F) (ops : FloatOps F) (c : Camera F) : Vector F :=
  (c.up.crossProductR rnd (c.getWR rnd ops)).normalizeR rnd ops

/-- The accessor `Camera::getV` with every `float` operation rounded. -/
def Camera.getVR (rnd : F → F) (ops : FloatOps F) (c : Camera F) : Vector F :=
  (c.getWR rnd ops).crossProductR rnd (c.getUR rnd ops)

/-- The free function `refractRay` with every `float` operation rounded.  `ops.sqrt` is
    the root as the program's `sqrt` returns it; the difference `etar*wn - sqrt(radsq)`
    is rounded once, on its assignment to the `float b`. -/
def refractRayR (rnd : F → F) (ops : FloatOps F) (W _pt N : Vector F) (eta1 eta2 : F)
    (_shape : Shape F) : Vector F :=
  let etar := rnd (eta1 / eta2)
  let a := rnd (etar * -1)
  let wn := W.dotProductR rnd N
  let radsq := rnd (1 - rnd (rnd (etar * etar) * rnd (1 - rnd (wn * wn))))
  if radsq > 0 then
    let b := rnd (rnd (etar * wn) - ops.sqrt radsq)
    (W.scaleR rnd a).addR rnd (N.scaleR rnd b)
  else Vector.splat 0

/-- The `float` operations of `normalize` incur no rounding error on `a`: the sum of
    squares, the quotient `1/magnitude()` and the three products are exact. -/
def Vector.NormalizeExact (rnd : F → F) (ops : FloatOps F) (a : Vector F) : Prop :=
  a.dotProductR rnd a = a.dotProduct a ∧
  rnd (1 / a.magnitude ops) = 1 / a.magnitude ops ∧
  a.scaleR rnd (1 / a.magnitude ops) = a.scale (1 / a.magnitude ops)

/-- The rounded result `rnd x` of an operation whose exact result is `x` has relative
    error at most `u`. -/
def Accurate (rnd : F → F) (u x : F) : Prop := |rnd x - x| ≤ u * |x|

/-- Every `float` operation of `magnitude` on `a` has relative error at most `u`: the
    three squares, the two sums, and `sqrt`, whose result is not negative. -/
def Vector.MagnitudeAccurate (rnd : F → F) (ops : FloatOps F) (u : F) (a : Vector F) :
    Prop :=
  Accurate rnd u (a.x * a.x) ∧ Accurate rnd u (a.y * a.y) ∧ Accurate rnd u (a.z * a.z) ∧
  Accurate rnd u (rnd (a.x * a.x) + rnd (a.y * a.y)) ∧
  Accurate rnd u (rnd (rnd (a.x * a.x) + rnd (a.y * a.y)) + rnd (a.z * a.z)) ∧
  0 ≤ a.magnitudeR rnd ops ∧
  (1 - u) ^ 2 * a.dotProductR rnd a ≤ a.magnitudeR rnd ops * a.magnitudeR rnd ops ∧
  a.magnitudeR rnd ops * a.magnitudeR rnd ops ≤ (1 + u) ^ 2 * a.dotProductR rnd a

/-- Every `float` operation of `normalize` on `a` has relative error at most `u`: those
    of `magnitude`, the quotient `1/magnitude()` and the three products. -/
def Vector.NormalizeAccurate (rnd : F → F) (ops : FloatOps F) (u : F) (a : Vector F) :
    Prop :=
  a.MagnitudeAccurate rnd ops u ∧
  Accurate rnd u (1 / a.magnitudeR rnd ops) ∧
  Accurate rnd u (a.x * rnd (1 / a.magnitudeR rnd ops)) ∧
  Accurate rnd u (a.y * rnd (1 / a.magnitudeR rnd ops)) ∧
  Accurate rnd u (a.z * rnd (1 / a.magnitudeR rnd ops))

end Rounded

section Binary32

/-- Rounding of a rational to the nearest integer, a tie going to the even one. -/
def roundEven (y : ℚ) : ℤ :=
  if y - ⌊y⌋ < 1 / 2 then ⌊y⌋
  else if 1 / 2 < y - ⌊y⌋ then ⌊y⌋ + 1
  else if ⌊y⌋ % 2 = 0 then ⌊y⌋ else ⌊y⌋ + 1

/-- Rounding of a rational to the nearest binary32 value (a 24-bit significand times a
    power of two, ties to even); the range of the exponent is taken unbounded. -/
def round32 (x : ℚ) : ℚ :=
  if x = 0 then 0
  else (roundEven (x / 2 ^ (Int.log 2 |x| - 23)) : ℚ) * 2 ^ (Int.log 2 |x| - 23)

end Binary32

/-! ## Concrete data for evaluating the program -/

section Concrete

/-- A `sqrt` on the rationals that is exact on the squares `0, 1, 4, 9, 16, 25`. -/
def tableSqrt (x : ℚ) : ℚ :=
  if x = 1 then 1 else if x = 4 then 2 else if x = 9 then 3 else if x = 16 then 4
  else if x = 25 then 5 else 0

/-- A `pow` on the rationals that is exact for the exponents `0, 1, 2, 4`. -/
def tablePow (a b : ℚ) : ℚ :=
  if b = 0 then 1 else if b = 1 then a else if b = 2 then a * a
  else if b = 4 then a * a * a * a else 0

/-- The rationals with the two tabulated functions. -/
def tableOps : FloatOps ℚ := ⟨tableSqrt, tablePow⟩

/-- A purely diffuse white material: `KD = (1,1,1)`, all other coefficients zero,
    specular exponent 1, refractive index 1. -/
def matteWhite : Material ℚ :=
  { KA := ⟨0, 0, 0⟩, KD := ⟨1, 1, 1⟩, KS := ⟨0, 0, 0⟩, KR := ⟨0, 0, 0⟩, KO := ⟨0, 0, 0⟩,
    level := 1, eta := 1 }

/-- The ray from `(0,0,3)` looking down the negative `z` axis. -/
def rayDownZ : Ray ℚ := ⟨⟨0, 0, 3⟩, ⟨0, 0, -1⟩⟩

/-- A light at `(0,0,3)` with the negative colour `(-1,-1,-1)`. -/
def darkLight : Light ℚ := ⟨⟨0, 0, 3⟩, ⟨-1, -1, -1⟩⟩

/-- The unit sphere at the origin, in `matteWhite`, lit by `darkLight`. -/
def unitSphere : Shape ℚ := Shape.sphere (Sphere.new ⟨0, 0, 0⟩ 1 matteWhite [darkLight])

/-- The unit sphere at `(0,0,-3)`, in `matteWhite`, lit by `darkLight`. -/
def farSphere : Shape ℚ := Shape.sphere (Sphere.new ⟨0, 0, -3⟩ 1 matteWhite [darkLight])

/-- A camera at `(0,0,4)` looking at the origin, focal length 1, with the view-plane
    bounds left at `0`. -/
def frontCamera : Camera ℚ := Camera.new ⟨0, 0, 4⟩ ⟨0, 0, 0⟩ ⟨0, 1, 0⟩ 1

/-- The scene of the two spheres, the far one first, rendered at `2 x 2`. -/
def darkScene : Scene ℚ :=
  { shapes := [farSphere, unitSphere], camera := frontCamera, height := 2, width := 2 }

/-- A `sqrt` on the rationals that is exact on the squares `1, 4, 9, 16, 49`. -/
def glassSqrt (x : ℚ) : ℚ :=
  if x = 1 then 1 else if x = 4 then 2 else if x = 9 then 3 else if x = 16 then 4
  else if x = 49 then 7 else 0

/-- The rationals with `glassSqrt` and `tablePow`. -/
def glassOps : FloatOps ℚ := ⟨glassSqrt, tablePow⟩

/-- A transmissive material: `KD = KO = (1,1,1)`, refractive index 4. -/
def glass : Material ℚ :=
  { KA := ⟨0, 0, 0⟩, KD := ⟨1, 1, 1⟩, KS := ⟨0, 0, 0⟩, KR := ⟨0, 0, 0⟩, KO := ⟨1, 1, 1⟩,
    level := 1, eta := 4 }

/-- A white light at `(0,0,3)`. -/
def whiteLight : Light ℚ := ⟨⟨0, 0, 3⟩, ⟨1, 1, 1⟩⟩

/-- The sphere of radius 2 at the origin, in `glass`. -/
def glassSphere : Shape ℚ := Shape.sphere (Sphere.new ⟨0, 0, 0⟩ 2 glass [whiteLight])

/-- The scene of the glass sphere alone, rendered at `2 x 2`. -/
def glassScene : Scene ℚ :=
  { shapes := [glassSphere], camera := frontCamera, height := 2, width := 2 }

/-- The triangle `(0,0,0), (9,0,0), (0,9,0)` in the plane `z = 0`, constructed with the
    face normal `(0,0,1)`. -/
def flatTriangle : Shape ℚ :=
  Shape.triangle (Triangle.new ⟨0, 0, 0⟩ ⟨9, 0, 0⟩ ⟨0, 9, 0⟩ ⟨0, 0, 1⟩ matteWhite [whiteLight])

/-- The scene of the triangle alone. -/
def triangleScene : Scene ℚ :=
  { shapes := [flatTriangle], camera := frontCamera, height := 2, width := 2 }

/-- The ray from `(3,4,2)` down the `z` axis, meeting the triangle at `(3,4,0)`. -/
def rayAtTriangle : Ray ℚ := ⟨⟨3, 4, 2⟩, ⟨0, 0, -1⟩⟩

/-- The triangle `(-1,-1,0), (1,-1,0), (0,1,0)` in the plane `z = 0`, which holds the
    world origin in its interior, constructed with the face normal `(0,0,1)`, in
    `matteWhite` (`KR = KO = 0`), lit by `whiteLight`. -/
def originTriangle : Shape ℚ :=
  Shape.triangle
    (Triangle.new ⟨-1, -1, 0⟩ ⟨1, -1, 0⟩ ⟨0, 1, 0⟩ ⟨0, 0, 1⟩ matteWhite [whiteLight])

/-- The scene of `originTriangle` alone. -/
def originScene : Scene ℚ :=
  { shapes := [originTriangle], camera := frontCamera, height := 2, width := 2 }

/-- The ray from `(0,0,2)` down the `z` axis, meeting `originTriangle` at the world
    origin. -/
def rayAtOrigin : Ray ℚ := ⟨⟨0, 0, 2⟩, ⟨0, 0, -1⟩⟩

/-- A camera at `(2,3,6)` looking at the origin, with up `(0,1,0)`. -/
def skewCamera : Camera ℚ := Camera.new ⟨2, 3, 6⟩ ⟨0, 0, 0⟩ ⟨0, 1, 0⟩ 1

/-- A `sqrt` on the rationals holding the binary32 square roots of `49`, `1 + 2^-22`,
    `5485975 / 2^23` and `1 - 2^-23` (and of `0`, `1`, `4`, `16`). -/
def rootSqrt (x : ℚ) : ℚ :=
  if x = 49 then 7
  else if x = 4194305 / 4194304 then 8388609 / 8388608
  else if x = 5485975 / 8388608 then 13567563 / 16777216
  else if x = 8388607 / 8388608 then 16777215 / 16777216
  else if x = 1 then 1 else if x = 4 then 2 else if x = 16 then 4 else 0

/-- The rationals with `rootSqrt` and `tablePow`. -/
def rootOps : FloatOps ℚ := ⟨rootSqrt, tablePow⟩

end Concrete

/-! ## Component-wise reasoning about vectors -/

section VectorLemmas

variable {F : Type} [LinearOrderedField F]

@[simp] theorem Vector.add_x (a b : Vector F) : (a + b).x = a.x + b.x := rfl

@[simp] theorem Vector.add_y (a b : Vector F) : (a + b).y = a.y + b.y := rfl

@[simp] theorem Vector.add_z (a b : Vector F) : (a + b).z = a.z + b.z := rfl

@[simp] theorem Vector.sub_x (a b : Vector F) : (a - b).x = a.x - b.x := rfl

@[simp] theorem Vector.sub_y (a b : Vector F) : (a - b).y = a.y - b.y := rfl

@[simp] theorem Vector.sub_z (a b : Vector F) : (a - b).z = a.z - b.z := rfl

@[simp] theorem Vector.scale_x (a : Vector F) (n : F) : (a.scale n).x = a.x * n := rfl

@[simp] theorem Vector.scale_y (a : Vector F) (n : F) : (a.scale n).y = a.y * n := rfl

@[simp] theorem Vector.scale_z (a : Vector F) (n : F) : (a.scale n).z = a.z * n := rfl

@[simp] theorem Vector.mul_x (a b : Vector F) : (a.mul b).x = a.x * b.x := rfl

@[simp] theorem Vector.mul_y (a b : Vector F) : (a.mul b).y = a.y * b.y := rfl

@[simp] theorem Vector.mul_z (a b : Vector F) : (a.mul b).z = a.z * b.z := rfl

@[simp] theorem Vector.zero_x : (0 : Vector F).x = 0 := rfl

@[simp] theorem Vector.zero_y : (0 : Vector F).y = 0 := rfl

@[simp] theorem Vector.zero_z : (0 : Vector F).z = 0 := rfl

theorem Vector.zero_def : (Vector.zero : Vector F) = 0 := rfl

theorem Vector.splat_zero : (Vector.splat 0 : Vector F) = 0 := rfl

end VectorLemmas

section VectorStructure

variable {F : Type}

@[simp] theorem Vector.splat_x (n : F) : (Vector.splat n).x = n := rfl

@[simp] theorem Vector.splat_y (n : F) : (Vector.splat n).y = n := rfl

@[simp] theorem Vector.splat_z (n : F) : (Vector.splat n).z = n := rfl

theorem Vector.ext_iff3 (a b : Vector F) : a = b ↔ a.x = b.x ∧ a.y = b.y ∧ a.z = b.z := by
  cases a; cases b; simp

end VectorStructure

/-! ## Sphere intersection -/

section SphereTheorems

variable {F : Type} [LinearOrderedField F]

/-- The exact-arithmetic core of C1.  With every operation of `Sphere::intersect` exact:
    for a sphere of radius `r ≥ 0` and a ray with unit direction whose projection
    `v = (c - o).D` is non-negative and whose squared perpendicular distance `dsq` is at
    most `r²`, the method returns true with finite `t0 ≤ t1`; a parameter `t` puts
    `o + t*D` on the sphere exactly when `t` is `t0` or `t1`; and for a ray aimed at the
    centre from distance `dist`, `t0 = dist - r` and `t1 = dist + r`.  The `sqrt` of
    `<cmath>` is assumed to return the non-negative root of `r² - dsq`. -/
theorem Sphere.sphere_hit_exact (ops : FloatOps F) (c o D : Vector F) (r : F)
    (mat : Material F) (lights : List (Light F)) (t0 t1 : WithTop F)
    (hr : 0 ≤ r) (hD : D.dotProduct D = 1)
    (hv : 0 ≤ (c - o).dotProduct D)
    (hd : (c - o).dotProduct (c - o) - (c - o).dotProduct D * (c - o).dotProduct D ≤ r * r)
    (hs0 : 0 ≤ ops.sqrt (r * r -
      ((c - o).dotProduct (c - o) - (c - o).dotProduct D * (c - o).dotProduct D)))
    (hs : ops.sqrt (r * r -
        ((c - o).dotProduct (c - o) - (c - o).dotProduct D * (c - o).dotProduct D)) *
      ops.sqrt (r * r -
        ((c - o).dotProduct (c - o) - (c - o).dotProduct D * (c - o).dotProduct D)) =
      r * r - ((c - o).dotProduct (c - o) - (c - o).dotProduct D * (c - o).dotProduct D)) :
    ∃ a b : F,
      (Sphere.new c r mat lights).intersect ops ⟨o, D⟩ t0 t1
        = (true, (a : WithTop F), (b : WithTop F)) ∧
      a ≤ b ∧
      (∀ t : F, (Ray.pointAt ⟨o, D⟩ t - c).dotProduct (Ray.pointAt ⟨o, D⟩ t - c) = r * r
        ↔ (t = a ∨ t = b)) ∧
      (∀ dist : F, 0 < dist → dist * dist = (c - o).dotProduct (c - o) →
        D = (c - o).scale (1 / dist) → a = dist - r ∧ b = dist + r) := by
  set v := (c - o).dotProduct D with hvdef
  set q := (c - o).dotProduct (c - o) with hqdef
  set s := ops.sqrt (r * r - (q - v * v)) with hsdef
  refine ⟨v - s, v + s, ?_, by linarith, ?_, ?_⟩
  · simp only [Sphere.intersect, Sphere.new]
    rw [if_neg (not_lt.mpr hv), if_neg (not_lt.mpr hd)]
  · intro t
    have key : (Ray.pointAt ⟨o, D⟩ t - c).dotProduct (Ray.pointAt ⟨o, D⟩ t - c) - r * r
        = (t - (v - s)) * (t - (v + s)) := by
      have e1 : (Ray.pointAt ⟨o, D⟩ t - c).dotProduct (Ray.pointAt ⟨o, D⟩ t - c)
          = q - 2 * t * v + t * t * D.dotProduct D := by
        simp only [hqdef, hvdef, Ray.pointAt, Vector.dotProduct, Vector.sub_x, Vector.sub_y,
          Vector.sub_z, Vector.add_x, Vector.add_y, Vector.add_z, Vector.scale_x,
          Vector.scale_y, Vector.scale_z]
        ring
      rw [e1, hD]
      linear_combination hs
    constructor
    · intro h
      have h0 : (t - (v - s)) * (t - (v + s)) = 0 := by rw [← key, h, sub_self]
      rcases mul_eq_zero.mp h0 with h1 | h1
      · left; linarith
      · right; linarith
    · intro h
      have h0 : (t - (v - s)) * (t - (v + s)) = 0 := by
        rcases h with h | h
        · rw [h]; simp
        · rw [h]; simp
      rw [← key] at h0
      linarith
  · intro dist hdist hdd hDeq
    have hvd : v = dist := by
      have h1 : v = q * (1 / dist) := by
        simp only [hvdef, hqdef, hDeq, Vector.dotProduct, Vector.scale_x, Vector.scale_y,
          Vector.scale_z]
        ring
      rw [h1, ← hdd]
      field_simp
    have hsr : s = r := by
      have h2 : s * s = r * r := by rw [hs, hvd, hdd]; ring
      have h3 : (s - r) * (s + r) = 0 := by linear_combination h2
      rcases mul_eq_zero.mp h3 with h4 | h4
      · linarith
      · have : s = 0 := by linarith
        have : r = 0 := by linarith
        linarith
    rw [hvd, hsr]
    exact ⟨rfl, rfl⟩

/-- The exact-arithmetic core of C1 on the unit sphere at the origin and the ray from
    `(0,0,3)` aimed at the centre: `t0 = 3 - 1` and `t1 = 3 + 1`. -/
theorem Sphere.sphere_hit_exact_example :
    (Sphere.new (⟨0, 0, 0⟩ : Vector ℚ) 1 matteWhite []).intersect tableOps
        ⟨⟨0, 0, 3⟩, ⟨0, 0, -1⟩⟩ ⊤ ⊤
      = (true, ((2 : ℚ) : WithTop ℚ), ((4 : ℚ) : WithTop ℚ)) := by
  obtain ⟨a, b, h1, -, -, h4⟩ :=
    Sphere.sphere_hit_exact tableOps (⟨0, 0, 0⟩ : Vector ℚ) ⟨0, 0, 3⟩ ⟨0, 0, -1⟩ 1 matteWhite []
      ⊤ ⊤ (by norm_num) (by norm_num [Vector.dotProduct])
      (by norm_num [Vector.dotProduct])
      (by norm_num [Vector.dotProduct])
      (by norm_num [Vector.dotProduct, tableOps, tableSqrt])
      (by norm_num [Vector.dotProduct, tableOps, tableSqrt])
  obtain ⟨ha, hb⟩ := h4 3 (by norm_num) (by norm_num [Vector.dotProduct])
    (by norm_num [Vector.ext_iff3])
  rw [h1, ha, hb]
  norm_num

end SphereTheorems

/-! ## Triangle intersection -/

section TriangleTheorems

variable {F : Type} [LinearOrderedField F]

end TriangleTheorems

/-! ## Nearest-hit search -/

section NearestHit

variable {F : Type} [LinearOrderedField F]

theorem Scene.scanStep_eq (ops : FloatOps F) (ray : Ray F)
    (st : WithTop F × Option (Shape F)) (sh : Shape F) :
    Scene.scanStep ops ray st sh =
      if sh.hits ops ray = true then
        (if sh.effectiveT ops ray < st.1 then (sh.effectiveT ops ray, some sh) else st)
      else st := rfl

/-- A shape that is hit has a non-negative effective `t`. -/
theorem Shape.effectiveT_nonneg (ops : FloatOps F)
    (sh : Shape F) (ray : Ray F) (hhit : sh.hits ops ray = true) :
    0 ≤ sh.effectiveT ops ray := by
  cases sh with
  | sphere s =>
    simp only [Shape.hits, Shape.intersect, Sphere.intersect] at hhit
    simp only [Shape.effectiveT, Shape.intersect, Sphere.intersect]
    by_cases hv : (s.position - ray.origin).dotProduct ray.direction < 0
    · rw [if_pos hv] at hhit
      exact absurd hhit (by simp)
    · simp only [if_neg hv]
      by_cases hd : (s.position - ray.origin).dotProduct (s.position - ray.origin)
          - (s.position - ray.origin).dotProduct ray.direction
            * (s.position - ray.origin).dotProduct ray.direction > s.radSqrd
      · rw [if_neg hv, if_pos hd] at hhit
        exact absurd hhit (by simp)
      · simp only [if_neg hd]
        have hv' := not_lt.mp hv
        split
        · rename_i h
          rw [← WithTop.coe_zero, WithTop.coe_lt_coe] at h
          exact WithTop.coe_nonneg.mpr (by linarith)
        · rename_i h
          exact not_lt.mp h
  | triangle t =>
    simp only [Shape.effectiveT]
    split
    · simp only [Shape.intersect, Triangle.intersect]
      split
      · exact le_top
      · split
        · exact le_top
        · split
          · exact le_top
          · exact le_top
    · rename_i h
      exact not_lt.mp h

theorem Scene.scanInv_step (ops : FloatOps F) (ray : Ray F) (seen : List (Shape F))
    (st : WithTop F × Option (Shape F)) (x : Shape F)
    (h : Scene.ScanInv ops ray seen st) :
    Scene.ScanInv ops ray (seen ++ [x]) (Scene.scanStep ops ray st x) := by
  obtain ⟨hmin, hnone, hsome⟩ := h
  rw [Scene.scanStep_eq]
  by_cases hx : x.hits ops ray = true
  · rw [if_pos hx]
    by_cases hlt : x.effectiveT ops ray < st.1
    · rw [if_pos hlt]
      refine ⟨?_, ?_, ?_⟩
      · intro s hs hsh
        rcases List.mem_append.mp hs with h1 | h1
        · exact le_trans (le_of_lt hlt) (hmin s h1 hsh)
        · rw [List.mem_singleton.mp h1]
      · intro h0
        exact absurd h0 (by simp)
      · intro sh hsh
        have hsx : x = sh := by simpa using hsh
        subst hsx
        refine ⟨lt_of_lt_of_le hlt le_top, hx, rfl, seen, [], rfl, ?_⟩
        intro s hs hsh'
        exact lt_of_lt_of_le hlt (hmin s hs hsh')
    · rw [if_neg hlt]
      refine ⟨?_, hnone, ?_⟩
      · intro s hs hsh
        rcases List.mem_append.mp hs with h1 | h1
        · exact hmin s h1 hsh
        · rw [List.mem_singleton.mp h1]
          exact not_lt.mp hlt
      · intro sh hsh
        obtain ⟨hfin, h1, h2, pre, post, h3, h4⟩ := hsome sh hsh
        exact ⟨hfin, h1, h2, pre, post ++ [x], by rw [h3]; simp, h4⟩
  · rw [if_neg hx]
    refine ⟨?_, hnone, ?_⟩
    · intro s hs hsh
      rcases List.mem_append.mp hs with h1 | h1
      · exact hmin s h1 hsh
      · rw [List.mem_singleton.mp h1] at hsh
        exact absurd hsh hx
    · intro sh hsh
      obtain ⟨hfin, h1, h2, pre, post, h3, h4⟩ := hsome sh hsh
      exact ⟨hfin, h1, h2, pre, post ++ [x], by rw [h3]; simp, h4⟩

theorem Scene.scanInv_foldl (ops : FloatOps F) (ray : Ray F) (rest : List (Shape F)) :
    ∀ (seen : List (Shape F)) (st : WithTop F × Option (Shape F)),
      Scene.ScanInv ops ray seen st →
      Scene.ScanInv ops ray (seen ++ rest) (rest.foldl (Scene.scanStep ops ray) st) := by
  induction rest with
  | nil => intro seen st h; simpa using h
  | cons x xs ih =>
    intro seen st h
    have h1 := ih (seen ++ [x]) _ (Scene.scanInv_step ops ray seen st x h)
    simpa using h1

theorem Scene.scanInv_nearestHit (ops : FloatOps F) (ray : Ray F) (shapes : List (Shape F)) :
    Scene.ScanInv ops ray shapes (Scene.nearestHit ops shapes ray) := by
  have h0 : Scene.ScanInv ops ray [] ((⊤ : WithTop F), (none : Option (Shape F))) := by
    refine ⟨?_, ?_, ?_⟩
    · intro s hs; exact absurd hs (List.not_mem_nil s)
    · intro _; rfl
    · intro sh hsh; exact absurd hsh (by simp)
  have h1 := Scene.scanInv_foldl ops ray shapes [] _ h0
  simpa [Scene.nearestHit] using h1

/-- C5. If the scan of `Scene::draw` selects the shape `sh` with `tNear`, then `sh` is
    intersected by the ray, `tNear` is its effective `t`, `tNear` is non-negative, it is
    at most the effective `t` of every intersected shape of the list, and `sh` occurs in
    the list at a place before which every intersected shape has a strictly larger
    effective `t` (the earliest minimum is selected). -/
theorem Scene.nearestHit_selects_min (ops : FloatOps F)
    (shapes : List (Shape F)) (ray : Ray F) (tNear : WithTop F) (sh : Shape F)
    (hsel : Scene.nearestHit ops shapes ray = (tNear, some sh)) :
    sh.hits ops ray = true ∧ sh.effectiveT ops ray = tNear ∧ 0 ≤ tNear ∧
    (∀ s ∈ shapes, s.hits ops ray = true → tNear ≤ s.effectiveT ops ray) ∧
    ∃ pre post, shapes = pre ++ sh :: post ∧
      ∀ s ∈ pre, s.hits ops ray = true → tNear < s.effectiveT ops ray := by
  obtain ⟨hmin, -, hsome⟩ := Scene.scanInv_nearestHit ops ray shapes
  rw [hsel] at hmin hsome
  obtain ⟨-, h1, h2, hdec⟩ := hsome sh rfl
  refine ⟨h1, h2, ?_, hmin, hdec⟩
  have := Shape.effectiveT_nonneg ops sh ray h1
  rw [h2] at this
  exact this

end NearestHit

/-! ## The recursive shading function -/

section Draw

variable {F : Type} [LinearOrderedField F]

/-- `Scene::draw` when the scan finds no shape. -/
theorem Scene.drawTrace_none (ops : FloatOps F) (scene : Scene F) (ray : Ray F) (level : Int)
    (h : (Scene.nearestHit ops scene.shapes ray).2 = none) :
    Scene.drawTrace ops scene ray level = (Vector.splat 0, CallTree.done) := by
  rw [Scene.drawTrace]
  simp only [h]

/-- `Scene::draw` when the scan finds `shape` and `level ≤ 0`. -/
theorem Scene.drawTrace_leaf (ops : FloatOps F) (scene : Scene F) (ray : Ray F) (level : Int)
    (shape : Shape F) (h : (Scene.nearestHit ops scene.shapes ray).2 = some shape)
    (hl : level ≤ 0) :
    Scene.drawTrace ops scene ray level
      = (Scene.localColor ops scene ray shape, CallTree.done) := by
  rw [Scene.drawTrace]
  simp only [h]
  rw [dif_neg (not_lt.mpr hl)]
  rfl

/-- `Scene::draw` when the scan finds `shape`, `level > 0` and the refraction ray is
    traced. -/
theorem Scene.drawTrace_both (ops : FloatOps F) (scene : Scene F) (ray : Ray F) (level : Int)
    (shape : Shape F) (h : (Scene.nearestHit ops scene.shapes ray).2 = some shape)
    (hl : 0 < level)
    (hr : (Scene.refractRay ops scene ray shape).direction.sum ≠ 0 ∧ shape.getMat.KO.sum ≠ 0) :
    Scene.drawTrace ops scene ray level
      = (Scene.localColor ops scene ray shape +
          ((((Scene.drawTrace ops scene (Scene.reflectRay ops scene ray shape)
                (level - 1)).1.scale (Scene.lenseEffect ops scene ray shape)).mul
              shape.getMat.KR)
            + (((Scene.drawTrace ops scene (Scene.refractRay ops scene ray shape)
                (level - 1)).1.scale (Scene.lenseEffect ops scene ray shape)).mul
              shape.getMat.KO)).mul shape.getMat.KD,
        CallTree.both (Scene.reflectRay ops scene ray shape)
          (Scene.drawTrace ops scene (Scene.reflectRay ops scene ray shape) (level - 1)).2
          (Scene.refractRay ops scene ray shape)
          (Scene.drawTrace ops scene (Scene.refractRay ops scene ray shape) (level - 1)).2) := by
  rw [Scene.drawTrace]
  simp only [h]
  rw [dif_pos hl]
  have hr' := hr
  simp only [Scene.refractRay, Scene.ptos] at hr'
  rw [if_pos hr']
  rfl

/-- `Scene::draw` when the scan finds `shape`, `level > 0` and the refraction ray is
    not traced. -/
theorem Scene.drawTrace_reflect (ops : FloatOps F) (scene : Scene F) (ray : Ray F)
    (level : Int) (shape : Shape F)
    (h : (Scene.nearestHit ops scene.shapes ray).2 = some shape) (hl : 0 < level)
    (hr : ¬ ((Scene.refractRay ops scene ray shape).direction.sum ≠ 0
      ∧ shape.getMat.KO.sum ≠ 0)) :
    Scene.drawTrace ops scene ray level
      = (Scene.localColor ops scene ray shape +
          ((((Scene.drawTrace ops scene (Scene.reflectRay ops scene ray shape)
                (level - 1)).1.scale (Scene.lenseEffect ops scene ray shape)).mul
              shape.getMat.KR)
            + (((Vector.splat 0).scale (Scene.lenseEffect ops scene ray shape)).mul
              shape.getMat.KO)).mul shape.getMat.KD,
        CallTree.reflect (Scene.reflectRay ops scene ray shape)
          (Scene.drawTrace ops scene (Scene.reflectRay ops scene ray shape) (level - 1)).2) := by
  rw [Scene.drawTrace]
  simp only [h]
  rw [dif_pos hl]
  have hr' := hr
  simp only [Scene.refractRay, Scene.ptos] at hr'
  rw [if_neg hr']
  rfl

end Draw

section DrawTheorems

variable {F : Type} [LinearOrderedField F]

/-- When no shape of the list is intersected, the scan ends with `shape = NULL`. -/
theorem Scene.nearestHit_none_of_no_hit (ops : FloatOps F) (shapes : List (Shape F))
    (ray : Ray F) (hmiss : ∀ s ∈ shapes, s.hits ops ray = false) :
    (Scene.nearestHit ops shapes ray).2 = none := by
  obtain ⟨-, -, hsome⟩ := Scene.scanInv_nearestHit ops ray shapes
  cases hsel : (Scene.nearestHit ops shapes ray).2 with
  | none => rfl
  | some sh =>
    obtain ⟨-, h1, -, pre, post, h3, -⟩ := hsome sh hsel
    have hmem : sh ∈ shapes := by rw [h3]; simp
    rw [hmiss sh hmem] at h1
    exact absurd h1 (by simp)

/-- When the scan selects a shape, `tNear` is finite. -/
theorem Scene.nearestHit_finite (ops : FloatOps F) (shapes : List (Shape F))
    (ray : Ray F) (sh : Shape F) (hsel : (Scene.nearestHit ops shapes ray).2 = some sh) :
    ∃ t : F, (Scene.nearestHit ops shapes ray).1 = (t : WithTop F) := by
  obtain ⟨-, -, hsome⟩ := Scene.scanInv_nearestHit ops ray shapes
  obtain ⟨hfin, -⟩ := hsome sh hsel
  exact ⟨WithTop.untop _ (ne_of_lt hfin), (WithTop.coe_untop _ _).symm⟩

/-- C6. If no shape of the scene is intersected by the ray (in particular if the scene
    has no shape), `Scene::draw` returns `(0, 0, 0)` and makes no recursive call, at every
    level. -/
theorem Scene.draw_no_hit (ops : FloatOps F) (scene : Scene F) (ray : Ray F) (level : Int)
    (hmiss : ∀ s ∈ scene.shapes, s.hits ops ray = false) :
    Scene.draw ops scene ray level = ⟨0, 0, 0⟩ ∧
    (Scene.drawTrace ops scene ray level).2 = CallTree.done := by
  have h := Scene.drawTrace_none ops scene ray level
    (Scene.nearestHit_none_of_no_hit ops scene.shapes ray hmiss)
  rw [Scene.draw, h]
  exact ⟨rfl, rfl⟩

/-- The depth of the tree of recursive calls of `Scene::draw` is at most the level. -/
theorem Scene.drawTrace_depth_le (ops : FloatOps F) (scene : Scene F) :
    ∀ (n : Nat) (ray : Ray F) (level : Int), level.toNat ≤ n →
      (Scene.drawTrace ops scene ray level).2.depth ≤ level.toNat := by
  intro n
  induction n with
  | zero =>
    intro ray level hl
    have hl0 : level ≤ 0 := by omega
    cases hsel : (Scene.nearestHit ops scene.shapes ray).2 with
    | none => rw [Scene.drawTrace_none ops scene ray level hsel]; simp [CallTree.depth]
    | some sh => rw [Scene.drawTrace_leaf ops scene ray level sh hsel hl0]; simp [CallTree.depth]
  | succ k ih =>
    intro ray level hl
    cases hsel : (Scene.nearestHit ops scene.shapes ray).2 with
    | none => rw [Scene.drawTrace_none ops scene ray level hsel]; simp [CallTree.depth]
    | some sh =>
      by_cases hl0 : level ≤ 0
      · rw [Scene.drawTrace_leaf ops scene ray level sh hsel hl0]; simp [CallTree.depth]
      · have hpos : 0 < level := not_le.mp hl0
        have hk : (level - 1).toNat ≤ k := by omega
        have h1 := ih (Scene.reflectRay ops scene ray sh) (level - 1) hk
        have h2 := ih (Scene.refractRay ops scene ray sh) (level - 1) hk
        by_cases hr : (Scene.refractRay ops scene ray sh).direction.sum ≠ 0
            ∧ sh.getMat.KO.sum ≠ 0
        · rw [Scene.drawTrace_both ops scene ray level sh hsel hpos hr]
          simp only [CallTree.depth]
          have := max_le h1 h2
          omega
        · rw [Scene.drawTrace_reflect ops scene ray level sh hsel hpos hr]
          simp only [CallTree.depth]
          omega

/-- C7. `Scene::draw` is a total function.  Called with `level ≤ 0` it makes no
    recursive call (no reflection or refraction ray is traced) and returns black when
    nothing is hit and otherwise the local illumination of the hit shape, whatever the
    material; and at every level the chains of nested recursive calls have length at
    most `level` (each recursive call passes `level - 1`). -/
theorem Scene.draw_level_bound (ops : FloatOps F) (scene : Scene F) (ray : Ray F) :
    (∀ level : Int, level ≤ 0 →
      (Scene.drawTrace ops scene ray level).2 = CallTree.done ∧
      Scene.draw ops scene ray level =
        match (Scene.nearestHit ops scene.shapes ray).2 with
        | none => Vector.splat 0
        | some shape => Scene.localColor ops scene ray shape) ∧
    (∀ n : Nat, (Scene.drawTrace ops scene ray (n : Int)).2.depth ≤ n) ∧
    (∀ level : Int, (Scene.drawTrace ops scene ray level).2.depth ≤ level.toNat) := by
  refine ⟨?_, ?_, ?_⟩
  · intro level hl
    cases hsel : (Scene.nearestHit ops scene.shapes ray).2 with
    | none =>
      rw [Scene.draw, Scene.drawTrace_none ops scene ray level hsel]
      exact ⟨rfl, rfl⟩
    | some sh =>
      rw [Scene.draw, Scene.drawTrace_leaf ops scene ray level sh hsel hl]
      exact ⟨rfl, rfl⟩
  · intro n
    have := Scene.drawTrace_depth_le ops scene n ray (n : Int) (by simp)
    simpa using this
  · intro level
    exact Scene.drawTrace_depth_le ops scene level.toNat ray level le_rfl

end DrawTheorems

section Refraction

variable {F : Type} [LinearOrderedField F]

theorem Vector.sum_zero_vec : (⟨0, 0, 0⟩ : Vector F).sum = 0 := by
  simp [Vector.sum]

/-- C8. (1) When the Snell discriminant `1 - (eta1/eta2)² (1 - (W.N)²)` is negative,
    `refractRay` returns the zero vector.  (2, 3) When the first or the second
    refraction step of `refractExit` yields the zero vector, the ray `refractExit`
    returns has the zero direction.  (4) When the ray `refractExit` returns to
    `Scene::draw` has the zero direction, `draw` (at a level `> 0`, on a hit) makes no
    recursive call for it, and the colour it returns is the combination in which the
    refraction colour is `(0, 0, 0)`. -/
theorem refractRay_total_internal_reflection (ops : FloatOps F) :
    (∀ (W pt N : Vector F) (eta1 eta2 : F) (shape : Shape F),
      1 - (eta1 / eta2) * (eta1 / eta2) * (1 - W.dotProduct N * W.dotProduct N) < 0 →
      refractRay ops W pt N eta1 eta2 shape = ⟨0, 0, 0⟩) ∧
    (∀ (W pt : Vector F) (eta_in : F) (shape : Shape F),
      refractRay ops W pt ((pt - shape.getPos).normalize ops) 1 eta_in shape = ⟨0, 0, 0⟩ →
      (refractExit ops W pt eta_in shape).direction = ⟨0, 0, 0⟩) ∧
    (∀ (W pt : Vector F) (eta_in : F) (shape : Shape F) (T1 exit : Vector F),
      T1 = refractRay ops W pt ((pt - shape.getPos).normalize ops) 1 eta_in shape →
      exit = pt + (T1.scale 2).scale ((shape.getPos - pt).dotProduct T1) →
      refractRay ops (T1.scale (-1)) exit (shape.getPos - exit) eta_in 1 shape = ⟨0, 0, 0⟩ →
      (refractExit ops W pt eta_in shape).direction = ⟨0, 0, 0⟩) ∧
    (∀ (scene : Scene F) (ray : Ray F) (level : Int) (shape : Shape F),
      (Scene.nearestHit ops scene.shapes ray).2 = some shape → 0 < level →
      (Scene.refractRay ops scene ray shape).direction = ⟨0, 0, 0⟩ →
      (Scene.drawTrace ops scene ray level).2
        = CallTree.reflect (Scene.reflectRay ops scene ray shape)
            (Scene.drawTrace ops scene (Scene.reflectRay ops scene ray shape) (level - 1)).2 ∧
      (Scene.drawTrace ops scene ray level).2.tracesRefraction = false ∧
      Scene.draw ops scene ray level
        = Scene.localColor ops scene ray shape +
          ((((Scene.draw ops scene (Scene.reflectRay ops scene ray shape)
                (level - 1)).scale (Scene.lenseEffect ops scene ray shape)).mul
              shape.getMat.KR)
            + (((⟨0, 0, 0⟩ : Vector F).scale (Scene.lenseEffect ops scene ray shape)).mul
              shape.getMat.KO)).mul shape.getMat.KD) := by
  refine ⟨?_, ?_, ?_, ?_⟩
  · intro W pt N eta1 eta2 shape hneg
    simp only [refractRay]
    rw [if_neg (not_lt.mpr (le_of_lt hneg))]
    rfl
  · intro W pt eta_in shape h
    simp only [refractExit]
    rw [h]
    simp [Vector.sum, Ray.default, Vector.zero]
  · intro W pt eta_in shape T1 exit hT1 hexit h
    subst hT1
    subst hexit
    simp only [refractExit]
    split
    · exact h
    · rfl
  · intro scene ray level shape hsel hl hdir
    have hr : ¬ ((Scene.refractRay ops scene ray shape).direction.sum ≠ 0
        ∧ shape.getMat.KO.sum ≠ 0) := by
      rw [hdir, Vector.sum_zero_vec]
      simp
    have h := Scene.drawTrace_reflect ops scene ray level shape hsel hl hr
    rw [Scene.draw, h]
    exact ⟨rfl, rfl, rfl⟩

end Refraction

section Matte

variable {F : Type} [LinearOrderedField F]

theorem Vector.add_assoc3 (a b c : Vector F) : a + b + c = a + (b + c) := by
  rw [Vector.ext_iff3]
  simp only [Vector.add_x, Vector.add_y, Vector.add_z]
  exact ⟨add_assoc _ _ _, add_assoc _ _ _, add_assoc _ _ _⟩

theorem Vector.add_zero3 (a : Vector F) : a + 0 = a := by
  rw [Vector.ext_iff3]
  simp

theorem Vector.zero_add3 (a : Vector F) : 0 + a = a := by
  rw [Vector.ext_iff3]
  simp

theorem Scene.lightStep_eq (ops : FloatOps F) (shape : Shape F) (ptos snorm : Vector F)
    (pv : Vector F) (light : Light F) :
    Scene.lightStep ops shape ptos snorm pv light
      = if Scene.lit ops ptos snorm light = true then
          pv + Scene.lightTerm ops shape ptos snorm light
        else pv := by
  simp only [Scene.lightStep, Scene.lit, Scene.lightTerm, decide_eq_true_eq, gt_iff_lt]
  split
  · rename_i h
    rw [max_eq_right (le_of_lt h), Vector.add_assoc3]
  · rfl

theorem Scene.foldl_lightStep (ops : FloatOps F) (shape : Shape F) (ptos snorm : Vector F)
    (lights : List (Light F)) :
    ∀ pv : Vector F, lights.foldl (Scene.lightStep ops shape ptos snorm) pv
      = pv + ((lights.filter (Scene.lit ops ptos snorm)).map
          (Scene.lightTerm ops shape ptos snorm)).sum := by
  induction lights with
  | nil => intro pv; simp [Vector.add_zero3]
  | cons l ls ih =>
    intro pv
    rw [List.foldl_cons, ih, Scene.lightStep_eq]
    by_cases hl : Scene.lit ops ptos snorm l = true
    · rw [if_pos hl, List.filter_cons_of_pos hl, List.map_cons, List.sum_cons,
        Vector.add_assoc3]
    · rw [if_neg hl, List.filter_cons_of_neg hl]

/-- The local illumination is the sum of the terms of the lights with `N.L > 0`. -/
theorem Scene.localIllumination_eq_sum (ops : FloatOps F) (shape : Shape F)
    (ptos snorm : Vector F) :
    Scene.localIllumination ops shape ptos snorm
      = ((shape.getLights.filter (Scene.lit ops ptos snorm)).map
          (Scene.lightTerm ops shape ptos snorm)).sum := by
  rw [Scene.localIllumination, Scene.foldl_lightStep, Vector.zero_def, Vector.zero_add3]

/-- With `KR = KO = (0,0,0)` the recursive terms of `Scene::draw` vanish. -/
theorem Scene.draw_eq_localColor (ops : FloatOps F) (scene : Scene F) (ray : Ray F)
    (n : Int) (shape : Shape F)
    (hhit : (Scene.nearestHit ops scene.shapes ray).2 = some shape)
    (hKR : shape.getMat.KR = ⟨0, 0, 0⟩) (hKO : shape.getMat.KO = ⟨0, 0, 0⟩) :
    Scene.draw ops scene ray n = Scene.localColor ops scene ray shape := by
  by_cases hl : n ≤ 0
  · rw [Scene.draw, Scene.drawTrace_leaf ops scene ray n shape hhit hl]
  · have hpos : 0 < n := not_le.mp hl
    by_cases hr : (Scene.refractRay ops scene ray shape).direction.sum ≠ 0
        ∧ shape.getMat.KO.sum ≠ 0
    · rw [Scene.draw, Scene.drawTrace_both ops scene ray n shape hhit hpos hr, hKR, hKO]
      rw [Vector.ext_iff3]
      simp
    · rw [Scene.draw, Scene.drawTrace_reflect ops scene ray n shape hhit hpos hr, hKR, hKO]
      rw [Vector.ext_iff3]
      simp

/-- The exact-arithmetic core of C9, with every operation exact and no division by
    zero (the field's `1/0 = 0` stands where `float` has an infinity).  If the shape the
    ray hits has `KR = (0,0,0)` and `KO = (0,0,0)`, then
    `Scene::draw` returns the same colour at every level as at level 0; that colour is
    the sum, over the lights of the hit shape with `N.L > 0`, of
    `lightColor*KD*(N.L) + lightColor*KS*max(0, pow(N.L, specularExponent))`; and it is
    `(0,0,0)` when every light has `N.L ≤ 0`. -/
theorem Scene.draw_level_invariant_exact (ops : FloatOps F) (scene : Scene F) (ray : Ray F)
    (n : Int) (shape : Shape F)
    (hhit : (Scene.nearestHit ops scene.shapes ray).2 = some shape)
    (hKR : shape.getMat.KR = ⟨0, 0, 0⟩) (hKO : shape.getMat.KO = ⟨0, 0, 0⟩) :
    Scene.draw ops scene ray n = Scene.draw ops scene ray 0 ∧
    Scene.draw ops scene ray n
      = ((shape.getLights.filter
            (fun l => decide (0 < (Scene.snorm ops scene ray shape).dotProduct
              ((l.position - Scene.ptos ops scene ray).normalize ops)))).map
          (fun l =>
            (l.color.mul shape.getMat.KD).scale
              ((Scene.snorm ops scene ray shape).dotProduct
                ((l.position - Scene.ptos ops scene ray).normalize ops))
            + (l.color.mul shape.getMat.KS).scale
              (max 0 (ops.pow ((Scene.snorm ops scene ray shape).dotProduct
                ((l.position - Scene.ptos ops scene ray).normalize ops))
                shape.getMat.level)))).sum ∧
    ((∀ l ∈ shape.getLights, (Scene.snorm ops scene ray shape).dotProduct
        ((l.position - Scene.ptos ops scene ray).normalize ops) ≤ 0) →
      Scene.draw ops scene ray n = ⟨0, 0, 0⟩) := by
  have h1 := Scene.draw_eq_localColor ops scene ray n shape hhit hKR hKO
  have h0 := Scene.draw_eq_localColor ops scene ray 0 shape hhit hKR hKO
  have hs : Scene.localColor ops scene ray shape
      = ((shape.getLights.filter (Scene.lit ops (Scene.ptos ops scene ray)
            (Scene.snorm ops scene ray shape))).map
          (Scene.lightTerm ops shape (Scene.ptos ops scene ray)
            (Scene.snorm ops scene ray shape))).sum := by
    rw [Scene.localColor, Scene.localIllumination_eq_sum]
  refine ⟨by rw [h1, h0], ?_, ?_⟩
  · rw [h1, hs]
    rfl
  · intro hall
    rw [h1, hs]
    have hfil : shape.getLights.filter (Scene.lit ops (Scene.ptos ops scene ray)
        (Scene.snorm ops scene ray shape)) = [] := by
      rw [List.filter_eq_nil_iff]
      intro l hl
      simp only [Scene.lit, decide_eq_true_eq, not_lt]
      exact hall l hl
    rw [hfil]
    rfl

end Matte

section ConcreteScene

theorem farSphere_intersect :
    farSphere.intersect tableOps rayDownZ ⊤ ⊤
      = (true, ((5 : ℚ) : WithTop ℚ), ((7 : ℚ) : WithTop ℚ)) := by
  norm_num [farSphere, Shape.intersect, Sphere.intersect, Sphere.new, rayDownZ,
    Vector.dotProduct, tableOps, tableSqrt]

theorem unitSphere_intersect :
    unitSphere.intersect tableOps rayDownZ ⊤ ⊤
      = (true, ((2 : ℚ) : WithTop ℚ), ((4 : ℚ) : WithTop ℚ)) := by
  norm_num [unitSphere, Shape.intersect, Sphere.intersect, Sphere.new, rayDownZ,
    Vector.dotProduct, tableOps, tableSqrt]

theorem darkScene_nearestHit :
    Scene.nearestHit tableOps darkScene.shapes rayDownZ
      = (((2 : ℚ) : WithTop ℚ), some unitSphere) := by
  have h5 : ¬ (((5 : ℚ) : WithTop ℚ) < 0) := by
    rw [← WithTop.coe_zero, WithTop.coe_lt_coe]; norm_num
  have h2 : ¬ (((2 : ℚ) : WithTop ℚ) < 0) := by
    rw [← WithTop.coe_zero, WithTop.coe_lt_coe]; norm_num
  have h25 : ((2 : ℚ) : WithTop ℚ) < ((5 : ℚ) : WithTop ℚ) := by
    rw [WithTop.coe_lt_coe]; norm_num
  simp only [Scene.nearestHit, darkScene, List.foldl_cons, List.foldl_nil, Scene.scanStep,
    farSphere_intersect, unitSphere_intersect, h5, h2, h25, WithTop.coe_lt_top, if_true,
    if_false]

end ConcreteScene

section RenderTheorems

theorem darkScene_primaryRay (i j : Nat) :
    Scene.primaryRay tableOps darkScene i j = rayDownZ := by
  simp only [Scene.primaryRay, darkScene, frontCamera, Camera.new, Camera.getW, Camera.getU,
    Camera.getV, Vector.normalize, Vector.magnitude, Vector.crossProduct, rayDownZ,
    tableOps, tableSqrt]
  norm_num [Vector.ext_iff3]

theorem darkScene_localColor :
    Scene.localColor tableOps darkScene rayDownZ unitSphere = ⟨-1, -1, -1⟩ := by
  have hp : Scene.ptos tableOps darkScene rayDownZ = ⟨0, 0, 1⟩ := by
    rw [Scene.ptos, darkScene_nearestHit]
    simp only [WithTop.untop'_coe, rayDownZ]
    norm_num [Vector.ext_iff3]
  have hn : Scene.snorm tableOps darkScene rayDownZ unitSphere = ⟨0, 0, 1⟩ := by
    rw [Scene.snorm, hp]
    simp only [unitSphere, Shape.getPos, Sphere.new, Vector.normalize, Vector.magnitude,
      tableOps, tableSqrt]
    norm_num [Vector.ext_iff3]
  rw [Scene.localColor, hp, hn]
  simp only [Scene.localIllumination, unitSphere, Shape.getLights, Sphere.new,
    List.foldl_cons, List.foldl_nil, Scene.lightStep, darkLight, Shape.getMat, matteWhite,
    Vector.normalize, Vector.magnitude, Vector.dotProduct, tableOps, tableSqrt, tablePow]
  norm_num [Vector.ext_iff3, Vector.zero]

theorem darkScene_draw : Scene.draw tableOps darkScene rayDownZ 5 = ⟨-1, -1, -1⟩ := by
  rw [Scene.draw_eq_localColor tableOps darkScene rayDownZ 5 unitSphere
    (by rw [darkScene_nearestHit]) rfl rfl]
  exact darkScene_localColor

end RenderTheorems

section ByteTheorems

variable {F : Type} [LinearOrderedField F] [FloorRing F]

/-- C10 fails for a negative channel value.  In `darkScene` (a light of colour
    `(-1,-1,-1)`) every primary ray of `Scene::render` gets the colour `(-1,-1,-1)` from
    `Scene::draw`, and for the channel value `-1` the conversion of
    `min(1, -1) * 255 = -255` to `unsigned char` has no value in `0..255`: all twelve
    bytes of the `2 x 2` image are undefined. -/
theorem Scene.channelByte_counterexample :
    Scene.draw tableOps darkScene (Scene.primaryRay tableOps darkScene 0 0) 5
      = ⟨-1, -1, -1⟩ ∧
    Scene.channelByte (-1 : ℚ) = none ∧
    Scene.render tableOps darkScene = some (List.replicate 12 none) := by
  have hb : Scene.channelByte (-1 : ℚ) = none := by
    norm_num [Scene.channelByte, toUnsignedChar]
  refine ⟨?_, hb, ?_⟩
  · rw [darkScene_primaryRay, darkScene_draw]
  · have hw : darkScene.width = 2 := rfl
    have hh : darkScene.height = 2 := rfl
    have h2 : (2 : Int).toNat = 2 := rfl
    have h4 : ((2 : Int) * 2).toNat = 4 := rfl
    have hr : List.range 2 = [0, 1] := rfl
    simp only [Scene.render, Scene.renderImage, hw, hh, h2, h4, hr, darkScene_primaryRay,
      darkScene_draw]
    norm_num [hb, List.replicate]

/-- C10 (amended). For every channel value `x ≥ 0` the byte `Scene::render` writes is
    defined and lies in `0..255`; it is `255` when `x > 1` and `floor(255 * x)`
    otherwise. -/
theorem Scene.channelByte_of_nonneg (x : F) (hx : 0 ≤ x) :
    ∃ b : Nat, Scene.channelByte x = some b ∧ b ≤ 255 ∧
      (1 < x → b = 255) ∧ (x ≤ 1 → (b : Int) = ⌊255 * x⌋) := by
  have hm : 0 ≤ min 1 x * 255 := mul_nonneg (le_min zero_le_one hx) (by norm_num)
  have hle : min 1 x * 255 ≤ 255 := by
    have : min 1 x ≤ 1 := min_le_left _ _
    nlinarith
  have hf0 : 0 ≤ ⌊min 1 x * 255⌋ := Int.floor_nonneg.mpr hm
  have hf1 : ⌊min 1 x * 255⌋ ≤ 255 := by
    have h1 : ⌊min 1 x * 255⌋ ≤ ⌊(255 : F)⌋ := Int.floor_le_floor hle
    have h2 : ⌊(255 : F)⌋ = 255 := by
      have : ((255 : Int) : F) = 255 := by norm_num
      rw [← this, Int.floor_intCast]
    rw [h2] at h1
    exact h1
  refine ⟨⌊min 1 x * 255⌋.toNat, ?_, ?_, ?_, ?_⟩
  · simp only [Scene.channelByte, toUnsignedChar]
    rw [if_pos hm, if_pos ⟨hf0, hf1⟩]
  · omega
  · intro h1
    rw [min_eq_left (le_of_lt h1), one_mul]
    have : ((255 : Int) : F) = 255 := by norm_num
    rw [← this, Int.floor_intCast]
    rfl
  · intro h1
    rw [Int.toNat_of_nonneg hf0, min_eq_right h1, mul_comm]

/-- Witness of C10 (amended): the channel value `1/2` is written as the byte `127`. -/
theorem Scene.channelByte_of_nonneg_witness :
    Scene.channelByte (1 / 2 : ℚ) = some 127 := by
  obtain ⟨b, h1, -, -, h4⟩ := Scene.channelByte_of_nonneg (1 / 2 : ℚ) (by norm_num)
  have h5 := h4 (by norm_num)
  have h6 : ⌊(255 : ℚ) * (1 / 2)⌋ = 127 := by
    rw [Int.floor_eq_iff]; norm_num
  rw [h6] at h5
  have h7 : b = 127 := by exact_mod_cast h5
  rw [h1, h7]

end ByteTheorems

section Witnesses

/-- Witness of C5: in `darkScene` the ray down the `z` axis selects the unit sphere at
    the origin (effective `t = 2`), listed after the sphere at `(0,0,-3)` (effective
    `t = 5`). -/
theorem Scene.nearestHit_selects_min_witness :
    unitSphere.hits tableOps rayDownZ = true ∧
    unitSphere.effectiveT tableOps rayDownZ = ((2 : ℚ) : WithTop ℚ) ∧
    0 ≤ ((2 : ℚ) : WithTop ℚ) ∧
    (∀ s ∈ darkScene.shapes, s.hits tableOps rayDownZ = true →
      ((2 : ℚ) : WithTop ℚ) ≤ s.effectiveT tableOps rayDownZ) ∧
    ∃ pre post, darkScene.shapes = pre ++ unitSphere :: post ∧
      ∀ s ∈ pre, s.hits tableOps rayDownZ = true →
        ((2 : ℚ) : WithTop ℚ) < s.effectiveT tableOps rayDownZ :=
  Scene.nearestHit_selects_min tableOps darkScene.shapes rayDownZ
    ((2 : ℚ) : WithTop ℚ) unitSphere darkScene_nearestHit

/-- Witness of C6: in `darkScene` the ray from `(2,0,3)` down the `z` axis misses both
    spheres and is drawn black without a recursive call. -/
theorem Scene.draw_no_hit_witness :
    Scene.draw tableOps darkScene ⟨⟨2, 0, 3⟩, ⟨0, 0, -1⟩⟩ 5 = ⟨0, 0, 0⟩ ∧
    (Scene.drawTrace tableOps darkScene ⟨⟨2, 0, 3⟩, ⟨0, 0, -1⟩⟩ 5).2 = CallTree.done :=
  Scene.draw_no_hit tableOps darkScene ⟨⟨2, 0, 3⟩, ⟨0, 0, -1⟩⟩ 5 (by
    intro s hs
    simp only [darkScene, List.mem_cons, List.mem_singleton, List.not_mem_nil, or_false] at hs
    rcases hs with rfl | rfl
    · norm_num [Shape.hits, farSphere, Shape.intersect, Sphere.intersect, Sphere.new,
        Vector.dotProduct]
    · norm_num [Shape.hits, unitSphere, Shape.intersect, Sphere.intersect, Sphere.new,
        Vector.dotProduct])

/-- Witness of C7: in `darkScene` the call at level 0 makes no recursive call, and the
    call at level 5 nests at most 5 deep. -/
theorem Scene.draw_level_bound_witness :
    (Scene.drawTrace tableOps darkScene rayDownZ 0).2 = CallTree.done ∧
    (Scene.drawTrace tableOps darkScene rayDownZ ((5 : Nat) : Int)).2.depth ≤ 5 :=
  ⟨((Scene.draw_level_bound tableOps darkScene rayDownZ).1 0 le_rfl).1,
    (Scene.draw_level_bound tableOps darkScene rayDownZ).2.1 5⟩

/-- Witness of C8: with `eta1 / eta2 = 2` and `W.N = 0` the discriminant is `-3` and
    `refractRay` returns the zero vector. -/
theorem refractRay_total_internal_reflection_witness :
    refractRay tableOps (⟨0, 0, 1⟩ : Vector ℚ) ⟨0, 0, 0⟩ ⟨1, 0, 0⟩ 2 1 unitSphere
      = ⟨0, 0, 0⟩ :=
  (refractRay_total_internal_reflection tableOps).1 ⟨0, 0, 1⟩ ⟨0, 0, 0⟩ ⟨1, 0, 0⟩ 2 1
    unitSphere (by norm_num [Vector.dotProduct])

/-- The exact-arithmetic core of C9 on `darkScene`, whose material has
    `KR = KO = (0,0,0)`: the ray down the `z` axis is drawn the same at level 5 as at
    level 0. -/
theorem Scene.draw_level_invariant_exact_example :
    Scene.draw tableOps darkScene rayDownZ 5 = Scene.draw tableOps darkScene rayDownZ 0 :=
  (Scene.draw_level_invariant_exact tableOps darkScene rayDownZ 5 unitSphere
    (by rw [darkScene_nearestHit]) rfl rfl).1

end Witnesses

/-! ## Normalisation and the camera basis -/

section Normalize

variable {F : Type} [LinearOrderedField F]

/-- The sum of squares under the `sqrt` of `magnitude` is positive for a non-zero
    vector. -/
theorem Vector.sumSq_pos (V : Vector F) (hV : V ≠ ⟨0, 0, 0⟩) :
    0 < V.x * V.x + V.y * V.y + V.z * V.z := by
  have hx := mul_self_nonneg V.x
  have hy := mul_self_nonneg V.y
  have hz := mul_self_nonneg V.z
  rcases lt_or_eq_of_le (add_nonneg (add_nonneg hx hy) hz) with h | h
  · exact h
  · exfalso
    apply hV
    have ex : V.x * V.x = 0 := by linarith
    have ey : V.y * V.y = 0 := by linarith
    have ez : V.z * V.z = 0 := by linarith
    rw [Vector.ext_iff3]
    exact ⟨mul_self_eq_zero.mp ex, mul_self_eq_zero.mp ey, mul_self_eq_zero.mp ez⟩

/-- The normalised vector has sum of squares 1 when `sqrt` is exact on the sum of
    squares of a non-zero vector. -/
theorem Vector.normalize_sumSq (ops : FloatOps F) (V : Vector F) (hV : V ≠ ⟨0, 0, 0⟩)
    (hs : ops.sqrt (V.x * V.x + V.y * V.y + V.z * V.z)
        * ops.sqrt (V.x * V.x + V.y * V.y + V.z * V.z)
      = V.x * V.x + V.y * V.y + V.z * V.z) :
    (V.normalize ops).x * (V.normalize ops).x + (V.normalize ops).y * (V.normalize ops).y
      + (V.normalize ops).z * (V.normalize ops).z = 1 := by
  have hq := Vector.sumSq_pos V hV
  have hm : ops.sqrt (V.x * V.x + V.y * V.y + V.z * V.z) ≠ 0 := by
    intro h0
    rw [h0, mul_zero] at hs
    linarith
  simp only [Vector.normalize, Vector.magnitude]
  field_simp
  nlinarith [hs]

/-- The exact-arithmetic core of C11.  With every operation exact, for a non-zero vector
    `V`, with `sqrt` returning the non-negative root of the sum of squares of `V` and
    `sqrt 1 = 1`: `normalize` returns `V` scaled by the
    positive factor `1/|V|`, the result has magnitude 1, normalising it again changes
    nothing; and a vector whose magnitude is already 1 is left unchanged. -/
theorem Vector.normalize_unit_exact (ops : FloatOps F) (V : Vector F) (hV : V ≠ ⟨0, 0, 0⟩)
    (hs0 : 0 ≤ ops.sqrt (V.x * V.x + V.y * V.y + V.z * V.z))
    (hs : ops.sqrt (V.x * V.x + V.y * V.y + V.z * V.z)
        * ops.sqrt (V.x * V.x + V.y * V.y + V.z * V.z)
      = V.x * V.x + V.y * V.y + V.z * V.z)
    (h1 : ops.sqrt 1 = 1) :
    V.normalize ops = V.scale (1 / V.magnitude ops) ∧ 0 < 1 / V.magnitude ops ∧
    (V.normalize ops).magnitude ops = 1 ∧
    (V.normalize ops).normalize ops = V.normalize ops ∧
    (V.magnitude ops = 1 → V.normalize ops = V) := by
  have hq := Vector.sumSq_pos V hV
  have hm : ops.sqrt (V.x * V.x + V.y * V.y + V.z * V.z) ≠ 0 := by
    intro h0
    rw [h0, mul_zero] at hs
    linarith
  have hmpos : 0 < V.magnitude ops := lt_of_le_of_ne hs0 (Ne.symm hm)
  have hmag : (V.normalize ops).magnitude ops = 1 := by
    rw [Vector.magnitude, Vector.normalize_sumSq ops V hV hs, h1]
  refine ⟨rfl, one_div_pos.mpr hmpos, hmag, ?_, ?_⟩
  · have : (V.normalize ops).normalize ops
        = ⟨(V.normalize ops).x * (1 / (V.normalize ops).magnitude ops),
           (V.normalize ops).y * (1 / (V.normalize ops).magnitude ops),
           (V.normalize ops).z * (1 / (V.normalize ops).magnitude ops)⟩ := rfl
    rw [this, hmag]
    simp
  · intro hone
    have : V.normalize ops
        = ⟨V.x * (1 / V.magnitude ops), V.y * (1 / V.magnitude ops),
           V.z * (1 / V.magnitude ops)⟩ := rfl
    rw [this, hone]
    simp

/-- The exact-arithmetic core of C11 on `(0,0,3)`, normalised to `(0,0,1)`. -/
theorem Vector.normalize_unit_exact_example :
    (⟨0, 0, 3⟩ : Vector ℚ).normalize tableOps
        = (⟨0, 0, 3⟩ : Vector ℚ).scale (1 / (⟨0, 0, 3⟩ : Vector ℚ).magnitude tableOps) ∧
    ((⟨0, 0, 3⟩ : Vector ℚ).normalize tableOps).magnitude tableOps = 1 ∧
    ((⟨0, 0, 3⟩ : Vector ℚ).normalize tableOps).normalize tableOps
      = (⟨0, 0, 3⟩ : Vector ℚ).normalize tableOps := by
  obtain ⟨h1, -, h3, h4, -⟩ := Vector.normalize_unit_exact tableOps (⟨0, 0, 3⟩ : Vector ℚ)
    (by simp [Vector.ext_iff3]) (by norm_num [tableOps, tableSqrt])
    (by norm_num [tableOps, tableSqrt]) (by norm_num [tableOps, tableSqrt])
  exact ⟨h1, h3, h4⟩

end Normalize

section CameraBasis

variable {F : Type} [LinearOrderedField F]

/-- The cross product of two orthogonal unit vectors is a unit vector orthogonal to
    both. -/
theorem Vector.cross_orthonormal (W U : Vector F)
    (hW : W.x * W.x + W.y * W.y + W.z * W.z = 1)
    (hU : U.x * U.x + U.y * U.y + U.z * U.z = 1)
    (hWU : W.dotProduct U = 0) :
    (W.crossProduct U).x * (W.crossProduct U).x + (W.crossProduct U).y * (W.crossProduct U).y
      + (W.crossProduct U).z * (W.crossProduct U).z = 1 ∧
    U.dotProduct (W.crossProduct U) = 0 ∧ (W.crossProduct U).dotProduct W = 0 := by
  simp only [Vector.dotProduct, Vector.crossProduct] at *
  refine ⟨?_, by ring, by ring⟩
  have lagrange : (W.y * U.z - W.z * U.y) * (W.y * U.z - W.z * U.y)
      + (W.z * U.x - W.x * U.z) * (W.z * U.x - W.x * U.z)
      + (W.x * U.y - W.y * U.x) * (W.x * U.y - W.y * U.x)
      = (W.x * W.x + W.y * W.y + W.z * W.z) * (U.x * U.x + U.y * U.y + U.z * U.z)
        - (W.x * U.x + W.y * U.y + W.z * U.z) * (W.x * U.x + W.y * U.y + W.z * U.z) := by
    ring
  rw [lagrange, hW, hU, hWU]
  ring

/-- The exact-arithmetic core of C12.  With every operation exact, for a camera with
    `eye ≠ lookAt` and `up x (eye - lookAt) ≠ 0`, with `sqrt` returning a root of the two
    sums of squares that `getW` and `getU` normalise by, and `sqrt 1 = 1`:
    `W = normalize(eye - lookAt)`, `U = normalize(up x W)` and `V = W x U` each have sum
    of squares 1 and magnitude 1, and `W.U = U.V = V.W = 0`. -/
theorem Camera.basis_orthonormal_exact (ops : FloatOps F) (cam : Camera F)
    (heye : cam.eye - cam.lookAt ≠ ⟨0, 0, 0⟩)
    (hup : cam.up.crossProduct (cam.eye - cam.lookAt) ≠ ⟨0, 0, 0⟩)
    (hw : (cam.eye - cam.lookAt).magnitude ops * (cam.eye - cam.lookAt).magnitude ops
      = (cam.eye - cam.lookAt).x * (cam.eye - cam.lookAt).x
        + (cam.eye - cam.lookAt).y * (cam.eye - cam.lookAt).y
        + (cam.eye - cam.lookAt).z * (cam.eye - cam.lookAt).z)
    (hu : (cam.up.crossProduct (cam.getW ops)).magnitude ops
        * (cam.up.crossProduct (cam.getW ops)).magnitude ops
      = (cam.up.crossProduct (cam.getW ops)).x * (cam.up.crossProduct (cam.getW ops)).x
        + (cam.up.crossProduct (cam.getW ops)).y * (cam.up.crossProduct (cam.getW ops)).y
        + (cam.up.crossProduct (cam.getW ops)).z * (cam.up.crossProduct (cam.getW ops)).z)
    (h1 : ops.sqrt 1 = 1) :
    (cam.getW ops = (cam.eye - cam.lookAt).normalize ops ∧
      cam.getU ops = (cam.up.crossProduct (cam.getW ops)).normalize ops ∧
      cam.getV ops = (cam.getW ops).crossProduct (cam.getU ops)) ∧
    ((cam.getW ops).dotProduct (cam.getW ops) = 1 ∧
      (cam.getU ops).dotProduct (cam.getU ops) = 1 ∧
      (cam.getV ops).dotProduct (cam.getV ops) = 1) ∧
    ((cam.getW ops).magnitude ops = 1 ∧ (cam.getU ops).magnitude ops = 1 ∧
      (cam.getV ops).magnitude ops = 1) ∧
    ((cam.getW ops).dotProduct (cam.getU ops) = 0 ∧
      (cam.getU ops).dotProduct (cam.getV ops) = 0 ∧
      (cam.getV ops).dotProduct (cam.getW ops) = 0) := by
  have hWsq : (cam.getW ops).x * (cam.getW ops).x + (cam.getW ops).y * (cam.getW ops).y
      + (cam.getW ops).z * (cam.getW ops).z = 1 :=
    Vector.normalize_sumSq ops (cam.eye - cam.lookAt) heye hw
  have hq := Vector.sumSq_pos (cam.eye - cam.lookAt) heye
  have hm : (cam.eye - cam.lookAt).magnitude ops ≠ 0 := by
    intro h0
    rw [h0, mul_zero] at hw
    linarith
  have hc : cam.up.crossProduct (cam.getW ops) ≠ ⟨0, 0, 0⟩ := by
    intro h0
    apply hup
    rw [Vector.ext_iff3] at h0 ⊢
    simp only [Camera.getW, Vector.normalize, Vector.crossProduct] at h0
    simp only [Vector.crossProduct]
    obtain ⟨hx, hy, hz⟩ := h0
    have k0 : (1 / (cam.eye - cam.lookAt).magnitude ops) ≠ 0 := one_div_ne_zero hm
    refine ⟨?_, ?_, ?_⟩
    · have : (cam.up.y * (cam.eye - cam.lookAt).z - cam.up.z * (cam.eye - cam.lookAt).y)
          * (1 / (cam.eye - cam.lookAt).magnitude ops) = 0 := by linear_combination hx
      exact (mul_eq_zero.mp this).resolve_right k0
    · have : (cam.up.z * (cam.eye - cam.lookAt).x - cam.up.x * (cam.eye - cam.lookAt).z)
          * (1 / (cam.eye - cam.lookAt).magnitude ops) = 0 := by linear_combination hy
      exact (mul_eq_zero.mp this).resolve_right k0
    · have : (cam.up.x * (cam.eye - cam.lookAt).y - cam.up.y * (cam.eye - cam.lookAt).x)
          * (1 / (cam.eye - cam.lookAt).magnitude ops) = 0 := by linear_combination hz
      exact (mul_eq_zero.mp this).resolve_right k0
  have hUsq : (cam.getU ops).x * (cam.getU ops).x + (cam.getU ops).y * (cam.getU ops).y
      + (cam.getU ops).z * (cam.getU ops).z = 1 :=
    Vector.normalize_sumSq ops (cam.up.crossProduct (cam.getW ops)) hc hu
  have hWU : (cam.getW ops).dotProduct (cam.getU ops) = 0 := by
    have : cam.getU ops = ⟨(cam.up.crossProduct (cam.getW ops)).x
          * (1 / (cam.up.crossProduct (cam.getW ops)).magnitude ops),
        (cam.up.crossProduct (cam.getW ops)).y
          * (1 / (cam.up.crossProduct (cam.getW ops)).magnitude ops),
        (cam.up.crossProduct (cam.getW ops)).z
          * (1 / (cam.up.crossProduct (cam.getW ops)).magnitude ops)⟩ := rfl
    rw [this]
    simp only [Vector.dotProduct, Vector.crossProduct]
    ring
  obtain ⟨hVsq, hUV, hVW⟩ := Vector.cross_orthonormal (cam.getW ops) (cam.getU ops)
    hWsq hUsq hWU
  refine ⟨⟨rfl, rfl, rfl⟩, ⟨hWsq, hUsq, hVsq⟩, ⟨?_, ?_, ?_⟩, ⟨hWU, hUV, hVW⟩⟩
  · rw [Vector.magnitude, hWsq, h1]
  · rw [Vector.magnitude, hUsq, h1]
  · have : cam.getV ops = (cam.getW ops).crossProduct (cam.getU ops) := rfl
    rw [this, Vector.magnitude, hVsq, h1]

/-- The exact-arithmetic core of C12 on the camera at `(0,0,4)` looking at the origin
    with up `(0,1,0)`: the basis is `W = (0,0,1)`, `U = (1,0,0)`, `V = (0,1,0)`. -/
theorem Camera.basis_orthonormal_exact_example :
    ((frontCamera.getW tableOps).magnitude tableOps = 1 ∧
      (frontCamera.getU tableOps).magnitude tableOps = 1 ∧
      (frontCamera.getV tableOps).magnitude tableOps = 1) ∧
    ((frontCamera.getW tableOps).dotProduct (frontCamera.getU tableOps) = 0 ∧
      (frontCamera.getU tableOps).dotProduct (frontCamera.getV tableOps) = 0 ∧
      (frontCamera.getV tableOps).dotProduct (frontCamera.getW tableOps) = 0) :=
  (Camera.basis_orthonormal_exact tableOps frontCamera
    (by norm_num [frontCamera, Camera.new, Vector.ext_iff3])
    (by norm_num [frontCamera, Camera.new, Vector.crossProduct, Vector.ext_iff3])
    (by norm_num [frontCamera, Camera.new, Vector.magnitude, tableOps, tableSqrt])
    (by norm_num [frontCamera, Camera.new, Camera.getW, Vector.normalize, Vector.magnitude,
      Vector.crossProduct, tableOps, tableSqrt])
    (by norm_num [tableOps, tableSqrt])).2.2

end CameraBasis

/-! ## Division guards -/

section Division

variable {F : Type} [LinearOrderedField F]

/-- `Vector::operator/` exits exactly when the divisor (some component of the divisor)
    is negative. -/
theorem Vector.div_none_iff (a v : Vector F) (n : F) :
    (a.divScalar n = none ↔ n < 0) ∧
    (a.divVector v = none ↔ (v.x < 0 ∨ v.y < 0 ∨ v.z < 0)) := by
  constructor
  · simp only [Vector.divScalar]
    split <;> simp_all
  · simp only [Vector.divVector]
    split <;> simp_all

/-- C13, the code at the failing inputs: dividing `(1,2,3)` by the scalar `0`, or by the
    vector `(0,1,1)`, does not exit, while dividing it by `-1`, or by `(-1,1,1)`, exits
    although no divisor is zero. -/
theorem Vector.div_zero_unguarded :
    ((⟨1, 2, 3⟩ : Vector ℚ).divScalar 0).isSome = true ∧
    (⟨1, 2, 3⟩ : Vector ℚ).divScalar (-1) = none ∧
    ((⟨1, 2, 3⟩ : Vector ℚ).divVector ⟨0, 1, 1⟩).isSome = true ∧
    (⟨1, 2, 3⟩ : Vector ℚ).divVector ⟨-1, 1, 1⟩ = none := by
  refine ⟨?_, ?_, ?_, ?_⟩
  · simp [Vector.divScalar]
  · simp [Vector.divScalar]
  · simp [Vector.divVector]
  · simp [Vector.divVector]

/-- The guarded method reaches its error branch exactly when the determinant is zero. -/
theorem Triangle.intersectGuarded_none_iff (tr : Triangle F) (ray : Ray F)
    (t0 t1 : WithTop F) :
    tr.intersectGuarded ray t0 t1 = none ↔
      (tr.B - tr.A).dotProduct (ray.direction.crossProduct (tr.C - tr.A)) = 0 := by
  simp only [Triangle.intersectGuarded, guardedInv]
  by_cases hd : (tr.B - tr.A).dotProduct (ray.direction.crossProduct (tr.C - tr.A)) = 0
  · simp [hd]
  · simp only [hd, if_false, iff_false]
    split_ifs <;> simp

/-- Where the guarded division succeeds, the guarded method returns what
    `Triangle::intersect` returns. -/
theorem Triangle.intersectGuarded_eq (tr : Triangle F) (ray : Ray F) (t0 t1 : WithTop F)
    (r : Bool × WithTop F × WithTop F) (h : tr.intersectGuarded ray t0 t1 = some r) :
    r = tr.intersect ray t0 t1 := by
  by_cases hd : (tr.B - tr.A).dotProduct (ray.direction.crossProduct (tr.C - tr.A)) = 0
  · rw [(Triangle.intersectGuarded_none_iff tr ray t0 t1).mpr hd] at h
    exact absurd h (by simp)
  · simp only [Triangle.intersectGuarded, guardedInv, hd, if_false] at h
    simp only [Triangle.intersect]
    split_ifs at h ⊢ <;> exact (Option.some.inj h).symm

/-- C17, the code at the failing input: for the triangle `(0,0,0), (3,0,0), (0,3,0)` and
    the ray from `(1,1,2)` along `(1,0,0)`, parallel to its plane, the determinant is `0`;
    `Triangle::intersect` returns false, and with the division `1/det` guarded where the
    source performs it the error branch is reached. -/
theorem Triangle.intersectGuarded_parallel :
    (⟨3, 0, 0⟩ - ⟨0, 0, 0⟩ : Vector ℚ).dotProduct
      ((⟨1, 0, 0⟩ : Vector ℚ).crossProduct (⟨0, 3, 0⟩ - ⟨0, 0, 0⟩)) = 0 ∧
    (Triangle.new (⟨0, 0, 0⟩ : Vector ℚ) ⟨3, 0, 0⟩ ⟨0, 3, 0⟩ ⟨0, 0, 1⟩ matteWhite []).intersect
      ⟨⟨1, 1, 2⟩, ⟨1, 0, 0⟩⟩ ⊤ ⊤ = (false, ⊤, ⊤) ∧
    (Triangle.new (⟨0, 0, 0⟩ : Vector ℚ) ⟨3, 0, 0⟩ ⟨0, 3, 0⟩ ⟨0, 0, 1⟩
      matteWhite []).intersectGuarded ⟨⟨1, 1, 2⟩, ⟨1, 0, 0⟩⟩ ⊤ ⊤ = none := by
  refine ⟨?_, ?_, ?_⟩
  · norm_num [Vector.dotProduct, Vector.crossProduct]
  · norm_num [Triangle.intersect, Triangle.new, Vector.dotProduct, Vector.crossProduct]
  · rw [Triangle.intersectGuarded_none_iff]
    norm_num [Triangle.new, Vector.dotProduct, Vector.crossProduct]

end Division

/-! ## Rays leaving a sphere, and refraction geometry -/

section RefractionGeometry

variable {F : Type} [LinearOrderedField F]

/-- C15. When the projection `(c - o).D` is negative, `Sphere::intersect` returns false
    (leaving `t0`, `t1` as they were); and if moreover the direction is a unit vector,
    the origin is strictly inside the sphere and `r² - dsq` has a square root in the
    field, the ray does meet the sphere at a parameter `t > 0`. -/
theorem Sphere.sphere_behind (ops : FloatOps F) (c o D : Vector F) (r : F)
    (mat : Material F) (lights : List (Light F)) (t0 t1 : WithTop F)
    (hv : (c - o).dotProduct D < 0) :
    (Sphere.new c r mat lights).intersect ops ⟨o, D⟩ t0 t1 = (false, t0, t1) ∧
    (D.dotProduct D = 1 → (o - c).dotProduct (o - c) < r * r →
      ∀ root : F, 0 ≤ root →
        root * root = r * r - ((c - o).dotProduct (c - o)
          - (c - o).dotProduct D * (c - o).dotProduct D) →
        ∃ t : F, 0 < t ∧
          (Ray.pointAt ⟨o, D⟩ t - c).dotProduct (Ray.pointAt ⟨o, D⟩ t - c) = r * r) := by
  constructor
  · simp only [Sphere.intersect, Sphere.new]
    rw [if_pos hv]
  · intro hD hin root hroot0 hroot
    have hq : (o - c).dotProduct (o - c) = (c - o).dotProduct (c - o) := by
      simp only [Vector.dotProduct, Vector.sub_x, Vector.sub_y, Vector.sub_z]
      ring
    rw [hq] at hin
    refine ⟨(c - o).dotProduct D + root, ?_, ?_⟩
    · by_contra hle
      have hle' : root ≤ -((c - o).dotProduct D) := by linarith [not_lt.mp hle]
      have : root * root ≤ (-((c - o).dotProduct D)) * (-((c - o).dotProduct D)) :=
        mul_le_mul hle' hle' hroot0 (by linarith)
      nlinarith
    · have e1 : (Ray.pointAt ⟨o, D⟩ ((c - o).dotProduct D + root) - c).dotProduct
          (Ray.pointAt ⟨o, D⟩ ((c - o).dotProduct D + root) - c)
          = (c - o).dotProduct (c - o)
            - 2 * ((c - o).dotProduct D + root) * (c - o).dotProduct D
            + ((c - o).dotProduct D + root) * ((c - o).dotProduct D + root)
              * D.dotProduct D := by
        simp only [Ray.pointAt, Vector.dotProduct, Vector.sub_x, Vector.sub_y,
          Vector.sub_z, Vector.add_x, Vector.add_y, Vector.add_z, Vector.scale_x,
          Vector.scale_y, Vector.scale_z]
        ring
      rw [e1, hD]
      linear_combination hroot

/-- Witness of C15: the unit sphere at the origin and the ray from `(0,0,1/2)` along
    `(0,0,1)`: rejected, although it leaves the sphere at `t = 1/2`. -/
theorem Sphere.sphere_behind_witness :
    (Sphere.new (⟨0, 0, 0⟩ : Vector ℚ) 1 matteWhite []).intersect tableOps
        ⟨⟨0, 0, 1 / 2⟩, ⟨0, 0, 1⟩⟩ ⊤ ⊤ = (false, ⊤, ⊤) ∧
    ∃ t : ℚ, 0 < t ∧
      (Ray.pointAt ⟨⟨0, 0, 1 / 2⟩, ⟨0, 0, 1⟩⟩ t - (⟨0, 0, 0⟩ : Vector ℚ)).dotProduct
        (Ray.pointAt ⟨⟨0, 0, 1 / 2⟩, ⟨0, 0, 1⟩⟩ t - (⟨0, 0, 0⟩ : Vector ℚ)) = 1 * 1 := by
  have h := Sphere.sphere_behind tableOps (⟨0, 0, 0⟩ : Vector ℚ) ⟨0, 0, 1 / 2⟩ ⟨0, 0, 1⟩ 1
    matteWhite [] ⊤ ⊤ (by norm_num [Vector.dotProduct])
  exact ⟨h.1, h.2 (by norm_num [Vector.dotProduct]) (by norm_num [Vector.dotProduct]) 1
    (by norm_num) (by norm_num [Vector.dotProduct])⟩

/-- The exact-arithmetic core of C18.  With every operation exact, for unit vectors `W`
    and `N` and a positive Snell discriminant, with `sqrt` returning a root of the
    discriminant and `sqrt 1 = 1`, the vector `refractRay` returns has squared length 1
    and magnitude 1. -/
theorem refractRay_unit_exact (ops : FloatOps F) (W pt N : Vector F) (eta1 eta2 : F)
    (shape : Shape F) (hW : W.dotProduct W = 1) (hN : N.dotProduct N = 1)
    (hdisc : 0 < 1 - (eta1 / eta2) * (eta1 / eta2) * (1 - W.dotProduct N * W.dotProduct N))
    (hs : ops.sqrt (1 - (eta1 / eta2) * (eta1 / eta2)
          * (1 - W.dotProduct N * W.dotProduct N))
        * ops.sqrt (1 - (eta1 / eta2) * (eta1 / eta2)
          * (1 - W.dotProduct N * W.dotProduct N))
      = 1 - (eta1 / eta2) * (eta1 / eta2) * (1 - W.dotProduct N * W.dotProduct N))
    (h1 : ops.sqrt 1 = 1) :
    (refractRay ops W pt N eta1 eta2 shape).dotProduct
        (refractRay ops W pt N eta1 eta2 shape) = 1 ∧
    (refractRay ops W pt N eta1 eta2 shape).magnitude ops = 1 := by
  have hsq : (refractRay ops W pt N eta1 eta2 shape).dotProduct
      (refractRay ops W pt N eta1 eta2 shape) = 1 := by
    simp only [refractRay]
    rw [if_pos hdisc]
    have e : ((W.scale (eta1 / eta2 * -1)) + (N.scale (eta1 / eta2 * W.dotProduct N
          - ops.sqrt (1 - (eta1 / eta2) * (eta1 / eta2)
            * (1 - W.dotProduct N * W.dotProduct N))))).dotProduct
        ((W.scale (eta1 / eta2 * -1)) + (N.scale (eta1 / eta2 * W.dotProduct N
          - ops.sqrt (1 - (eta1 / eta2) * (eta1 / eta2)
            * (1 - W.dotProduct N * W.dotProduct N)))))
        = (eta1 / eta2) * (eta1 / eta2) * W.dotProduct W
          - 2 * (eta1 / eta2) * (eta1 / eta2 * W.dotProduct N
            - ops.sqrt (1 - (eta1 / eta2) * (eta1 / eta2)
              * (1 - W.dotProduct N * W.dotProduct N))) * W.dotProduct N
          + (eta1 / eta2 * W.dotProduct N
            - ops.sqrt (1 - (eta1 / eta2) * (eta1 / eta2)
              * (1 - W.dotProduct N * W.dotProduct N)))
            * (eta1 / eta2 * W.dotProduct N
            - ops.sqrt (1 - (eta1 / eta2) * (eta1 / eta2)
              * (1 - W.dotProduct N * W.dotProduct N))) * N.dotProduct N := by
      simp only [Vector.dotProduct, Vector.add_x, Vector.add_y, Vector.add_z,
        Vector.scale_x, Vector.scale_y, Vector.scale_z]
      ring
    rw [e, hW, hN]
    linear_combination hs
  refine ⟨hsq, ?_⟩
  have : (refractRay ops W pt N eta1 eta2 shape).magnitude ops
      = ops.sqrt ((refractRay ops W pt N eta1 eta2 shape).dotProduct
        (refractRay ops W pt N eta1 eta2 shape)) := rfl
  rw [this, hsq, h1]

/-- The exact-arithmetic core of C18 at normal incidence with `eta1 / eta2 = 1/4`: the
    refracted vector is `(0,0,-1)`. -/
theorem refractRay_unit_exact_example :
    (refractRay tableOps (⟨0, 0, 1⟩ : Vector ℚ) ⟨0, 0, 1⟩ ⟨0, 0, 1⟩ 1 4 unitSphere).dotProduct
        (refractRay tableOps (⟨0, 0, 1⟩ : Vector ℚ) ⟨0, 0, 1⟩ ⟨0, 0, 1⟩ 1 4 unitSphere) = 1 ∧
    (refractRay tableOps (⟨0, 0, 1⟩ : Vector ℚ) ⟨0, 0, 1⟩ ⟨0, 0, 1⟩ 1 4
        unitSphere).magnitude tableOps = 1 :=
  refractRay_unit_exact tableOps (⟨0, 0, 1⟩ : Vector ℚ) ⟨0, 0, 1⟩ ⟨0, 0, 1⟩ 1 4 unitSphere
    (by norm_num [Vector.dotProduct]) (by norm_num [Vector.dotProduct])
    (by norm_num [Vector.dotProduct])
    (by norm_num [Vector.dotProduct, tableOps, tableSqrt])
    (by norm_num [tableOps, tableSqrt])

end RefractionGeometry

/-! ## The rays and normals of `Scene::draw` on concrete scenes -/

section ConcreteDraw

theorem glassScene_nearestHit :
    Scene.nearestHit glassOps glassScene.shapes rayDownZ
      = (((1 : ℚ) : WithTop ℚ), some glassSphere) := by
  have hi : glassSphere.intersect glassOps rayDownZ ⊤ ⊤
      = (true, ((1 : ℚ) : WithTop ℚ), ((5 : ℚ) : WithTop ℚ)) := by
    norm_num [glassSphere, Shape.intersect, Sphere.intersect, Sphere.new, rayDownZ,
      Vector.dotProduct, glassOps, glassSqrt]
  have h1 : ¬ (((1 : ℚ) : WithTop ℚ) < 0) := by
    rw [← WithTop.coe_zero, WithTop.coe_lt_coe]; norm_num
  simp only [Scene.nearestHit, glassScene, List.foldl_cons, List.foldl_nil, Scene.scanStep,
    hi, h1, WithTop.coe_lt_top, if_true, if_false]

theorem glassScene_ptos : Scene.ptos glassOps glassScene rayDownZ = ⟨0, 0, 2⟩ := by
  rw [Scene.ptos, glassScene_nearestHit]
  simp only [WithTop.untop'_coe, rayDownZ]
  norm_num [Vector.ext_iff3]

theorem glassScene_refractRay :
    Scene.refractRay glassOps glassScene rayDownZ glassSphere
      = ⟨⟨0, 0, -2⟩, ⟨0, 0, -2⟩⟩ := by
  have hT1 : refractRay glassOps ((⟨0, 0, -1⟩ : Vector ℚ).scale (-1)) ⟨0, 0, 2⟩
      (((⟨0, 0, 2⟩ : Vector ℚ) - ⟨0, 0, 0⟩).normalize glassOps) 1 4 glassSphere
      = ⟨0, 0, -1⟩ := by
    norm_num [refractRay, Vector.normalize, Vector.magnitude, Vector.dotProduct,
      Vector.scale, glassOps, glassSqrt, Vector.ext_iff3]
  have hT2 : refractRay glassOps ((⟨0, 0, -1⟩ : Vector ℚ).scale (-1)) ⟨0, 0, -2⟩
      ((⟨0, 0, 0⟩ : Vector ℚ) - ⟨0, 0, -2⟩) 4 1 glassSphere = ⟨0, 0, -2⟩ := by
    norm_num [refractRay, Vector.dotProduct, Vector.scale, glassOps, glassSqrt,
      Vector.ext_iff3]
  have hpos : glassSphere.getPos = ⟨0, 0, 0⟩ := rfl
  have heta : glassSphere.getMat.eta = 4 := rfl
  have hdir : rayDownZ.direction = ⟨0, 0, -1⟩ := rfl
  have hexit : (⟨0, 0, 2⟩ : Vector ℚ) + ((⟨0, 0, -1⟩ : Vector ℚ).scale 2).scale
      (((⟨0, 0, 0⟩ : Vector ℚ) - ⟨0, 0, 2⟩).dotProduct ⟨0, 0, -1⟩) = ⟨0, 0, -2⟩ := by
    norm_num [Vector.dotProduct, Vector.ext_iff3]
  have hsum : (⟨0, 0, -1⟩ : Vector ℚ).sum ≠ 0 := by norm_num [Vector.sum]
  rw [Scene.refractRay, glassScene_ptos, heta, hdir]
  simp only [refractExit, hpos, hT1, hexit, hT2, if_pos hsum]

/-- C14, the code at the failing input: in `glassScene` (a sphere of radius 2 with
    refractive index 4 and `KO = (1,1,1)`) the primary ray of `Scene::render` is the unit
    ray from `(0,0,3)` down the `z` axis, and `Scene::draw` at level 5 makes its
    refraction call on the ray from `(0,0,-2)` with direction `(0,0,-2)`, whose
    magnitude is 2. -/
theorem Scene.refraction_ray_not_unit :
    Scene.primaryRay glassOps glassScene 0 0 = rayDownZ ∧
    rayDownZ.direction.magnitude glassOps = 1 ∧
    (Scene.drawTrace glassOps glassScene rayDownZ 5).2.refractedRay
      = some ⟨⟨0, 0, -2⟩, ⟨0, 0, -2⟩⟩ ∧
    (⟨0, 0, -2⟩ : Vector ℚ).magnitude glassOps = 2 := by
  refine ⟨?_, ?_, ?_, ?_⟩
  · simp only [Scene.primaryRay, glassScene, frontCamera, Camera.new, Camera.getW,
      Camera.getU, Camera.getV, Vector.normalize, Vector.magnitude, Vector.crossProduct,
      rayDownZ, glassOps, glassSqrt]
    norm_num [Vector.ext_iff3]
  · norm_num [rayDownZ, Vector.magnitude, glassOps, glassSqrt]
  · have hr : (Scene.refractRay glassOps glassScene rayDownZ glassSphere).direction.sum ≠ 0
        ∧ glassSphere.getMat.KO.sum ≠ 0 := by
      rw [glassScene_refractRay]
      constructor
      · norm_num [Vector.sum]
      · norm_num [glassSphere, Shape.getMat, Sphere.new, glass, Vector.sum]
    rw [Scene.drawTrace_both glassOps glassScene rayDownZ 5 glassSphere
      (by rw [glassScene_nearestHit]) (by norm_num) hr]
    simp only [CallTree.refractedRay, glassScene_refractRay]
  · norm_num [Vector.magnitude, glassOps, glassSqrt]

theorem triangleScene_nearestHit :
    Scene.nearestHit tableOps triangleScene.shapes rayAtTriangle
      = (((2 : ℚ) : WithTop ℚ), some flatTriangle) := by
  have hi : flatTriangle.intersect tableOps rayAtTriangle ⊤ ⊤
      = (true, ((2 : ℚ) : WithTop ℚ), ⊤) := by
    norm_num [flatTriangle, Shape.intersect, Triangle.intersect, Triangle.new,
      rayAtTriangle, Vector.dotProduct, Vector.crossProduct]
  have h2 : ¬ (((2 : ℚ) : WithTop ℚ) < 0) := by
    rw [← WithTop.coe_zero, WithTop.coe_lt_coe]; norm_num
  simp only [Scene.nearestHit, triangleScene, List.foldl_cons, List.foldl_nil,
    Scene.scanStep, hi, h2, WithTop.coe_lt_top, if_true, if_false]

/-- C16, the code at the failing input: in `triangleScene` the ray from `(3,4,2)` down
    the `z` axis hits the triangle (constructed with the face normal `(0,0,1)`) at
    `(3,4,0)`, and the normal `snorm` that `Scene::draw` uses there is
    `(3/5, 4/5, 0)`: the hit point normalised, because the triangle's `position` is the
    default `(0,0,0)`. -/
theorem Scene.triangle_normal_evaluated :
    (∃ t : Triangle ℚ, flatTriangle = Shape.triangle t ∧ t.surfaceNorm = ⟨0, 0, 1⟩ ∧
      t.position = ⟨0, 0, 0⟩) ∧
    (Scene.nearestHit tableOps triangleScene.shapes rayAtTriangle).2 = some flatTriangle ∧
    Scene.ptos tableOps triangleScene rayAtTriangle = ⟨3, 4, 0⟩ ∧
    Scene.snorm tableOps triangleScene rayAtTriangle flatTriangle = ⟨3 / 5, 4 / 5, 0⟩ ∧
    Scene.snorm tableOps triangleScene rayAtTriangle flatTriangle ≠ ⟨0, 0, 1⟩ := by
  have hp : Scene.ptos tableOps triangleScene rayAtTriangle = ⟨3, 4, 0⟩ := by
    rw [Scene.ptos, triangleScene_nearestHit]
    simp only [WithTop.untop'_coe, rayAtTriangle]
    norm_num [Vector.ext_iff3]
  have hn : Scene.snorm tableOps triangleScene rayAtTriangle flatTriangle
      = ⟨3 / 5, 4 / 5, 0⟩ := by
    rw [Scene.snorm, hp]
    simp only [flatTriangle, Shape.getPos, Triangle.new, Vector.normalize, Vector.magnitude,
      tableOps, tableSqrt, Vector.zero]
    norm_num [Vector.ext_iff3]
  refine ⟨⟨_, rfl, rfl, rfl⟩, by rw [triangleScene_nearestHit], hp, hn, ?_⟩
  rw [hn]
  norm_num [Vector.ext_iff3]

end ConcreteDraw

/-! ## Non-negative colours -/

section NonnegColour

variable {F : Type} [LinearOrderedField F]

theorem Vector.nonneg_zero : (Vector.zero : Vector F).Nonneg :=
  ⟨le_refl _, le_refl _, le_refl _⟩

theorem Vector.nonneg_splat_zero : (Vector.splat 0 : Vector F).Nonneg :=
  ⟨le_refl _, le_refl _, le_refl _⟩

theorem Vector.nonneg_add (a b : Vector F) (ha : a.Nonneg) (hb : b.Nonneg) :
    (a + b).Nonneg :=
  ⟨add_nonneg ha.1 hb.1, add_nonneg ha.2.1 hb.2.1, add_nonneg ha.2.2 hb.2.2⟩

theorem Vector.nonneg_scale (a : Vector F) (n : F) (ha : a.Nonneg) (hn : 0 ≤ n) :
    (a.scale n).Nonneg :=
  ⟨mul_nonneg ha.1 hn, mul_nonneg ha.2.1 hn, mul_nonneg ha.2.2 hn⟩

theorem Vector.nonneg_mul (a b : Vector F) (ha : a.Nonneg) (hb : b.Nonneg) :
    (a.mul b).Nonneg :=
  ⟨mul_nonneg ha.1 hb.1, mul_nonneg ha.2.1 hb.2.1, mul_nonneg ha.2.2 hb.2.2⟩

/-- The lens weight `mix(p, 1, 0.1)` is at least `0.1` when `p ≥ 0`. -/
theorem mix_lens_ge (p : F) (hp : 0 ≤ p) : 1 / 10 ≤ mix p 1 (1 / 10) := by
  simp only [mix]
  have : (0 : F) ≤ p * (1 - 1 / 10) := mul_nonneg hp (by norm_num)
  linarith

/-- One light adds no negative channel. -/
theorem Scene.lightStep_nonneg (ops : FloatOps F) (shape : Shape F) (ptos snorm : Vector F)
    (pv : Vector F) (light : Light F) (hpv : pv.Nonneg) (hl : light.color.Nonneg)
    (hKD : shape.getMat.KD.Nonneg) (hKS : shape.getMat.KS.Nonneg) :
    (Scene.lightStep ops shape ptos snorm pv light).Nonneg := by
  simp only [Scene.lightStep]
  split
  · exact Vector.nonneg_add _ _
      (Vector.nonneg_add _ _ hpv
        (Vector.nonneg_scale _ _ (Vector.nonneg_mul _ _ hl hKD) (le_max_left _ _)))
      (Vector.nonneg_scale _ _ (Vector.nonneg_mul _ _ hl hKS) (le_max_left _ _))
  · exact hpv

theorem Scene.foldl_lightStep_nonneg (ops : FloatOps F) (shape : Shape F)
    (ptos snorm : Vector F) (hKD : shape.getMat.KD.Nonneg) (hKS : shape.getMat.KS.Nonneg)
    (lights : List (Light F)) :
    ∀ pv : Vector F, pv.Nonneg → (∀ l ∈ lights, l.color.Nonneg) →
      (lights.foldl (Scene.lightStep ops shape ptos snorm) pv).Nonneg := by
  induction lights with
  | nil => intro pv hpv _; exact hpv
  | cons l ls ih =>
    intro pv hpv hall
    rw [List.foldl_cons]
    exact ih _ (Scene.lightStep_nonneg ops shape ptos snorm pv l hpv
        (hall l (List.mem_cons_self l ls)) hKD hKS)
      (fun l' hl' => hall l' (List.mem_cons_of_mem l hl'))

/-- The local illumination of a shape with non-negative coefficients has no negative
    channel. -/
theorem Scene.localColor_nonneg (ops : FloatOps F) (scene : Scene F) (ray : Ray F)
    (shape : Shape F) (hsh : shape.NonnegCoefficients) :
    (Scene.localColor ops scene ray shape).Nonneg := by
  obtain ⟨hl, hKD, hKS, -, -⟩ := hsh
  exact Scene.foldl_lightStep_nonneg ops shape _ _ hKD hKS shape.getLights _
    Vector.nonneg_zero hl

/-- The shape the scan selects is a shape of the list. -/
theorem Scene.nearestHit_mem (ops : FloatOps F) (shapes : List (Shape F)) (ray : Ray F)
    (sh : Shape F) (hsel : (Scene.nearestHit ops shapes ray).2 = some sh) :
    sh ∈ shapes := by
  obtain ⟨-, -, hsome⟩ := Scene.scanInv_nearestHit ops ray shapes
  obtain ⟨-, -, -, pre, post, h3, -⟩ := hsome sh hsel
  rw [h3]
  simp

theorem Scene.drawTrace_nonneg (ops : FloatOps F) (hpow : ∀ x, 0 ≤ ops.pow x 4)
    (scene : Scene F) (hscene : ∀ sh ∈ scene.shapes, sh.NonnegCoefficients) :
    ∀ (n : Nat) (ray : Ray F) (level : Int), level.toNat ≤ n →
      (Scene.drawTrace ops scene ray level).1.Nonneg := by
  intro n
  induction n with
  | zero =>
    intro ray level hl
    have hl0 : level ≤ 0 := by omega
    cases hsel : (Scene.nearestHit ops scene.shapes ray).2 with
    | none =>
      rw [Scene.drawTrace_none ops scene ray level hsel]
      exact Vector.nonneg_splat_zero
    | some sh =>
      rw [Scene.drawTrace_leaf ops scene ray level sh hsel hl0]
      exact Scene.localColor_nonneg ops scene ray sh
        (hscene sh (Scene.nearestHit_mem ops scene.shapes ray sh hsel))
  | succ k ih =>
    intro ray level hl
    cases hsel : (Scene.nearestHit ops scene.shapes ray).2 with
    | none =>
      rw [Scene.drawTrace_none ops scene ray level hsel]
      exact Vector.nonneg_splat_zero
    | some sh =>
      have hsh := hscene sh (Scene.nearestHit_mem ops scene.shapes ray sh hsel)
      have hloc := Scene.localColor_nonneg ops scene ray sh hsh
      by_cases hl0 : level ≤ 0
      · rw [Scene.drawTrace_leaf ops scene ray level sh hsel hl0]
        exact hloc
      · have hpos : 0 < level := not_le.mp hl0
        have hk : (level - 1).toNat ≤ k := by omega
        have h1 := ih (Scene.reflectRay ops scene ray sh) (level - 1) hk
        have h2 := ih (Scene.refractRay ops scene ray sh) (level - 1) hk
        have hlens : 0 ≤ Scene.lenseEffect ops scene ray sh :=
          le_trans (by norm_num) (mix_lens_ge _ (hpow _))
        obtain ⟨-, hKD, -, hKR, hKO⟩ := hsh
        by_cases hr : (Scene.refractRay ops scene ray sh).direction.sum ≠ 0
            ∧ sh.getMat.KO.sum ≠ 0
        · rw [Scene.drawTrace_both ops scene ray level sh hsel hpos hr]
          exact Vector.nonneg_add _ _ hloc
            (Vector.nonneg_mul _ _
              (Vector.nonneg_add _ _
                (Vector.nonneg_mul _ _ (Vector.nonneg_scale _ _ h1 hlens) hKR)
                (Vector.nonneg_mul _ _ (Vector.nonneg_scale _ _ h2 hlens) hKO))
              hKD)
        · rw [Scene.drawTrace_reflect ops scene ray level sh hsel hpos hr]
          exact Vector.nonneg_add _ _ hloc
            (Vector.nonneg_mul _ _
              (Vector.nonneg_add _ _
                (Vector.nonneg_mul _ _ (Vector.nonneg_scale _ _ h1 hlens) hKR)
                (Vector.nonneg_mul _ _
                  (Vector.nonneg_scale _ _ Vector.nonneg_splat_zero hlens) hKO))
              hKD)

/-- The exact-arithmetic core of C20, with every operation exact and no division by
    zero (the field's `1/0 = 0` stands where `float` has an infinity).  In a scene in
    which every light colour and every coefficient `KD`, `KS`, `KR`,
    `KO` of every shape has no negative component, with `pow(x, 4) ≥ 0` for every `x`:
    the colour `Scene::draw` returns has no negative channel, for every ray and every
    level, and the lens weight `mix(pow(1 - cos, 4), 1, 0.1)` is at least `0.1`. -/
theorem Scene.draw_nonneg_exact (ops : FloatOps F) (hpow : ∀ x, 0 ≤ ops.pow x 4)
    (scene : Scene F) (hscene : ∀ sh ∈ scene.shapes, sh.NonnegCoefficients)
    (ray : Ray F) (level : Int) :
    (0 ≤ (Scene.draw ops scene ray level).x ∧ 0 ≤ (Scene.draw ops scene ray level).y ∧
      0 ≤ (Scene.draw ops scene ray level).z) ∧
    (∀ shape : Shape F, 1 / 10 ≤ Scene.lenseEffect ops scene ray shape) :=
  ⟨Scene.drawTrace_nonneg ops hpow scene hscene level.toNat ray level le_rfl,
    fun _ => mix_lens_ge _ (hpow _)⟩

end NonnegColour

section NonnegWitness

theorem tablePow_four_nonneg : ∀ x : ℚ, 0 ≤ glassOps.pow x 4 := by
  intro x
  have h : glassOps.pow x 4 = (x * x) * (x * x) := by
    simp only [glassOps, tablePow]
    norm_num
    ring
  rw [h]
  exact mul_self_nonneg (x * x)

theorem glassScene_nonnegCoefficients :
    ∀ sh ∈ glassScene.shapes, sh.NonnegCoefficients := by
  intro sh hsh
  simp only [glassScene, List.mem_singleton] at hsh
  subst hsh
  refine ⟨?_, ?_, ?_, ?_, ?_⟩
  · intro l hl
    simp only [glassSphere, Shape.getLights, Sphere.new, List.mem_singleton] at hl
    subst hl
    simp [Vector.Nonneg, whiteLight]
  · simp [Vector.Nonneg, glassSphere, Shape.getMat, Sphere.new, glass]
  · simp [Vector.Nonneg, glassSphere, Shape.getMat, Sphere.new, glass]
  · simp [Vector.Nonneg, glassSphere, Shape.getMat, Sphere.new, glass]
  · simp [Vector.Nonneg, glassSphere, Shape.getMat, Sphere.new, glass]

/-- The exact-arithmetic core of C20 on `glassScene` (white light, non-negative
    coefficients): the ray down the `z` axis is drawn at level 5 with no negative
    channel. -/
theorem Scene.draw_nonneg_exact_example :
    (0 ≤ (Scene.draw glassOps glassScene rayDownZ 5).x ∧
      0 ≤ (Scene.draw glassOps glassScene rayDownZ 5).y ∧
      0 ≤ (Scene.draw glassOps glassScene rayDownZ 5).z) ∧
    (∀ shape : Shape ℚ, 1 / 10 ≤ Scene.lenseEffect glassOps glassScene rayDownZ shape) :=
  Scene.draw_nonneg_exact glassOps tablePow_four_nonneg glassScene glassScene_nonnegCoefficients
    rayDownZ 5

end NonnegWitness

/-! ## Evaluating the binary32 rounding -/

section Binary32Lemmas

theorem roundEven_eq (y : ℚ) (k : ℤ) (h : |y - k| < 1 / 2) : roundEven y = k := by
  rw [abs_lt] at h
  obtain ⟨h1, h2⟩ := h
  by_cases hk : (k : ℚ) ≤ y
  · have hf : ⌊y⌋ = k := by
      rw [Int.floor_eq_iff]
      exact ⟨hk, by linarith⟩
    simp only [roundEven, hf]
    rw [if_pos (by linarith)]
  · have hf : ⌊y⌋ = k - 1 := by
      rw [Int.floor_eq_iff]
      push_cast
      exact ⟨by linarith, by linarith [not_le.mp hk]⟩
    simp only [roundEven, hf]
    push_cast
    rw [if_neg (by linarith), if_pos (by linarith)]
    ring

/-- The value of `round32` at `x`, from a significand `k` and an exponent `e` with
    `2^23 ≤ |x| / 2^e < 2^24` and `k` the integer nearest to `x / 2^e`. -/
theorem round32_eval (x : ℚ) (k e : ℤ) (hlo : (2 : ℚ) ^ 23 * 2 ^ e ≤ |x|)
    (hhi : |x| < 2 ^ 24 * 2 ^ e) (hx : |x / 2 ^ e - k| < 1 / 2) :
    round32 x = k * 2 ^ e := by
  have hpos : (0 : ℚ) < 2 ^ e := zpow_pos (by norm_num) e
  have hx0 : 0 < |x| := lt_of_lt_of_le (by positivity) hlo
  have hne : x ≠ 0 := abs_pos.mp hx0
  have hlog : Int.log 2 |x| = e + 23 := by
    apply le_antisymm
    · have : Int.log 2 |x| < e + 24 := by
        rw [← Int.lt_zpow_iff_log_lt (by norm_num) hx0]
        have : ((2 : ℕ) : ℚ) ^ (e + 24) = 2 ^ 24 * 2 ^ e := by
          rw [zpow_add₀ (by norm_num)]
          norm_num
          ring
        rw [this]
        exact hhi
      omega
    · rw [← Int.zpow_le_iff_le_log (by norm_num) hx0]
      have : ((2 : ℕ) : ℚ) ^ (e + 23) = 2 ^ 23 * 2 ^ e := by
        rw [zpow_add₀ (by norm_num)]
        norm_num
        ring
      rw [this]
      exact hlo
  simp only [round32, if_neg hne, hlog]
  have : e + 23 - 23 = e := by ring
  rw [this, roundEven_eq _ k hx]

/-- A value `n * 2^j` with `|n| < 2^24` is a binary32 value: `round32` leaves it
    unchanged. -/
theorem round32_dyadic (n j : ℤ) (hn : |n| < 2 ^ 24) :
    round32 ((n : ℚ) * 2 ^ j) = (n : ℚ) * 2 ^ j := by
  by_cases h0 : n = 0
  · subst h0
    simp [round32]
  · have hpj : (0 : ℚ) < 2 ^ j := zpow_pos (by norm_num) j
    have hnq : (n : ℚ) ≠ 0 := by exact_mod_cast h0
    have hne : (n : ℚ) * 2 ^ j ≠ 0 := mul_ne_zero hnq (ne_of_gt hpj)
    have hx0 : 0 < |(n : ℚ) * 2 ^ j| := abs_pos.mpr hne
    have hlt : Int.log 2 |(n : ℚ) * 2 ^ j| < 24 + j := by
      rw [← Int.lt_zpow_iff_log_lt (by norm_num) hx0]
      have e1 : ((2 : ℕ) : ℚ) ^ (24 + j) = 2 ^ 24 * 2 ^ j := by
        rw [zpow_add₀ (by norm_num)]
        norm_num
      rw [e1, abs_mul, abs_of_pos hpj]
      have hnq' : |(n : ℚ)| < 2 ^ 24 := by exact_mod_cast hn
      exact mul_lt_mul_of_pos_right hnq' hpj
    simp only [round32, if_neg hne]
    obtain ⟨L, hL⟩ : ∃ L : ℤ, Int.log 2 |(n : ℚ) * 2 ^ j| = L := ⟨_, rfl⟩
    rw [hL] at hlt ⊢
    obtain ⟨t, ht⟩ : ∃ t : ℕ, j = (L - 23) + t := ⟨(j - (L - 23)).toNat, by omega⟩
    have hj : (2 : ℚ) ^ j = 2 ^ (L - 23) * 2 ^ t := by
      rw [ht, zpow_add₀ (by norm_num), zpow_natCast]
    have hs : (0 : ℚ) < 2 ^ (L - 23) := zpow_pos (by norm_num) _
    have hquot : (n : ℚ) * 2 ^ j / 2 ^ (L - 23) = ((n * 2 ^ t : ℤ) : ℚ) := by
      rw [div_eq_iff (ne_of_gt hs), hj]
      push_cast
      ring
    rw [hquot, roundEven_eq _ (n * 2 ^ t) (by simp), hj]
    push_cast
    ring

/-- The value of `round32` at a tie: `x / 2^e` lies half-way between the integers `f`
    and `f + 1`, and the even one is taken. -/
theorem round32_tie (x : ℚ) (f e : ℤ) (hlo : (2 : ℚ) ^ 23 * 2 ^ e ≤ |x|)
    (hhi : |x| < 2 ^ 24 * 2 ^ e) (hx : x / 2 ^ e = f + 1 / 2) :
    round32 x = ((if f % 2 = 0 then f else f + 1 : ℤ) : ℚ) * 2 ^ e := by
  have hpos : (0 : ℚ) < 2 ^ e := zpow_pos (by norm_num) e
  have hx0 : 0 < |x| := lt_of_lt_of_le (by positivity) hlo
  have hne : x ≠ 0 := abs_pos.mp hx0
  have hlog : Int.log 2 |x| = e + 23 := by
    apply le_antisymm
    · have : Int.log 2 |x| < e + 24 := by
        rw [← Int.lt_zpow_iff_log_lt (by norm_num) hx0]
        have : ((2 : ℕ) : ℚ) ^ (e + 24) = 2 ^ 24 * 2 ^ e := by
          rw [zpow_add₀ (by norm_num)]
          norm_num
          ring
        rw [this]
        exact hhi
      omega
    · rw [← Int.zpow_le_iff_le_log (by norm_num) hx0]
      have : ((2 : ℕ) : ℚ) ^ (e + 23) = 2 ^ 23 * 2 ^ e := by
        rw [zpow_add₀ (by norm_num)]
        norm_num
        ring
      rw [this]
      exact hlo
  have hfl : ⌊(f : ℚ) + 1 / 2⌋ = f := by
    rw [Int.floor_eq_iff]
    constructor <;> linarith
  simp only [round32, if_neg hne, hlog]
  have : e + 23 - 23 = e := by ring
  rw [this, hx]
  simp only [roundEven, hfl]
  rw [if_neg (by linarith), if_neg (by linarith)]

theorem round32_int (n : ℤ) (hn : |n| < 2 ^ 24) : round32 (n : ℚ) = (n : ℚ) := by
  have := round32_dyadic n 0 hn
  simpa using this

end Binary32Lemmas

/-! ## Sphere intersection in `float` arithmetic -/

section SphereRounded

variable {F : Type} [LinearOrderedField F]

/-- C1 fails in binary32.  (1) The sphere of radius 5 at the origin and the ray from
    `(4,2,20000)` along `(0,0,-1)` meet every condition of the claim (`v = 20000 ≥ 0`,
    `dsq = 20 ≤ 25`), but `tv.tv = 400000020` is rounded to `400000032`, the computed
    `dsq` is `32 > 25` and `Sphere::intersect` returns false.  (2) With radius 6 it
    returns `t0 = 19998`, `t1 = 20002`, while the roots are `19996` and `20004`. -/
theorem Sphere.sphere_hit_counterexample :
    ((0 : ℚ) ≤ 5 ∧ (⟨0, 0, -1⟩ : Vector ℚ).dotProduct ⟨0, 0, -1⟩ = 1 ∧
      ((⟨0, 0, 0⟩ : Vector ℚ) - ⟨4, 2, 20000⟩).dotProduct ⟨0, 0, -1⟩ = 20000 ∧
      ((⟨0, 0, 0⟩ : Vector ℚ) - ⟨4, 2, 20000⟩).dotProduct (⟨0, 0, 0⟩ - ⟨4, 2, 20000⟩)
        - 20000 * 20000 = 20) ∧
    Sphere.intersectR round32 tableOps
        (Sphere.newR round32 (⟨0, 0, 0⟩ : Vector ℚ) 5 matteWhite [])
        ⟨⟨4, 2, 20000⟩, ⟨0, 0, -1⟩⟩ ⊤ ⊤ = (false, ⊤, ⊤) ∧
    Sphere.intersectR round32 tableOps
        (Sphere.newR round32 (⟨0, 0, 0⟩ : Vector ℚ) 6 matteWhite [])
        ⟨⟨4, 2, 20000⟩, ⟨0, 0, -1⟩⟩ ⊤ ⊤
      = (true, ((19998 : ℚ) : WithTop ℚ), ((20002 : ℚ) : WithTop ℚ)) ∧
    (Ray.pointAt ⟨⟨4, 2, 20000⟩, ⟨0, 0, -1⟩⟩ (19998 : ℚ) - ⟨0, 0, 0⟩).dotProduct
        (Ray.pointAt ⟨⟨4, 2, 20000⟩, ⟨0, 0, -1⟩⟩ (19998 : ℚ) - ⟨0, 0, 0⟩) ≠ 6 * 6 := by
  have r0 : round32 0 = 0 := by simp [round32]
  have r1 : round32 (-4) = -4 := by
    have h := round32_int (-4) (by norm_num); norm_num at h; exact h
  have r2 : round32 (-2) = -2 := by
    have h := round32_int (-2) (by norm_num); norm_num at h; exact h
  have r3 : round32 (-20000) = -20000 := by
    have h := round32_int (-20000) (by norm_num); norm_num at h; exact h
  have r4 : round32 20000 = 20000 := by
    have h := round32_int 20000 (by norm_num); norm_num at h; exact h
  have r5 : round32 16 = 16 := by
    have h := round32_int 16 (by norm_num); norm_num at h; exact h
  have r6 : round32 4 = 4 := by
    have h := round32_int 4 (by norm_num); norm_num at h; exact h
  have r7 : round32 20 = 20 := by
    have h := round32_int 20 (by norm_num); norm_num at h; exact h
  have r8 : round32 400000000 = 400000000 := by
    have h := round32_dyadic 12500000 5 (by norm_num); norm_num at h; exact h
  have r9 : round32 400000020 = 400000032 := by
    rw [round32_eval 400000020 12500001 5 (by norm_num) (by norm_num)
      (by norm_num [abs_lt])]
    norm_num
  have r10 : round32 32 = 32 := by
    have h := round32_int 32 (by norm_num); norm_num at h; exact h
  have r11 : round32 25 = 25 := by
    have h := round32_int 25 (by norm_num); norm_num at h; exact h
  have r12 : round32 36 = 36 := by
    have h := round32_int 36 (by norm_num); norm_num at h; exact h
  have r13 : round32 19998 = 19998 := by
    have h := round32_int 19998 (by norm_num); norm_num at h; exact h
  have r14 : round32 20002 = 20002 := by
    have h := round32_int 20002 (by norm_num); norm_num at h; exact h
  refine ⟨⟨by norm_num, ?_, ?_, ?_⟩, ?_, ?_, ?_⟩
  · norm_num [Vector.dotProduct]
  · norm_num [Vector.dotProduct]
  · norm_num [Vector.dotProduct]
  · norm_num [Sphere.intersectR, Sphere.newR, Vector.subR, Vector.dotProductR,
      r0, r1, r2, r3, r4, r5, r6, r7, r8, r9, r10, r11]
  · norm_num [Sphere.intersectR, Sphere.newR, Vector.subR, Vector.dotProductR,
      tableOps, tableSqrt, r0, r1, r2, r3, r4, r5, r6, r7, r8, r9, r10, r12, r13, r14]
  · norm_num [Ray.pointAt, Vector.dotProduct]

/-- C1 (amended). If the `float` operations of `Sphere::intersect` incur no rounding
    error at the input (the subtraction `getPos() - L`, the two dot products, `v*v`, the
    difference `dsq`, `r*r`, `radSqrd - dsq`, `v - b` and `v + b`), then for a sphere of
    radius `r ≥ 0` and a ray with unit direction, `v ≥ 0` and `dsq ≤ r²`, the method
    returns true with `t0 ≤ t1`; a parameter `t` puts `o + t*D` on the sphere exactly
    when `t` is `t0` or `t1`; and for a ray aimed at the centre from distance `dist`,
    `t0 = dist - r` and `t1 = dist + r`.  `sqrt` is assumed to return the non-negative
    root of `r² - dsq`. -/
theorem Sphere.sphere_hit_rounded (rnd : F → F) (ops : FloatOps F) (c o D : Vector F)
    (r : F) (mat : Material F) (lights : List (Light F)) (t0 t1 : WithTop F)
    (hr : 0 ≤ r) (hD : D.dotProduct D = 1)
    (hv : 0 ≤ (c - o).dotProduct D)
    (hd : (c - o).dotProduct (c - o) - (c - o).dotProduct D * (c - o).dotProduct D ≤ r * r)
    (hs0 : 0 ≤ ops.sqrt (r * r -
      ((c - o).dotProduct (c - o) - (c - o).dotProduct D * (c - o).dotProduct D)))
    (hs : ops.sqrt (r * r -
        ((c - o).dotProduct (c - o) - (c - o).dotProduct D * (c - o).dotProduct D)) *
      ops.sqrt (r * r -
        ((c - o).dotProduct (c - o) - (c - o).dotProduct D * (c - o).dotProduct D)) =
      r * r - ((c - o).dotProduct (c - o) - (c - o).dotProduct D * (c - o).dotProduct D))
    (hsub : c.subR rnd o = c - o)
    (hdv : (c - o).dotProductR rnd D = (c - o).dotProduct D)
    (hdq : (c - o).dotProductR rnd (c - o) = (c - o).dotProduct (c - o))
    (hvv : rnd ((c - o).dotProduct D * (c - o).dotProduct D)
      = (c - o).dotProduct D * (c - o).dotProduct D)
    (hdsq : rnd ((c - o).dotProduct (c - o) - (c - o).dotProduct D * (c - o).dotProduct D)
      = (c - o).dotProduct (c - o) - (c - o).dotProduct D * (c - o).dotProduct D)
    (hrr : rnd (r * r) = r * r)
    (hrad : rnd (r * r -
        ((c - o).dotProduct (c - o) - (c - o).dotProduct D * (c - o).dotProduct D))
      = r * r - ((c - o).dotProduct (c - o) - (c - o).dotProduct D * (c - o).dotProduct D))
    (ht0 : rnd ((c - o).dotProduct D - ops.sqrt (r * r -
        ((c - o).dotProduct (c - o) - (c - o).dotProduct D * (c - o).dotProduct D)))
      = (c - o).dotProduct D - ops.sqrt (r * r -
        ((c - o).dotProduct (c - o) - (c - o).dotProduct D * (c - o).dotProduct D)))
    (ht1 : rnd ((c - o).dotProduct D + ops.sqrt (r * r -
        ((c - o).dotProduct (c - o) - (c - o).dotProduct D * (c - o).dotProduct D)))
      = (c - o).dotProduct D + ops.sqrt (r * r -
        ((c - o).dotProduct (c - o) - (c - o).dotProduct D * (c - o).dotProduct D))) :
    ∃ a b : F,
      (Sphere.newR rnd c r mat lights).intersectR rnd ops ⟨o, D⟩ t0 t1
        = (true, (a : WithTop F), (b : WithTop F)) ∧
      a ≤ b ∧
      (∀ t : F, (Ray.pointAt ⟨o, D⟩ t - c).dotProduct (Ray.pointAt ⟨o, D⟩ t - c) = r * r
        ↔ (t = a ∨ t = b)) ∧
      (∀ dist : F, 0 < dist → dist * dist = (c - o).dotProduct (c - o) →
        D = (c - o).scale (1 / dist) → a = dist - r ∧ b = dist + r) := by
  have hexact : (Sphere.newR rnd c r mat lights).intersectR rnd ops ⟨o, D⟩ t0 t1
      = (Sphere.new c r mat lights).intersect ops ⟨o, D⟩ t0 t1 := by
    simp only [Sphere.intersectR, Sphere.newR, Sphere.intersect, Sphere.new, hsub, hdv, hdq,
      hvv, hdsq, hrr, hrad, ht0, ht1]
  rw [hexact]
  exact Sphere.sphere_hit_exact ops c o D r mat lights t0 t1 hr hD hv hd hs0 hs

end SphereRounded

section SphereRoundedConcrete

theorem round32_zero : round32 0 = 0 := by simp [round32]

theorem round32_small :
    round32 1 = 1 ∧ round32 2 = 2 ∧ round32 3 = 3 ∧ round32 4 = 4 ∧ round32 9 = 9 ∧
    round32 (-1) = -1 ∧ round32 (-2) = -2 ∧ round32 (-3) = -3 := by
  refine ⟨?_, ?_, ?_, ?_, ?_, ?_, ?_, ?_⟩
  · have h := round32_int 1 (by norm_num); norm_num at h; exact h
  · have h := round32_int 2 (by norm_num); norm_num at h; exact h
  · have h := round32_int 3 (by norm_num); norm_num at h; exact h
  · have h := round32_int 4 (by norm_num); norm_num at h; exact h
  · have h := round32_int 9 (by norm_num); norm_num at h; exact h
  · have h := round32_int (-1) (by norm_num); norm_num at h; exact h
  · have h := round32_int (-2) (by norm_num); norm_num at h; exact h
  · have h := round32_int (-3) (by norm_num); norm_num at h; exact h

/-- Witness of C1 (amended): the unit sphere at the origin and the ray from `(0,0,3)`
    aimed at the centre, in binary32: every operation is exact, `t0 = 2`, `t1 = 4`. -/
theorem Sphere.sphere_hit_rounded_witness :
    (Sphere.newR round32 (⟨0, 0, 0⟩ : Vector ℚ) 1 matteWhite []).intersectR round32 tableOps
        ⟨⟨0, 0, 3⟩, ⟨0, 0, -1⟩⟩ ⊤ ⊤
      = (true, ((2 : ℚ) : WithTop ℚ), ((4 : ℚ) : WithTop ℚ)) := by
  obtain ⟨r1, r2, r3, r4, r9, rm1, rm2, rm3⟩ := round32_small
  obtain ⟨a, b, h1, -, -, h4⟩ :=
    Sphere.sphere_hit_rounded round32 tableOps (⟨0, 0, 0⟩ : Vector ℚ) ⟨0, 0, 3⟩ ⟨0, 0, -1⟩ 1
      matteWhite [] ⊤ ⊤ (by norm_num) (by norm_num [Vector.dotProduct])
      (by norm_num [Vector.dotProduct])
      (by norm_num [Vector.dotProduct])
      (by norm_num [Vector.dotProduct, tableOps, tableSqrt])
      (by norm_num [Vector.dotProduct, tableOps, tableSqrt])
      (by norm_num [Vector.subR, Vector.ext_iff3, round32_zero, rm3])
      (by norm_num [Vector.dotProductR, Vector.dotProduct, round32_zero, r3])
      (by norm_num [Vector.dotProductR, Vector.dotProduct, round32_zero, r9])
      (by norm_num [Vector.dotProduct, r9])
      (by norm_num [Vector.dotProduct, round32_zero])
      (by norm_num [r1])
      (by norm_num [Vector.dotProduct, r1])
      (by norm_num [Vector.dotProduct, tableOps, tableSqrt, r2])
      (by norm_num [Vector.dotProduct, tableOps, tableSqrt, r4])
  obtain ⟨ha, hb⟩ := h4 3 (by norm_num) (by norm_num [Vector.dotProduct])
    (by norm_num [Vector.ext_iff3])
  rw [h1, ha, hb]
  norm_num

/-- C2 fails.  (1) For the sphere constructed with radius `-1` the centre lies on the
    line of the ray from `(0,0,3)` along `(0,0,-1)` (perpendicular distance `0 > -1`)
    and `Sphere::intersect` returns true.  (2) In binary32, for the unit sphere and the
    ray from `(2,0,20000)` along `(0,0,-1)`, at perpendicular distance `2 > 1`,
    `tv.tv = 400000004` is rounded to `400000000`, the computed `dsq` is `0` and the
    method returns true with `t0 = 19999`, `t1 = 20001`. -/
theorem Sphere.sphere_miss_counterexample :
    (rayDownZ.direction.dotProduct rayDownZ.direction = 1 ∧
      (0 : ℚ) * 0 = (rayDownZ.pointAt 3 - (⟨0, 0, 0⟩ : Vector ℚ)).dotProduct
        (rayDownZ.pointAt 3 - (⟨0, 0, 0⟩ : Vector ℚ)) ∧
      (Sphere.newR round32 (⟨0, 0, 0⟩ : Vector ℚ) (-1) matteWhite []).radius < 0 ∧
      (Sphere.newR round32 (⟨0, 0, 0⟩ : Vector ℚ) (-1) matteWhite []).intersectR round32
          tableOps rayDownZ ⊤ ⊤
        = (true, ((2 : ℚ) : WithTop ℚ), ((4 : ℚ) : WithTop ℚ))) ∧
    ((2 : ℚ) * 2 = (Ray.pointAt ⟨⟨2, 0, 20000⟩, ⟨0, 0, -1⟩⟩ (20000 : ℚ)
          - (⟨0, 0, 0⟩ : Vector ℚ)).dotProduct
        (Ray.pointAt ⟨⟨2, 0, 20000⟩, ⟨0, 0, -1⟩⟩ (20000 : ℚ) - (⟨0, 0, 0⟩ : Vector ℚ)) ∧
      (Sphere.newR round32 (⟨0, 0, 0⟩ : Vector ℚ) 1 matteWhite []).intersectR round32
          tableOps ⟨⟨2, 0, 20000⟩, ⟨0, 0, -1⟩⟩ ⊤ ⊤
        = (true, ((19999 : ℚ) : WithTop ℚ), ((20001 : ℚ) : WithTop ℚ))) := by
  obtain ⟨r1, r2, r3, r4, r9, rm1, rm2, rm3⟩ := round32_small
  have r5 : round32 (-20000) = -20000 := by
    have h := round32_int (-20000) (by norm_num); norm_num at h; exact h
  have r6 : round32 20000 = 20000 := by
    have h := round32_int 20000 (by norm_num); norm_num at h; exact h
  have r8 : round32 400000000 = 400000000 := by
    have h := round32_dyadic 12500000 5 (by norm_num); norm_num at h; exact h
  have r10 : round32 400000004 = 400000000 := by
    rw [round32_eval 400000004 12500000 5 (by norm_num) (by norm_num)
      (by norm_num [abs_lt])]
    norm_num
  have r11 : round32 19999 = 19999 := by
    have h := round32_int 19999 (by norm_num); norm_num at h; exact h
  have r12 : round32 20001 = 20001 := by
    have h := round32_int 20001 (by norm_num); norm_num at h; exact h
  refine ⟨⟨?_, ?_, ?_, ?_⟩, ?_, ?_⟩
  · norm_num [rayDownZ, Vector.dotProduct]
  · norm_num [rayDownZ, Ray.pointAt, Vector.dotProduct]
  · norm_num [Sphere.newR]
  · norm_num [Sphere.intersectR, Sphere.newR, rayDownZ, Vector.subR, Vector.dotProductR,
      tableOps, tableSqrt, round32_zero, r1, r2, r3, r4, r9, rm3]
  · norm_num [Ray.pointAt, Vector.dotProduct]
  · norm_num [Sphere.intersectR, Sphere.newR, Vector.subR, Vector.dotProductR,
      tableOps, tableSqrt, round32_zero, r1, r4, rm2, r5, r6, r8, r10, r11, r12]

end SphereRoundedConcrete

section SphereMissRounded

variable {F : Type} [LinearOrderedField F]

/-- C2 (amended). If the `float` operations that lead to the test `dsq > radSqrd` incur
    no rounding error at the input (the subtraction `getPos() - L`, the two dot products,
    `v*v`, the difference `dsq`, and `r*r`), then for a ray with unit direction whose
    line is at a distance `dist > |r|` from the centre (`dist` being the distance from
    the centre to its orthogonal projection on the line), `Sphere::intersect` returns
    false and leaves `t0` and `t1` as they were. -/
theorem Sphere.sphere_miss_rounded (rnd : F → F) (ops : FloatOps F) (c o D : Vector F)
    (r : F) (mat : Material F) (lights : List (Light F)) (t0 t1 : WithTop F) (dist : F)
    (hD : D.dotProduct D = 1)
    (hfoot : dist * dist = (Ray.pointAt ⟨o, D⟩ ((c - o).dotProduct D) - c).dotProduct
      (Ray.pointAt ⟨o, D⟩ ((c - o).dotProduct D) - c))
    (hfar : |r| < dist)
    (hsub : c.subR rnd o = c - o)
    (hdv : (c - o).dotProductR rnd D = (c - o).dotProduct D)
    (hdq : (c - o).dotProductR rnd (c - o) = (c - o).dotProduct (c - o))
    (hvv : rnd ((c - o).dotProduct D * (c - o).dotProduct D)
      = (c - o).dotProduct D * (c - o).dotProduct D)
    (hdsq : rnd ((c - o).dotProduct (c - o) - (c - o).dotProduct D * (c - o).dotProduct D)
      = (c - o).dotProduct (c - o) - (c - o).dotProduct D * (c - o).dotProduct D)
    (hrr : rnd (r * r) = r * r) :
    (Sphere.newR rnd c r mat lights).intersectR rnd ops ⟨o, D⟩ t0 t1 = (false, t0, t1) := by
  have e1 : (Ray.pointAt ⟨o, D⟩ ((c - o).dotProduct D) - c).dotProduct
      (Ray.pointAt ⟨o, D⟩ ((c - o).dotProduct D) - c)
      = (c - o).dotProduct (c - o) - 2 * ((c - o).dotProduct D * (c - o).dotProduct D)
        + (c - o).dotProduct D * (c - o).dotProduct D * D.dotProduct D := by
    simp only [Ray.pointAt, Vector.dotProduct, Vector.sub_x, Vector.sub_y,
      Vector.sub_z, Vector.add_x, Vector.add_y, Vector.add_z, Vector.scale_x,
      Vector.scale_y, Vector.scale_z]
    ring
  rw [e1, hD] at hfoot
  have hrr' : r * r < dist * dist := by
    have h1 : |r| * |r| < dist * dist :=
      mul_self_lt_mul_self (abs_nonneg r) hfar
    rwa [abs_mul_abs_self] at h1
  have hgt : (c - o).dotProduct (c - o) - (c - o).dotProduct D * (c - o).dotProduct D
      > r * r := by linarith
  simp only [Sphere.intersectR, Sphere.newR, hsub, hdv, hdq, hvv, hdsq, hrr]
  by_cases hv : (c - o).dotProduct D < 0
  · rw [if_pos hv]
  · rw [if_neg hv, if_pos hgt]

/-- Witness of C2 (amended): the unit sphere at the origin and the ray from `(2,0,3)`
    down the `z` axis, at perpendicular distance `2`, in binary32. -/
theorem Sphere.sphere_miss_rounded_witness :
    (Sphere.newR round32 (⟨0, 0, 0⟩ : Vector ℚ) 1 matteWhite []).intersectR round32 tableOps
        ⟨⟨2, 0, 3⟩, ⟨0, 0, -1⟩⟩ ⊤ ⊤ = (false, ⊤, ⊤) := by
  obtain ⟨r1, r2, r3, r4, r9, rm1, rm2, rm3⟩ := round32_small
  have r13 : round32 13 = 13 := by
    have h := round32_int 13 (by norm_num); norm_num at h; exact h
  exact Sphere.sphere_miss_rounded round32 tableOps (⟨0, 0, 0⟩ : Vector ℚ) ⟨2, 0, 3⟩
    ⟨0, 0, -1⟩ 1 matteWhite [] ⊤ ⊤ 2 (by norm_num [Vector.dotProduct])
    (by norm_num [Ray.pointAt, Vector.dotProduct]) (by norm_num)
    (by norm_num [Vector.subR, Vector.ext_iff3, round32_zero, rm2, rm3])
    (by norm_num [Vector.dotProductR, Vector.dotProduct, round32_zero, r3])
    (by norm_num [Vector.dotProductR, Vector.dotProduct, round32_zero, r4, r9, r13])
    (by norm_num [Vector.dotProduct, r9])
    (by norm_num [Vector.dotProduct, r4])
    (by norm_num [r1])

end SphereMissRounded


section NormalizeRounded

variable {F : Type} [LinearOrderedField F]

/-- Without rounding error in its operations, the rounded `normalize` returns what the
    exact one returns. -/
theorem Vector.normalizeR_eq (rnd : F → F) (ops : FloatOps F) (a : Vector F)
    (hex : a.NormalizeExact rnd ops) : a.normalizeR rnd ops = a.normalize ops := by
  obtain ⟨hq, hinv, hsc⟩ := hex
  have hmag : a.magnitudeR rnd ops = a.magnitude ops := by
    show ops.sqrt (a.dotProductR rnd a) = ops.sqrt (a.dotProduct a)
    rw [hq]
  show a.scaleR rnd (rnd (1 / a.magnitudeR rnd ops)) = a.scale (1 / a.magnitude ops)
  rw [hmag, hinv, hsc]

/-- An accurate rounding of a non-negative value lies between `(1-u)x` and `(1+u)x`. -/
theorem Accurate.rounding_bounds {rnd : F → F} {u x : F} (h : Accurate rnd u x) (hx : 0 ≤ x) :
    (1 - u) * x ≤ rnd x ∧ rnd x ≤ (1 + u) * x := by
  unfold Accurate at h
  rw [abs_of_nonneg hx, abs_le] at h
  constructor <;> nlinarith [h.1, h.2]

/-- The square of an accurate rounding lies between `(1-u)^2 x^2` and `(1+u)^2 x^2`. -/
theorem Accurate.square_bounds {rnd : F → F} {u x : F} (h : Accurate rnd u x)
    (hu1 : u ≤ 1) :
    (1 - u) ^ 2 * (x * x) ≤ rnd x * rnd x ∧ rnd x * rnd x ≤ (1 + u) ^ 2 * (x * x) := by
  unfold Accurate at h
  have hx := abs_nonneg x
  have h1 : |rnd x| ≤ (1 + u) * |x| := by
    have := abs_sub_abs_le_abs_sub (rnd x) x
    linarith
  have h2 : (1 - u) * |x| ≤ |rnd x| := by
    have := abs_sub_abs_le_abs_sub x (rnd x)
    rw [abs_sub_comm x (rnd x)] at this
    linarith
  have h3 : 0 ≤ (1 - u) * |x| := mul_nonneg (by linarith) hx
  rw [← abs_mul_abs_self (rnd x), ← abs_mul_abs_self x]
  constructor
  · have := mul_self_le_mul_self h3 h2
    nlinarith [this]
  · have := mul_self_le_mul_self (abs_nonneg (rnd x)) h1
    nlinarith [this]

/-- The rounded sum of squares of `magnitude` lies within `(1 ± u)^3` of the exact one,
    and the square of the rounded magnitude within `(1 ± u)^5`. -/
theorem Vector.magnitudeR_bounds (rnd : F → F) (ops : FloatOps F) (u : F) (a : Vector F)
    (hu0 : 0 ≤ u) (hu1 : u ≤ 1) (h : a.MagnitudeAccurate rnd ops u) :
    ((1 - u) ^ 3 * a.dotProduct a ≤ a.dotProductR rnd a ∧
      a.dotProductR rnd a ≤ (1 + u) ^ 3 * a.dotProduct a) ∧
    ((1 - u) ^ 5 * a.dotProduct a ≤ a.magnitudeR rnd ops * a.magnitudeR rnd ops ∧
      a.magnitudeR rnd ops * a.magnitudeR rnd ops ≤ (1 + u) ^ 5 * a.dotProduct a) := by
  obtain ⟨hx, hy, hz, hs1, hs2, -, hm1, hm2⟩ := h
  have hL : 0 ≤ 1 - u := by linarith
  have hH : 0 ≤ 1 + u := by linarith
  have x0 := mul_self_nonneg a.x
  have y0 := mul_self_nonneg a.y
  have z0 := mul_self_nonneg a.z
  obtain ⟨bx1, bx2⟩ := hx.rounding_bounds x0
  obtain ⟨by1, by2⟩ := hy.rounding_bounds y0
  obtain ⟨bz1, bz2⟩ := hz.rounding_bounds z0
  have rx0 : 0 ≤ rnd (a.x * a.x) := le_trans (mul_nonneg hL x0) bx1
  have ry0 : 0 ≤ rnd (a.y * a.y) := le_trans (mul_nonneg hL y0) by1
  have rz0 : 0 ≤ rnd (a.z * a.z) := le_trans (mul_nonneg hL z0) bz1
  obtain ⟨bs1, bs2⟩ := hs1.rounding_bounds (add_nonneg rx0 ry0)
  have rs0 : 0 ≤ rnd (rnd (a.x * a.x) + rnd (a.y * a.y)) :=
    le_trans (mul_nonneg hL (add_nonneg rx0 ry0)) bs1
  obtain ⟨bq1, bq2⟩ := hs2.rounding_bounds (add_nonneg rs0 rz0)
  have hq : a.dotProductR rnd a
      = rnd (rnd (rnd (a.x * a.x) + rnd (a.y * a.y)) + rnd (a.z * a.z)) := rfl
  have hS : a.dotProduct a = a.x * a.x + a.y * a.y + a.z * a.z := rfl
  have lo : (1 - u) ^ 3 * a.dotProduct a ≤ a.dotProductR rnd a := by
    rw [hq, hS]
    have e1 : (1 - u) * ((1 - u) * (a.x * a.x) + (1 - u) * (a.y * a.y))
        ≤ rnd (rnd (a.x * a.x) + rnd (a.y * a.y)) :=
      le_trans (mul_le_mul_of_nonneg_left (add_le_add bx1 by1) hL) bs1
    have e2 : (1 - u) * ((1 - u) * (a.z * a.z)) ≤ rnd (a.z * a.z) := by
      have : (1 - u) * ((1 - u) * (a.z * a.z)) ≤ 1 * ((1 - u) * (a.z * a.z)) :=
        mul_le_mul_of_nonneg_right (by linarith) (mul_nonneg hL z0)
      linarith
    have e3 := mul_le_mul_of_nonneg_left (add_le_add e1 e2) hL
    calc (1 - u) ^ 3 * (a.x * a.x + a.y * a.y + a.z * a.z)
        = (1 - u) * ((1 - u) * ((1 - u) * (a.x * a.x) + (1 - u) * (a.y * a.y))
            + (1 - u) * ((1 - u) * (a.z * a.z))) := by ring
      _ ≤ (1 - u) * (rnd (rnd (a.x * a.x) + rnd (a.y * a.y)) + rnd (a.z * a.z)) := e3
      _ ≤ _ := bq1
  have hi : a.dotProductR rnd a ≤ (1 + u) ^ 3 * a.dotProduct a := by
    rw [hq, hS]
    have e1 : rnd (rnd (a.x * a.x) + rnd (a.y * a.y))
        ≤ (1 + u) * ((1 + u) * (a.x * a.x) + (1 + u) * (a.y * a.y)) :=
      le_trans bs2 (mul_le_mul_of_nonneg_left (add_le_add bx2 by2) hH)
    have e2 : rnd (a.z * a.z) ≤ (1 + u) * ((1 + u) * (a.z * a.z)) := by
      have : 1 * ((1 + u) * (a.z * a.z)) ≤ (1 + u) * ((1 + u) * (a.z * a.z)) :=
        mul_le_mul_of_nonneg_right (by linarith) (mul_nonneg hH z0)
      linarith
    have e3 := mul_le_mul_of_nonneg_left (add_le_add e1 e2) hH
    calc rnd (rnd (rnd (a.x * a.x) + rnd (a.y * a.y)) + rnd (a.z * a.z))
        ≤ (1 + u) * (rnd (rnd (a.x * a.x) + rnd (a.y * a.y)) + rnd (a.z * a.z)) := bq2
      _ ≤ (1 + u) * ((1 + u) * ((1 + u) * (a.x * a.x) + (1 + u) * (a.y * a.y))
            + (1 + u) * ((1 + u) * (a.z * a.z))) := e3
      _ = (1 + u) ^ 3 * (a.x * a.x + a.y * a.y + a.z * a.z) := by ring
  refine ⟨⟨lo, hi⟩, ?_, ?_⟩
  · have := mul_le_mul_of_nonneg_left lo (sq_nonneg (1 - u))
    calc (1 - u) ^ 5 * a.dotProduct a = (1 - u) ^ 2 * ((1 - u) ^ 3 * a.dotProduct a) := by ring
      _ ≤ (1 - u) ^ 2 * a.dotProductR rnd a := this
      _ ≤ _ := hm1
  · have := mul_le_mul_of_nonneg_left hi (sq_nonneg (1 + u))
    calc a.magnitudeR rnd ops * a.magnitudeR rnd ops ≤ (1 + u) ^ 2 * a.dotProductR rnd a := hm2
      _ ≤ (1 + u) ^ 2 * ((1 + u) ^ 3 * a.dotProduct a) := this
      _ = (1 + u) ^ 5 * a.dotProduct a := by ring

/-- The polynomial bounds on `(1 ± u)^k` used below, for `0 ≤ u ≤ 2^-21`. -/
theorem unit_roundoff_bounds (u : F) (hu0 : 0 ≤ u) (hu : u ≤ 1 / 2 ^ 21) :
    (1 + u) ^ 4 ≤ (1 + 10 * u) * (1 - u) ^ 5 ∧ (1 - 10 * u) * (1 + u) ^ 5 ≤ (1 - u) ^ 4 ∧
    (1 + u) ^ 2 ≤ (1 + 8 * u) * (1 - u) ^ 5 ∧ (1 - 8 * u) * (1 + u) ^ 5 ≤ (1 - u) ^ 2 ∧
    1 - 16 * u ≤ (1 - u) ^ 5 * (1 - 10 * u) ∧ (1 + u) ^ 5 * (1 + 10 * u) ≤ 1 + 16 * u := by
  have hs : u ≤ 1 / 1000 := le_trans hu (by norm_num)
  have h2 : u ^ 2 ≤ u / 1000 := by nlinarith
  have h20 : 0 ≤ u ^ 2 := sq_nonneg u
  have h3 : u ^ 3 ≤ u / 1000000 := by nlinarith
  have h30 : 0 ≤ u ^ 3 := by positivity
  have h4 : u ^ 4 ≤ u / 1000000 := by nlinarith
  have h40 : 0 ≤ u ^ 4 := by positivity
  have h5 : u ^ 5 ≤ u / 1000000 := by nlinarith
  have h50 : 0 ≤ u ^ 5 := by positivity
  have h6 : u ^ 6 ≤ u / 1000000 := by nlinarith
  have h60 : 0 ≤ u ^ 6 := by positivity
  refine ⟨?_, ?_, ?_, ?_, ?_, ?_⟩
  · have : (1 + 10 * u) * (1 - u) ^ 5 - (1 + u) ^ 4
        = u - 46 * u ^ 2 + 86 * u ^ 3 - 96 * u ^ 4 + 49 * u ^ 5 - 10 * u ^ 6 := by ring
    linarith
  · have : (1 - u) ^ 4 - (1 - 10 * u) * (1 + u) ^ 5
        = u + 46 * u ^ 2 + 86 * u ^ 3 + 96 * u ^ 4 + 49 * u ^ 5 + 10 * u ^ 6 := by ring
    linarith
  · have : (1 + 8 * u) * (1 - u) ^ 5 - (1 + u) ^ 2
        = u - 31 * u ^ 2 + 70 * u ^ 3 - 75 * u ^ 4 + 39 * u ^ 5 - 8 * u ^ 6 := by ring
    linarith
  · have : (1 - u) ^ 2 - (1 - 8 * u) * (1 + u) ^ 5
        = u + 31 * u ^ 2 + 70 * u ^ 3 + 75 * u ^ 4 + 39 * u ^ 5 + 8 * u ^ 6 := by ring
    linarith
  · have : (1 - u) ^ 5 * (1 - 10 * u) - (1 - 16 * u)
        = u + 60 * u ^ 2 - 110 * u ^ 3 + 105 * u ^ 4 - 51 * u ^ 5 + 10 * u ^ 6 := by ring
    linarith
  · have : 1 + 16 * u - (1 + u) ^ 5 * (1 + 10 * u)
        = u - 60 * u ^ 2 - 110 * u ^ 3 - 105 * u ^ 4 - 51 * u ^ 5 - 10 * u ^ 6 := by ring
    linarith

/-- The arithmetic of the error analysis of `normalize`: from the bounds on the rounded
    sum of squares `q`, its root `m`, the rounded inverse `k` and the sum of squares
    `R` of the result to the bounds on `R` and on `k*k*S`. -/
theorem normalize_error_arith (L H S m k R : F) (hL : 0 < L) (hLH : L ≤ H) (hS : 0 < S)
    (hm0 : 0 ≤ m) (hm1 : L ^ 5 * S ≤ m * m) (hm2 : m * m ≤ H ^ 5 * S)
    (hk1 : L ≤ k * m) (hk2 : k * m ≤ H)
    (hR1 : L ^ 2 * (k * k * S) ≤ R) (hR2 : R ≤ H ^ 2 * (k * k * S)) :
    0 < m ∧ 0 < k ∧ (L ^ 4 ≤ R * H ^ 5 ∧ R * L ^ 5 ≤ H ^ 4) ∧
    (L ^ 2 ≤ k * k * S * H ^ 5 ∧ k * k * S * L ^ 5 ≤ H ^ 2) := by
  have hH : 0 < H := lt_of_lt_of_le hL hLH
  have hmm : 0 < m * m := lt_of_lt_of_le (mul_pos (pow_pos hL 5) hS) hm1
  have hm : 0 < m := by
    rcases eq_or_lt_of_le hm0 with h | h
    · rw [← h] at hmm; simp at hmm
    · exact h
  have hkm : 0 < k * m := lt_of_lt_of_le hL hk1
  have hk : 0 < k := by
    by_contra hneg
    have : k * m ≤ 0 := mul_nonpos_of_nonpos_of_nonneg (not_lt.mp hneg) hm0
    linarith
  have hkk1 : L ^ 2 ≤ (k * m) * (k * m) := by
    have := mul_self_le_mul_self hL.le hk1
    nlinarith [this]
  have hkk2 : (k * m) * (k * m) ≤ H ^ 2 := by
    have := mul_self_le_mul_self hkm.le hk2
    nlinarith [this]
  have hkS : 0 ≤ k * k * S := by positivity
  -- `k*k*S*(m*m)` lies between `L^2 * S` and `H^2 * S`
  have a1 : L ^ 2 * S ≤ k * k * S * (m * m) := by
    have := mul_le_mul_of_nonneg_right hkk1 hS.le
    calc L ^ 2 * S ≤ (k * m) * (k * m) * S := this
      _ = k * k * S * (m * m) := by ring
  have a2 : k * k * S * (m * m) ≤ H ^ 2 * S := by
    have := mul_le_mul_of_nonneg_right hkk2 hS.le
    calc k * k * S * (m * m) = (k * m) * (k * m) * S := by ring
      _ ≤ H ^ 2 * S := this
  have b1 : L ^ 2 * S ≤ k * k * S * (H ^ 5 * S) :=
    le_trans a1 (mul_le_mul_of_nonneg_left hm2 hkS)
  have b2 : k * k * S * (L ^ 5 * S) ≤ H ^ 2 * S :=
    le_trans (mul_le_mul_of_nonneg_left hm1 hkS) a2
  have c1 : L ^ 2 ≤ k * k * S * H ^ 5 := by
    have : L ^ 2 * S ≤ (k * k * S * H ^ 5) * S := by linarith [b1, show k * k * S * (H ^ 5 * S) = (k * k * S * H ^ 5) * S by ring]
    exact le_of_mul_le_mul_right this hS
  have c2 : k * k * S * L ^ 5 ≤ H ^ 2 := by
    have : (k * k * S * L ^ 5) * S ≤ H ^ 2 * S := by linarith [b2, show k * k * S * (L ^ 5 * S) = (k * k * S * L ^ 5) * S by ring]
    exact le_of_mul_le_mul_right this hS
  refine ⟨hm, hk, ⟨?_, ?_⟩, c1, c2⟩
  · have : L ^ 2 * L ^ 2 ≤ L ^ 2 * (k * k * S * H ^ 5) :=
      mul_le_mul_of_nonneg_left c1 (sq_nonneg L)
    have h2 : L ^ 2 * (k * k * S) * H ^ 5 ≤ R * H ^ 5 :=
      mul_le_mul_of_nonneg_right hR1 (pow_pos hH 5).le
    calc L ^ 4 = L ^ 2 * L ^ 2 := by ring
      _ ≤ L ^ 2 * (k * k * S * H ^ 5) := this
      _ = L ^ 2 * (k * k * S) * H ^ 5 := by ring
      _ ≤ R * H ^ 5 := h2
  · have : H ^ 2 * (k * k * S * L ^ 5) ≤ H ^ 2 * H ^ 2 :=
      mul_le_mul_of_nonneg_left c2 (sq_nonneg H)
    have h2 : R * L ^ 5 ≤ H ^ 2 * (k * k * S) * L ^ 5 :=
      mul_le_mul_of_nonneg_right hR2 (pow_pos hL 5).le
    calc R * L ^ 5 ≤ H ^ 2 * (k * k * S) * L ^ 5 := h2
      _ = H ^ 2 * (k * k * S * L ^ 5) := by ring
      _ ≤ H ^ 2 * H ^ 2 := this
      _ = H ^ 4 := by ring

/-- The error analysis of `normalize`: for a non-zero `V` whose operations are accurate
    to `u ≤ 2^-21`, the computed magnitude and its rounded inverse `k` are positive, the
    Euclidean sum of squares of the result is within `10u` of 1, and `k*k*|V|^2` within
    `8u` of 1. -/
theorem Vector.normalizeR_sumSq (rnd : F → F) (ops : FloatOps F) (u : F) (V : Vector F)
    (hu0 : 0 ≤ u) (hu : u ≤ 1 / 2 ^ 21) (hV : V ≠ ⟨0, 0, 0⟩)
    (h : V.NormalizeAccurate rnd ops u) :
    0 < V.magnitudeR rnd ops ∧ 0 < rnd (1 / V.magnitudeR rnd ops) ∧
    |(V.normalizeR rnd ops).dotProduct (V.normalizeR rnd ops) - 1| ≤ 10 * u ∧
    |rnd (1 / V.magnitudeR rnd ops) * rnd (1 / V.magnitudeR rnd ops) * V.dotProduct V - 1|
      ≤ 8 * u := by
  have hu1 : u ≤ 1 := le_trans hu (by norm_num)
  have hul : u < 1 := lt_of_le_of_lt hu (by norm_num)
  obtain ⟨hmag, hinv, hx, hy, hz⟩ := h
  have hS : 0 < V.dotProduct V := Vector.sumSq_pos V hV
  obtain ⟨-, hm1, hm2⟩ := Vector.magnitudeR_bounds rnd ops u V hu0 hu1 hmag
  have hm0 : 0 ≤ V.magnitudeR rnd ops := hmag.2.2.2.2.2.1
  have hL : (0 : F) < 1 - u := by linarith
  have hLH : 1 - u ≤ 1 + u := by linarith
  have hmm : 0 < V.magnitudeR rnd ops * V.magnitudeR rnd ops :=
    lt_of_lt_of_le (mul_pos (pow_pos hL 5) hS) hm1
  have hm : 0 < V.magnitudeR rnd ops := by
    rcases eq_or_lt_of_le hm0 with h0 | h0
    · rw [← h0] at hmm; simp at hmm
    · exact h0
  obtain ⟨hk1, hk2⟩ := hinv.rounding_bounds (one_div_pos.mpr hm).le
  have hkm1 : 1 - u ≤ rnd (1 / V.magnitudeR rnd ops) * V.magnitudeR rnd ops := by
    have := mul_le_mul_of_nonneg_right hk1 hm.le
    rwa [mul_assoc, one_div_mul_cancel hm.ne', mul_one] at this
  have hkm2 : rnd (1 / V.magnitudeR rnd ops) * V.magnitudeR rnd ops ≤ 1 + u := by
    have := mul_le_mul_of_nonneg_right hk2 hm.le
    rwa [mul_assoc, one_div_mul_cancel hm.ne', mul_one] at this
  obtain ⟨sx1, sx2⟩ := hx.square_bounds hu1
  obtain ⟨sy1, sy2⟩ := hy.square_bounds hu1
  obtain ⟨sz1, sz2⟩ := hz.square_bounds hu1
  have hR : (V.normalizeR rnd ops).dotProduct (V.normalizeR rnd ops)
      = rnd (V.x * rnd (1 / V.magnitudeR rnd ops)) * rnd (V.x * rnd (1 / V.magnitudeR rnd ops))
        + rnd (V.y * rnd (1 / V.magnitudeR rnd ops))
          * rnd (V.y * rnd (1 / V.magnitudeR rnd ops))
        + rnd (V.z * rnd (1 / V.magnitudeR rnd ops))
          * rnd (V.z * rnd (1 / V.magnitudeR rnd ops)) := rfl
  have hSd : V.dotProduct V = V.x * V.x + V.y * V.y + V.z * V.z := rfl
  have hR1 : (1 - u) ^ 2 * (rnd (1 / V.magnitudeR rnd ops) * rnd (1 / V.magnitudeR rnd ops)
        * V.dotProduct V)
      ≤ (V.normalizeR rnd ops).dotProduct (V.normalizeR rnd ops) := by
    rw [hR, hSd]
    have e : (1 - u) ^ 2 * (rnd (1 / V.magnitudeR rnd ops) * rnd (1 / V.magnitudeR rnd ops)
          * (V.x * V.x + V.y * V.y + V.z * V.z))
        = (1 - u) ^ 2 * ((V.x * rnd (1 / V.magnitudeR rnd ops))
            * (V.x * rnd (1 / V.magnitudeR rnd ops)))
          + (1 - u) ^ 2 * ((V.y * rnd (1 / V.magnitudeR rnd ops))
            * (V.y * rnd (1 / V.magnitudeR rnd ops)))
          + (1 - u) ^ 2 * ((V.z * rnd (1 / V.magnitudeR rnd ops))
            * (V.z * rnd (1 / V.magnitudeR rnd ops))) := by ring
    rw [e]
    exact add_le_add (add_le_add sx1 sy1) sz1
  have hR2 : (V.normalizeR rnd ops).dotProduct (V.normalizeR rnd ops)
      ≤ (1 + u) ^ 2 * (rnd (1 / V.magnitudeR rnd ops) * rnd (1 / V.magnitudeR rnd ops)
        * V.dotProduct V) := by
    rw [hR, hSd]
    have e : (1 + u) ^ 2 * (rnd (1 / V.magnitudeR rnd ops) * rnd (1 / V.magnitudeR rnd ops)
          * (V.x * V.x + V.y * V.y + V.z * V.z))
        = (1 + u) ^ 2 * ((V.x * rnd (1 / V.magnitudeR rnd ops))
            * (V.x * rnd (1 / V.magnitudeR rnd ops)))
          + (1 + u) ^ 2 * ((V.y * rnd (1 / V.magnitudeR rnd ops))
            * (V.y * rnd (1 / V.magnitudeR rnd ops)))
          + (1 + u) ^ 2 * ((V.z * rnd (1 / V.magnitudeR rnd ops))
            * (V.z * rnd (1 / V.magnitudeR rnd ops))) := by ring
    rw [e]
    exact add_le_add (add_le_add sx2 sy2) sz2
  obtain ⟨-, hk, ⟨r1, r2⟩, k1, k2⟩ := normalize_error_arith (1 - u) (1 + u) (V.dotProduct V)
    (V.magnitudeR rnd ops) (rnd (1 / V.magnitudeR rnd ops))
    ((V.normalizeR rnd ops).dotProduct (V.normalizeR rnd ops)) hL hLH hS hm0 hm1 hm2
    hkm1 hkm2 hR1 hR2
  obtain ⟨p1, p2, p3, p4, -, -⟩ := unit_roundoff_bounds u hu0 hu
  have hH5 : (0 : F) < (1 + u) ^ 5 := pow_pos (by linarith) 5
  have hL5 : (0 : F) < (1 - u) ^ 5 := pow_pos hL 5
  refine ⟨hm, hk, ?_, ?_⟩
  · rw [abs_le]
    constructor
    · have : (1 - 10 * u) * (1 + u) ^ 5
          ≤ (V.normalizeR rnd ops).dotProduct (V.normalizeR rnd ops) * (1 + u) ^ 5 :=
        le_trans p2 r1
      have := le_of_mul_le_mul_right this hH5
      linarith
    · have : (V.normalizeR rnd ops).dotProduct (V.normalizeR rnd ops) * (1 - u) ^ 5
          ≤ (1 + 10 * u) * (1 - u) ^ 5 := le_trans r2 p1
      have := le_of_mul_le_mul_right this hL5
      linarith
  · rw [abs_le]
    constructor
    · have := le_of_mul_le_mul_right (le_trans p4 k1) hH5
      linarith
    · have := le_of_mul_le_mul_right (le_trans k2 p3) hL5
      linarith

/-- The computed magnitude of a vector whose Euclidean sum of squares is within `10u`
    of 1 is within `16u` of 1. -/
theorem Vector.magnitudeR_near_one (rnd : F → F) (ops : FloatOps F) (u : F) (a : Vector F)
    (hu0 : 0 ≤ u) (hu : u ≤ 1 / 2 ^ 21) (h : a.MagnitudeAccurate rnd ops u)
    (hs : |a.dotProduct a - 1| ≤ 10 * u) :
    |a.magnitudeR rnd ops - 1| ≤ 16 * u := by
  have hu1 : u ≤ 1 := le_trans hu (by norm_num)
  have hs10 : 10 * u < 1 := by linarith [show u ≤ 1 / 1000 from le_trans hu (by norm_num)]
  obtain ⟨-, hm1, hm2⟩ := Vector.magnitudeR_bounds rnd ops u a hu0 hu1 h
  have hm0 : 0 ≤ a.magnitudeR rnd ops := h.2.2.2.2.2.1
  obtain ⟨-, -, -, -, p5, p6⟩ := unit_roundoff_bounds u hu0 hu
  rw [abs_le] at hs
  have hL5 : (0 : F) ≤ (1 - u) ^ 5 := pow_nonneg (by linarith) 5
  have hH5 : (0 : F) ≤ (1 + u) ^ 5 := pow_nonneg (by linarith) 5
  have lo : 1 - 16 * u ≤ a.magnitudeR rnd ops * a.magnitudeR rnd ops := by
    have : (1 - u) ^ 5 * (1 - 10 * u) ≤ (1 - u) ^ 5 * a.dotProduct a :=
      mul_le_mul_of_nonneg_left (by linarith) hL5
    linarith
  have hi : a.magnitudeR rnd ops * a.magnitudeR rnd ops ≤ 1 + 16 * u := by
    have : (1 + u) ^ 5 * a.dotProduct a ≤ (1 + u) ^ 5 * (1 + 10 * u) :=
      mul_le_mul_of_nonneg_left (by linarith) hH5
    linarith
  rw [abs_le]
  constructor
  · by_contra hc
    have hc2 : a.magnitudeR rnd ops < 1 - 16 * u := by linarith
    have h16 : (0 : F) ≤ 1 - 16 * u := by
      linarith [show u ≤ 1 / 1000 from le_trans hu (by norm_num)]
    nlinarith
  · by_contra hc
    have hc2 : 1 + 16 * u < a.magnitudeR rnd ops := by linarith
    nlinarith

/-- Normalising a vector whose computed magnitude is within `16u` of 1 changes each
    component by at most `20u` times its size. -/
theorem Vector.normalizeR_near_unit (rnd : F → F) (ops : FloatOps F) (u : F) (a : Vector F)
    (hu0 : 0 ≤ u) (hu : u ≤ 1 / 2 ^ 21) (h : a.NormalizeAccurate rnd ops u)
    (hm : |a.magnitudeR rnd ops - 1| ≤ 16 * u) :
    |(a.normalizeR rnd ops).x - a.x| ≤ 20 * u * |a.x| ∧
    |(a.normalizeR rnd ops).y - a.y| ≤ 20 * u * |a.y| ∧
    |(a.normalizeR rnd ops).z - a.z| ≤ 20 * u * |a.z| := by
  have hs : u ≤ 1 / 1000 := le_trans hu (by norm_num)
  obtain ⟨-, hinv, hx, hy, hz⟩ := h
  rw [abs_le] at hm
  have hmpos : 0 < a.magnitudeR rnd ops := by linarith
  obtain ⟨hk1, hk2⟩ := hinv.rounding_bounds (one_div_pos.mpr hmpos).le
  have hkm1 : 1 - u ≤ rnd (1 / a.magnitudeR rnd ops) * a.magnitudeR rnd ops := by
    have := mul_le_mul_of_nonneg_right hk1 hmpos.le
    rwa [mul_assoc, one_div_mul_cancel hmpos.ne', mul_one] at this
  have hkm2 : rnd (1 / a.magnitudeR rnd ops) * a.magnitudeR rnd ops ≤ 1 + u := by
    have := mul_le_mul_of_nonneg_right hk2 hmpos.le
    rwa [mul_assoc, one_div_mul_cancel hmpos.ne', mul_one] at this
  have hkhi : rnd (1 / a.magnitudeR rnd ops) ≤ 1 + 18 * u := by
    by_contra hc
    have hc2 : 1 + 18 * u < rnd (1 / a.magnitudeR rnd ops) := by linarith
    nlinarith
  have hklo : 1 - 18 * u ≤ rnd (1 / a.magnitudeR rnd ops) := by
    by_contra hc
    have hc2 : rnd (1 / a.magnitudeR rnd ops) < 1 - 18 * u := by linarith
    have h18 : (0 : F) ≤ 1 - 18 * u := by linarith
    nlinarith
  have hk0 : 0 ≤ rnd (1 / a.magnitudeR rnd ops) := by linarith
  have key : ∀ c : F, Accurate rnd u (c * rnd (1 / a.magnitudeR rnd ops)) →
      |rnd (c * rnd (1 / a.magnitudeR rnd ops)) - c| ≤ 20 * u * |c| := by
    intro c hc
    unfold Accurate at hc
    have e1 : |c * rnd (1 / a.magnitudeR rnd ops)| ≤ (1 + 18 * u) * |c| := by
      rw [abs_mul, abs_of_nonneg hk0, mul_comm]
      exact mul_le_mul_of_nonneg_right hkhi (abs_nonneg c)
    have e2 : |c * rnd (1 / a.magnitudeR rnd ops) - c| ≤ 18 * u * |c| := by
      have : c * rnd (1 / a.magnitudeR rnd ops) - c
          = c * (rnd (1 / a.magnitudeR rnd ops) - 1) := by ring
      rw [this, abs_mul, mul_comm]
      apply mul_le_mul_of_nonneg_right _ (abs_nonneg c)
      rw [abs_le]
      constructor <;> linarith
    have e3 : |rnd (c * rnd (1 / a.magnitudeR rnd ops)) - c|
        ≤ |rnd (c * rnd (1 / a.magnitudeR rnd ops)) - c * rnd (1 / a.magnitudeR rnd ops)|
          + |c * rnd (1 / a.magnitudeR rnd ops) - c| := abs_sub_le _ _ _
    have e4 : u * |c * rnd (1 / a.magnitudeR rnd ops)| ≤ u * ((1 + 18 * u) * |c|) :=
      mul_le_mul_of_nonneg_left e1 hu0
    have e5 : u * u * |c| ≤ u * (1 / 1000) * |c| :=
      mul_le_mul_of_nonneg_right (mul_le_mul_of_nonneg_left hs hu0) (abs_nonneg c)
    have e6 : 0 ≤ u * |c| := mul_nonneg hu0 (abs_nonneg c)
    nlinarith
  exact ⟨key a.x hx, key a.y hy, key a.z hz⟩

/-- C11, amended.  In `float` arithmetic `normalize` is accurate, not exact.  For a
    non-zero `V`, when every operation of `normalize` on `V` and on the result has
    relative error at most `u ≤ 2^-21` (binary32 without overflow or underflow has
    `u = 2^-24`): the result is `V` scaled, each component up to the relative error
    `u`, by a positive factor `k` with `k*k*|V|^2` within `8u` of 1; its Euclidean sum
    of squares is within `10u` of 1 and its computed magnitude within `16u` of 1;
    normalising it again moves each component by at most `20u` of its size; a `V` whose
    computed magnitude is within `16u` of 1 is itself moved by at most `20u` of each
    component; and `20u < 1e-5`.  With `u = 0` these are the exact clauses of C11. -/
theorem Vector.normalize_rounded (rnd : F → F) (ops : FloatOps F) (u : F) (V : Vector F)
    (hu0 : 0 ≤ u) (hu : u ≤ 1 / 2 ^ 21) (hV : V ≠ ⟨0, 0, 0⟩)
    (hacc : V.NormalizeAccurate rnd ops u)
    (hacc2 : (V.normalizeR rnd ops).NormalizeAccurate rnd ops u) :
    (0 < rnd (1 / V.magnitudeR rnd ops) ∧
      |(V.normalizeR rnd ops).x - V.x * rnd (1 / V.magnitudeR rnd ops)|
        ≤ u * |V.x * rnd (1 / V.magnitudeR rnd ops)| ∧
      |(V.normalizeR rnd ops).y - V.y * rnd (1 / V.magnitudeR rnd ops)|
        ≤ u * |V.y * rnd (1 / V.magnitudeR rnd ops)| ∧
      |(V.normalizeR rnd ops).z - V.z * rnd (1 / V.magnitudeR rnd ops)|
        ≤ u * |V.z * rnd (1 / V.magnitudeR rnd ops)| ∧
      |rnd (1 / V.magnitudeR rnd ops) * rnd (1 / V.magnitudeR rnd ops) * V.dotProduct V - 1|
        ≤ 8 * u) ∧
    |(V.normalizeR rnd ops).dotProduct (V.normalizeR rnd ops) - 1| ≤ 10 * u ∧
    |(V.normalizeR rnd ops).magnitudeR rnd ops - 1| ≤ 16 * u ∧
    (|((V.normalizeR rnd ops).normalizeR rnd ops).x - (V.normalizeR rnd ops).x|
        ≤ 20 * u * |(V.normalizeR rnd ops).x| ∧
      |((V.normalizeR rnd ops).normalizeR rnd ops).y - (V.normalizeR rnd ops).y|
        ≤ 20 * u * |(V.normalizeR rnd ops).y| ∧
      |((V.normalizeR rnd ops).normalizeR rnd ops).z - (V.normalizeR rnd ops).z|
        ≤ 20 * u * |(V.normalizeR rnd ops).z|) ∧
    (|V.magnitudeR rnd ops - 1| ≤ 16 * u →
      |(V.normalizeR rnd ops).x - V.x| ≤ 20 * u * |V.x| ∧
      |(V.normalizeR rnd ops).y - V.y| ≤ 20 * u * |V.y| ∧
      |(V.normalizeR rnd ops).z - V.z| ≤ 20 * u * |V.z|) ∧
    20 * u < 1 / 10 ^ 5 := by
  obtain ⟨-, hk, hsum, hkS⟩ := Vector.normalizeR_sumSq rnd ops u V hu0 hu hV hacc
  have hmag := Vector.magnitudeR_near_one rnd ops u (V.normalizeR rnd ops) hu0 hu hacc2.1 hsum
  refine ⟨⟨hk, hacc.2.2.1, hacc.2.2.2.1, hacc.2.2.2.2, hkS⟩, hsum, hmag,
    Vector.normalizeR_near_unit rnd ops u (V.normalizeR rnd ops) hu0 hu hacc2 hmag,
    fun h => Vector.normalizeR_near_unit rnd ops u V hu0 hu hacc h, ?_⟩
  have : (20 : F) * (1 / 2 ^ 21) < 1 / 10 ^ 5 := by norm_num
  linarith

end NormalizeRounded

section Binary32Accuracy

/-- The integer `roundEven y` is within `1/2` of `y`. -/
theorem roundEven_near (y : ℚ) : |(roundEven y : ℚ) - y| ≤ 1 / 2 := by
  have h0 : 0 ≤ y - ⌊y⌋ := sub_nonneg.mpr (Int.floor_le y)
  have h1 : y - ⌊y⌋ < 1 := by linarith [Int.lt_floor_add_one y]
  unfold roundEven
  split_ifs with ha hb hc
  · rw [abs_le]; constructor <;> linarith
  · rw [abs_le]; push_cast; constructor <;> linarith
  · rw [abs_le]; constructor <;> linarith
  · rw [abs_le]; push_cast; constructor <;> linarith

/-- The rounding `round32` has relative error at most `2^-24`. -/
theorem round32_accurate (x : ℚ) : Accurate round32 (1 / 2 ^ 24) x := by
  unfold Accurate
  by_cases hx : x = 0
  · simp [round32, hx]
  · have hpos : 0 < |x| := abs_pos.mpr hx
    have hlog : (2 : ℚ) ^ Int.log 2 |x| ≤ |x| := by
      have := Int.zpow_log_le_self (b := 2) (by norm_num) hpos
      simpa using this
    obtain ⟨L, hL⟩ : ∃ L, Int.log 2 |x| = L := ⟨_, rfl⟩
    rw [hL] at hlog
    have hp : (0 : ℚ) < 2 ^ (L - 23) := zpow_pos (by norm_num) _
    have hsplit : (2 : ℚ) ^ L = 2 ^ (L - 23) * 2 ^ (23 : ℕ) := by
      rw [← zpow_natCast, ← zpow_add₀ (by norm_num)]
      congr 1
      omega
    have hr : round32 x = (roundEven (x / 2 ^ (L - 23)) : ℚ) * 2 ^ (L - 23) := by
      simp only [round32, if_neg hx, hL]
    have hd : round32 x - x
        = ((roundEven (x / 2 ^ (L - 23)) : ℚ) - x / 2 ^ (L - 23)) * 2 ^ (L - 23) := by
      rw [hr]
      field_simp
    rw [hd, abs_mul, abs_of_pos hp]
    have hn := roundEven_near (x / 2 ^ (L - 23))
    have h1 : |(roundEven (x / 2 ^ (L - 23)) : ℚ) - x / 2 ^ (L - 23)| * 2 ^ (L - 23)
        ≤ 1 / 2 * 2 ^ (L - 23) := mul_le_mul_of_nonneg_right hn hp.le
    have h2 : 1 / 2 * (2 : ℚ) ^ (L - 23) = 1 / 2 ^ 24 * 2 ^ L := by
      rw [hsplit]
      ring
    have h3 : 1 / 2 ^ 24 * (2 : ℚ) ^ L ≤ 1 / 2 ^ 24 * |x| :=
      mul_le_mul_of_nonneg_left hlog (by norm_num)
    linarith

end Binary32Accuracy

section NormalizeConcrete

/-- The binary32 evaluation of `normalize` on `(2,3,6)`, and of the sum of squares and
    of `normalize` on the result: `1/7` is rounded, and so are the three products and
    the squares that follow. -/
theorem Vector.normalizeR_evaluated :
    (⟨2, 3, 6⟩ : Vector ℚ).dotProductR round32 ⟨2, 3, 6⟩ = 49 ∧
    (⟨2, 3, 6⟩ : Vector ℚ).normalizeR round32 rootOps
      = ⟨9586981 / 33554432, 1797559 / 4194304, 1797559 / 2097152⟩ ∧
    ((⟨9586981 / 33554432, 1797559 / 4194304, 1797559 / 2097152⟩ : Vector ℚ).dotProductR round32
      ⟨9586981 / 33554432, 1797559 / 4194304, 1797559 / 2097152⟩) = 4194305 / 4194304 ∧
    (⟨9586981 / 33554432, 1797559 / 4194304, 1797559 / 2097152⟩ : Vector ℚ).normalizeR round32 rootOps
      = ⟨2396745 / 8388608, 7190235 / 16777216, 7190235 / 8388608⟩ := by
  have r0 : round32 4 = 4 := by
    have h := round32_int (4) (by norm_num); norm_num at h; exact h
  have r1 : round32 9 = 9 := by
    have h := round32_int (9) (by norm_num); norm_num at h; exact h
  have r2 : round32 13 = 13 := by
    have h := round32_int (13) (by norm_num); norm_num at h; exact h
  have r3 : round32 36 = 36 := by
    have h := round32_int (36) (by norm_num); norm_num at h; exact h
  have r4 : round32 49 = 49 := by
    have h := round32_int (49) (by norm_num); norm_num at h; exact h
  have r5 : round32 (1 / 7) = (9586981 / 67108864) := by
    rw [round32_eval (1 / 7) (9586981) (-26) (by norm_num [abs_of_pos, abs_of_neg]) (by norm_num [abs_of_pos, abs_of_neg])
      (by norm_num [abs_lt])]
    norm_num
  have r6 : round32 (9586981 / 33554432) = (9586981 / 33554432) := by
    have h := round32_dyadic (9586981) (-25) (by norm_num); norm_num at h; exact h
  have r7 : round32 (28760943 / 67108864) = (1797559 / 4194304) := by
    rw [round32_tie (28760943 / 67108864) (14380471) (-25) (by norm_num [abs_of_pos, abs_of_neg]) (by norm_num [abs_of_pos, abs_of_neg])
      (by norm_num)]
    norm_num
  have r8 : round32 (28760943 / 33554432) = (1797559 / 2097152) := by
    rw [round32_tie (28760943 / 33554432) (14380471) (-24) (by norm_num [abs_of_pos, abs_of_neg]) (by norm_num [abs_of_pos, abs_of_neg])
      (by norm_num)]
    norm_num
  have r9 : round32 (91910204694361 / 1125899906842624) = (5478275 / 67108864) := by
    rw [round32_eval (91910204694361 / 1125899906842624) (10956550) (-27) (by norm_num [abs_of_pos, abs_of_neg]) (by norm_num [abs_of_pos, abs_of_neg])
      (by norm_num [abs_lt])]
    norm_num
  have r10 : round32 (3231218358481 / 17592186044416) = (1540765 / 8388608) := by
    rw [round32_eval (3231218358481 / 17592186044416) (12326120) (-26) (by norm_num [abs_of_pos, abs_of_neg]) (by norm_num [abs_of_pos, abs_of_neg])
      (by norm_num [abs_lt])]
    norm_num
  have r11 : round32 (17804395 / 67108864) = (4451099 / 16777216) := by
    rw [round32_tie (17804395 / 67108864) (8902197) (-25) (by norm_num [abs_of_pos, abs_of_neg]) (by norm_num [abs_of_pos, abs_of_neg])
      (by norm_num)]
    norm_num
  have r12 : round32 (3231218358481 / 4398046511104) = (1540765 / 2097152) := by
    rw [round32_eval (3231218358481 / 4398046511104) (12326120) (-24) (by norm_num [abs_of_pos, abs_of_neg]) (by norm_num [abs_of_pos, abs_of_neg])
      (by norm_num [abs_lt])]
    norm_num
  have r13 : round32 (16777219 / 16777216) = (4194305 / 4194304) := by
    rw [round32_tie (16777219 / 16777216) (8388609) (-23) (by norm_num [abs_of_pos, abs_of_neg]) (by norm_num [abs_of_pos, abs_of_neg])
      (by norm_num)]
    norm_num
  have r14 : round32 (8388608 / 8388609) = (8388607 / 8388608) := by
    rw [round32_eval (8388608 / 8388609) (16777214) (-24) (by norm_num [abs_of_pos, abs_of_neg]) (by norm_num [abs_of_pos, abs_of_neg])
      (by norm_num [abs_lt])]
    norm_num
  have r15 : round32 (80421415925467 / 281474976710656) = (2396745 / 8388608) := by
    rw [round32_eval (80421415925467 / 281474976710656) (9586980) (-25) (by norm_num [abs_of_pos, abs_of_neg]) (by norm_num [abs_of_pos, abs_of_neg])
      (by norm_num [abs_lt])]
    norm_num
  have r16 : round32 (15079016010313 / 35184372088832) = (7190235 / 16777216) := by
    rw [round32_eval (15079016010313 / 35184372088832) (14380470) (-25) (by norm_num [abs_of_pos, abs_of_neg]) (by norm_num [abs_of_pos, abs_of_neg])
      (by norm_num [abs_lt])]
    norm_num
  have r17 : round32 (15079016010313 / 17592186044416) = (7190235 / 8388608) := by
    rw [round32_eval (15079016010313 / 17592186044416) (14380470) (-24) (by norm_num [abs_of_pos, abs_of_neg]) (by norm_num [abs_of_pos, abs_of_neg])
      (by norm_num [abs_lt])]
    norm_num
  have hq : ((⟨9586981 / 33554432, 1797559 / 4194304, 1797559 / 2097152⟩ : Vector ℚ).dotProductR round32
      ⟨9586981 / 33554432, 1797559 / 4194304, 1797559 / 2097152⟩) = 4194305 / 4194304 := by
    norm_num [Vector.dotProductR,
      r0, r1, r2, r3, r4, r5, r6, r7, r8, r9, r10, r11, r12, r13, r14, r15, r16, r17]
  have hm : (⟨9586981 / 33554432, 1797559 / 4194304, 1797559 / 2097152⟩ : Vector ℚ).magnitudeR
      round32 rootOps = 8388609 / 8388608 := by
    show rootOps.sqrt ((⟨9586981 / 33554432, 1797559 / 4194304, 1797559 / 2097152⟩ : Vector ℚ).dotProductR round32
      ⟨9586981 / 33554432, 1797559 / 4194304, 1797559 / 2097152⟩) = _
    rw [hq]
    norm_num [rootOps, rootSqrt]
  refine ⟨?_, ?_, hq, ?_⟩
  · norm_num [Vector.dotProductR,
      r0, r1, r2, r3, r4, r5, r6, r7, r8, r9, r10, r11, r12, r13, r14, r15, r16, r17]
  · norm_num [Vector.normalizeR, Vector.magnitudeR, rootOps, rootSqrt, Vector.ext_iff3,
      r0, r1, r2, r3, r4, r5, r6, r7, r8, r9, r10, r11, r12, r13, r14, r15, r16, r17]
  · norm_num [Vector.normalizeR, hm, Vector.ext_iff3,
      r0, r1, r2, r3, r4, r5, r6, r7, r8, r9, r10, r11, r12, r13, r14, r15, r16, r17]

/-- C11 fails in binary32.  For `V = (2,3,6)` the sum of squares `49` and its root `7`
    are exact, but `1/7` is rounded, and so are the products and the squares that
    follow: the normalised vector has the Euclidean sum of squares different from 1, the
    computed sum of squares `1 + 2^-22` and the computed magnitude `1 + 2^-23`, and
    normalising it again changes it.  (`rootSqrt` holds the binary32 roots: `7*7 = 49`,
    and `1 + 2^-23` is the binary32 value nearest to the root of `1 + 2^-22`.) -/
theorem Vector.normalize_counterexample :
    ((7 : ℚ) * 7 = 49 ∧
      ((8388609 : ℚ) / 8388608 - 1 / 16777216) * (8388609 / 8388608 - 1 / 16777216)
        < 4194305 / 4194304 ∧
      (4194305 : ℚ) / 4194304
        < (8388609 / 8388608 + 1 / 16777216) * (8388609 / 8388608 + 1 / 16777216)) ∧
    (⟨2, 3, 6⟩ : Vector ℚ) ≠ ⟨0, 0, 0⟩ ∧
    ((⟨2, 3, 6⟩ : Vector ℚ).normalizeR round32 rootOps).dotProduct
      ((⟨2, 3, 6⟩ : Vector ℚ).normalizeR round32 rootOps) ≠ 1 ∧
    ((⟨2, 3, 6⟩ : Vector ℚ).normalizeR round32 rootOps).magnitudeR round32 rootOps
      = 8388609 / 8388608 ∧
    ((⟨2, 3, 6⟩ : Vector ℚ).normalizeR round32 rootOps).magnitudeR round32 rootOps ≠ 1 ∧
    ((⟨2, 3, 6⟩ : Vector ℚ).normalizeR round32 rootOps).normalizeR round32 rootOps
      ≠ (⟨2, 3, 6⟩ : Vector ℚ).normalizeR round32 rootOps := by
  obtain ⟨-, hn, hq, hnn⟩ := Vector.normalizeR_evaluated
  have hm : ((⟨2, 3, 6⟩ : Vector ℚ).normalizeR round32 rootOps).magnitudeR round32 rootOps
      = 8388609 / 8388608 := by
    show rootOps.sqrt (((⟨2, 3, 6⟩ : Vector ℚ).normalizeR round32 rootOps).dotProductR round32
      ((⟨2, 3, 6⟩ : Vector ℚ).normalizeR round32 rootOps)) = _
    rw [hn, hq]
    norm_num [rootOps, rootSqrt]
  refine ⟨⟨by norm_num, by norm_num, by norm_num⟩, by simp [Vector.ext_iff3], ?_, hm, ?_, ?_⟩
  · rw [hn]
    norm_num [Vector.dotProduct]
  · rw [hm]
    norm_num
  · rw [hn, hnn]
    norm_num [Vector.ext_iff3]

/-- Witness of the amended C11 in binary32: `(2,3,6)` with `u = 2^-24`.  The normalised
    vector has Euclidean sum of squares within `10 * 2^-24` of 1 and computed magnitude
    within `16 * 2^-24` of 1, and normalising it again moves each component by at most
    `20 * 2^-24` of its size. -/
theorem Vector.normalize_rounded_witness :
    (⟨2, 3, 6⟩ : Vector ℚ) ≠ ⟨0, 0, 0⟩ ∧
    |((⟨2, 3, 6⟩ : Vector ℚ).normalizeR round32 rootOps).dotProduct
      ((⟨2, 3, 6⟩ : Vector ℚ).normalizeR round32 rootOps) - 1| ≤ 10 * (1 / 2 ^ 24) ∧
    |((⟨2, 3, 6⟩ : Vector ℚ).normalizeR round32 rootOps).magnitudeR round32 rootOps - 1|
      ≤ 16 * (1 / 2 ^ 24) ∧
    |(((⟨2, 3, 6⟩ : Vector ℚ).normalizeR round32 rootOps).normalizeR round32 rootOps).x
        - ((⟨2, 3, 6⟩ : Vector ℚ).normalizeR round32 rootOps).x|
      ≤ 20 * (1 / 2 ^ 24) * |((⟨2, 3, 6⟩ : Vector ℚ).normalizeR round32 rootOps).x| := by
  obtain ⟨hqV, hn, hq, -⟩ := Vector.normalizeR_evaluated
  have hV : (⟨2, 3, 6⟩ : Vector ℚ) ≠ ⟨0, 0, 0⟩ := by simp [Vector.ext_iff3]
  have hmV : (⟨2, 3, 6⟩ : Vector ℚ).magnitudeR round32 rootOps = 7 := by
    show rootOps.sqrt ((⟨2, 3, 6⟩ : Vector ℚ).dotProductR round32 ⟨2, 3, 6⟩) = _
    rw [hqV]
    norm_num [rootOps, rootSqrt]
  have hm : ((⟨2, 3, 6⟩ : Vector ℚ).normalizeR round32 rootOps).magnitudeR round32 rootOps
      = 8388609 / 8388608 := by
    show rootOps.sqrt (((⟨2, 3, 6⟩ : Vector ℚ).normalizeR round32 rootOps).dotProductR round32
      ((⟨2, 3, 6⟩ : Vector ℚ).normalizeR round32 rootOps)) = _
    rw [hn, hq]
    norm_num [rootOps, rootSqrt]
  have hacc : (⟨2, 3, 6⟩ : Vector ℚ).NormalizeAccurate round32 rootOps (1 / 2 ^ 24) := by
    refine ⟨⟨round32_accurate _, round32_accurate _, round32_accurate _, round32_accurate _,
      round32_accurate _, ?_, ?_, ?_⟩, round32_accurate _, round32_accurate _,
      round32_accurate _, round32_accurate _⟩
    · rw [hmV]; norm_num
    · rw [hmV, hqV]; norm_num
    · rw [hmV, hqV]; norm_num
  have hacc2 : ((⟨2, 3, 6⟩ : Vector ℚ).normalizeR round32 rootOps).NormalizeAccurate
      round32 rootOps (1 / 2 ^ 24) := by
    refine ⟨⟨round32_accurate _, round32_accurate _, round32_accurate _, round32_accurate _,
      round32_accurate _, ?_, ?_, ?_⟩, round32_accurate _, round32_accurate _,
      round32_accurate _, round32_accurate _⟩
    · rw [hm]; norm_num
    · rw [hm, hn, hq]; norm_num
    · rw [hm, hn, hq]; norm_num
  have h := Vector.normalize_rounded round32 rootOps (1 / 2 ^ 24) ⟨2, 3, 6⟩ (by norm_num)
    (by norm_num) hV hacc hacc2
  exact ⟨hV, h.2.1, h.2.2.1, h.2.2.2.1.1⟩

end NormalizeConcrete

section CameraRounded

variable {F : Type} [LinearOrderedField F]

/-- C12, amended.  In `float` arithmetic the basis is orthonormal when the operations
    of `getW`, `getU` and `getV` incur no rounding error.  For a camera with
    `eye ≠ lookAt` and `up x (eye - lookAt) ≠ 0`, with `sqrt` returning a root of the two
    sums of squares that `getW` and `getU` normalise by and `sqrt 1 = 1`, when the
    difference `eye - lookAt`, the two normalisations, the two cross products and the
    dot products below are computed exactly: `W = normalize(eye - lookAt)`,
    `U = normalize(up x W)` and `V = W x U`, each has Euclidean sum of squares 1 and
    computed magnitude 1, and `W.U = U.V = V.W = 0`, exactly and as computed. -/
theorem Camera.basis_rounded (rnd : F → F) (ops : FloatOps F) (cam : Camera F)
    (heye : cam.eye - cam.lookAt ≠ ⟨0, 0, 0⟩)
    (hup : cam.up.crossProduct (cam.eye - cam.lookAt) ≠ ⟨0, 0, 0⟩)
    (hw : (cam.eye - cam.lookAt).magnitude ops * (cam.eye - cam.lookAt).magnitude ops
      = (cam.eye - cam.lookAt).x * (cam.eye - cam.lookAt).x
        + (cam.eye - cam.lookAt).y * (cam.eye - cam.lookAt).y
        + (cam.eye - cam.lookAt).z * (cam.eye - cam.lookAt).z)
    (hu : (cam.up.crossProduct (cam.getW ops)).magnitude ops
        * (cam.up.crossProduct (cam.getW ops)).magnitude ops
      = (cam.up.crossProduct (cam.getW ops)).x * (cam.up.crossProduct (cam.getW ops)).x
        + (cam.up.crossProduct (cam.getW ops)).y * (cam.up.crossProduct (cam.getW ops)).y
        + (cam.up.crossProduct (cam.getW ops)).z * (cam.up.crossProduct (cam.getW ops)).z)
    (h1 : ops.sqrt 1 = 1)
    (hsub : cam.eye.subR rnd cam.lookAt = cam.eye - cam.lookAt)
    (hnW : (cam.eye - cam.lookAt).NormalizeExact rnd ops)
    (hcU : cam.up.crossProductR rnd (cam.getW ops) = cam.up.crossProduct (cam.getW ops))
    (hnU : (cam.up.crossProduct (cam.getW ops)).NormalizeExact rnd ops)
    (hcV : (cam.getW ops).crossProductR rnd (cam.getU ops)
      = (cam.getW ops).crossProduct (cam.getU ops))
    (hdW : (cam.getW ops).dotProductR rnd (cam.getW ops)
      = (cam.getW ops).dotProduct (cam.getW ops))
    (hdU : (cam.getU ops).dotProductR rnd (cam.getU ops)
      = (cam.getU ops).dotProduct (cam.getU ops))
    (hdV : (cam.getV ops).dotProductR rnd (cam.getV ops)
      = (cam.getV ops).dotProduct (cam.getV ops))
    (hWU : (cam.getW ops).dotProductR rnd (cam.getU ops)
      = (cam.getW ops).dotProduct (cam.getU ops))
    (hUV : (cam.getU ops).dotProductR rnd (cam.getV ops)
      = (cam.getU ops).dotProduct (cam.getV ops))
    (hVW : (cam.getV ops).dotProductR rnd (cam.getW ops)
      = (cam.getV ops).dotProduct (cam.getW ops)) :
    (cam.getWR rnd ops = (cam.eye.subR rnd cam.lookAt).normalizeR rnd ops ∧
      cam.getUR rnd ops = (cam.up.crossProductR rnd (cam.getWR rnd ops)).normalizeR rnd ops ∧
      cam.getVR rnd ops = (cam.getWR rnd ops).crossProductR rnd (cam.getUR rnd ops)) ∧
    ((cam.getWR rnd ops).dotProduct (cam.getWR rnd ops) = 1 ∧
      (cam.getUR rnd ops).dotProduct (cam.getUR rnd ops) = 1 ∧
      (cam.getVR rnd ops).dotProduct (cam.getVR rnd ops) = 1) ∧
    ((cam.getWR rnd ops).magnitudeR rnd ops = 1 ∧ (cam.getUR rnd ops).magnitudeR rnd ops = 1 ∧
      (cam.getVR rnd ops).magnitudeR rnd ops = 1) ∧
    ((cam.getWR rnd ops).dotProduct (cam.getUR rnd ops) = 0 ∧
      (cam.getUR rnd ops).dotProduct (cam.getVR rnd ops) = 0 ∧
      (cam.getVR rnd ops).dotProduct (cam.getWR rnd ops) = 0) ∧
    ((cam.getWR rnd ops).dotProductR rnd (cam.getUR rnd ops) = 0 ∧
      (cam.getUR rnd ops).dotProductR rnd (cam.getVR rnd ops) = 0 ∧
      (cam.getVR rnd ops).dotProductR rnd (cam.getWR rnd ops) = 0) := by
  have eW : cam.getWR rnd ops = cam.getW ops := by
    show (cam.eye.subR rnd cam.lookAt).normalizeR rnd ops = (cam.eye - cam.lookAt).normalize ops
    rw [hsub]
    exact Vector.normalizeR_eq rnd ops _ hnW
  have eU : cam.getUR rnd ops = cam.getU ops := by
    show (cam.up.crossProductR rnd (cam.getWR rnd ops)).normalizeR rnd ops
      = (cam.up.crossProduct (cam.getW ops)).normalize ops
    rw [eW, hcU]
    exact Vector.normalizeR_eq rnd ops _ hnU
  have eV : cam.getVR rnd ops = cam.getV ops := by
    show (cam.getWR rnd ops).crossProductR rnd (cam.getUR rnd ops)
      = (cam.getW ops).crossProduct (cam.getU ops)
    rw [eW, eU, hcV]
  obtain ⟨-, ⟨sW, sU, sV⟩, -, ⟨oWU, oUV, oVW⟩⟩ :=
    Camera.basis_orthonormal_exact ops cam heye hup hw hu h1
  have mag : ∀ a : Vector F, a.dotProductR rnd a = a.dotProduct a → a.dotProduct a = 1 →
      a.magnitudeR rnd ops = 1 := by
    intro a h h'
    show ops.sqrt (a.dotProductR rnd a) = 1
    rw [h, h', h1]
  refine ⟨⟨rfl, rfl, rfl⟩, ?_, ?_, ?_, ?_⟩
  · rw [eW, eU, eV]
    exact ⟨sW, sU, sV⟩
  · rw [eW, eU, eV]
    exact ⟨mag _ hdW sW, mag _ hdU sU, mag _ hdV sV⟩
  · rw [eW, eU, eV]
    exact ⟨oWU, oUV, oVW⟩
  · rw [eW, eU, eV, hWU, hUV, hVW]
    exact ⟨oWU, oUV, oVW⟩

end CameraRounded

section CameraRoundedConcrete

/-- Witness of the amended C12 in binary32: for the camera at `(0,0,4)` looking at the
    origin with up `(0,1,0)` every operation is exact; the basis is `W = (0,0,1)`,
    `U = (1,0,0)`, `V = (0,1,0)`. -/
theorem Camera.basis_rounded_witness :
    (frontCamera.getWR round32 tableOps = ⟨0, 0, 1⟩ ∧
      frontCamera.getUR round32 tableOps = ⟨1, 0, 0⟩ ∧
      frontCamera.getVR round32 tableOps = ⟨0, 1, 0⟩) ∧
    ((frontCamera.getWR round32 tableOps).magnitudeR round32 tableOps = 1 ∧
      (frontCamera.getUR round32 tableOps).magnitudeR round32 tableOps = 1 ∧
      (frontCamera.getVR round32 tableOps).magnitudeR round32 tableOps = 1) ∧
    ((frontCamera.getWR round32 tableOps).dotProductR round32
        (frontCamera.getUR round32 tableOps) = 0 ∧
      (frontCamera.getUR round32 tableOps).dotProductR round32
        (frontCamera.getVR round32 tableOps) = 0 ∧
      (frontCamera.getVR round32 tableOps).dotProductR round32
        (frontCamera.getWR round32 tableOps) = 0) := by
  obtain ⟨r1, r2, r3, r4, r9, rm1, rm2, rm3⟩ := round32_small
  have r16 : round32 16 = 16 := by
    have h := round32_int 16 (by norm_num); norm_num at h; exact h
  have rq : round32 (1 / 4) = 1 / 4 := by
    have h := round32_dyadic 1 (-2) (by norm_num); norm_num at h; exact h
  have gW : frontCamera.getW tableOps = ⟨0, 0, 1⟩ := by
    norm_num [frontCamera, Camera.new, Camera.getW, Vector.normalize, Vector.magnitude,
      tableOps, tableSqrt, Vector.ext_iff3]
  have gU : frontCamera.getU tableOps = ⟨1, 0, 0⟩ := by
    rw [Camera.getU, gW]
    norm_num [frontCamera, Camera.new, Vector.normalize, Vector.magnitude,
      Vector.crossProduct, tableOps, tableSqrt, Vector.ext_iff3]
  have gV : frontCamera.getV tableOps = ⟨0, 1, 0⟩ := by
    rw [Camera.getV, gW, gU]
    norm_num [Vector.crossProduct, Vector.ext_iff3]
  have hd : frontCamera.eye - frontCamera.lookAt = ⟨0, 0, 4⟩ := by
    norm_num [frontCamera, Camera.new, Vector.ext_iff3]
  have hc : frontCamera.up.crossProduct (⟨0, 0, 1⟩ : Vector ℚ) = ⟨1, 0, 0⟩ := by
    norm_num [frontCamera, Camera.new, Vector.crossProduct, Vector.ext_iff3]
  have h := Camera.basis_rounded round32 tableOps frontCamera
    (by rw [hd]; norm_num [Vector.ext_iff3])
    (by rw [hd]; norm_num [frontCamera, Camera.new, Vector.crossProduct, Vector.ext_iff3])
    (by rw [hd]; norm_num [Vector.magnitude, tableOps, tableSqrt])
    (by rw [gW, hc]; norm_num [Vector.magnitude, tableOps, tableSqrt])
    (by norm_num [tableOps, tableSqrt])
    (by rw [hd]; norm_num [frontCamera, Camera.new, Vector.subR, Vector.ext_iff3,
      round32_zero, r4])
    (by rw [hd]
        refine ⟨?_, ?_, ?_⟩
        · norm_num [Vector.dotProductR, Vector.dotProduct, round32_zero, r16]
        · norm_num [Vector.magnitude, tableOps, tableSqrt, rq]
        · norm_num [Vector.magnitude, tableOps, tableSqrt, Vector.scaleR, Vector.scale,
            Vector.ext_iff3, round32_zero, r1])
    (by rw [gW]
        norm_num [frontCamera, Camera.new, Vector.crossProductR, Vector.crossProduct,
          Vector.ext_iff3, round32_zero, r1])
    (by rw [gW, hc]
        refine ⟨?_, ?_, ?_⟩
        · norm_num [Vector.dotProductR, Vector.dotProduct, round32_zero, r1]
        · norm_num [Vector.magnitude, tableOps, tableSqrt, r1]
        · norm_num [Vector.magnitude, tableOps, tableSqrt, Vector.scaleR, Vector.scale,
            Vector.ext_iff3, round32_zero, r1])
    (by rw [gW, gU]
        norm_num [Vector.crossProductR, Vector.crossProduct, Vector.ext_iff3, round32_zero,
          r1])
    (by rw [gW]; norm_num [Vector.dotProductR, Vector.dotProduct, round32_zero, r1])
    (by rw [gU]; norm_num [Vector.dotProductR, Vector.dotProduct, round32_zero, r1])
    (by rw [gV]; norm_num [Vector.dotProductR, Vector.dotProduct, round32_zero, r1])
    (by rw [gW, gU]; norm_num [Vector.dotProductR, Vector.dotProduct, round32_zero])
    (by rw [gU, gV]; norm_num [Vector.dotProductR, Vector.dotProduct, round32_zero])
    (by rw [gV, gW]; norm_num [Vector.dotProductR, Vector.dotProduct, round32_zero])
  have eW : frontCamera.getWR round32 tableOps = ⟨0, 0, 1⟩ := by
    norm_num [frontCamera, Camera.new, Camera.getWR, Vector.subR, Vector.normalizeR,
      Vector.magnitudeR, tableOps, tableSqrt, Vector.ext_iff3, round32_zero, r1, r4, r16, rq]
  have eU : frontCamera.getUR round32 tableOps = ⟨1, 0, 0⟩ := by
    rw [Camera.getUR, eW]
    norm_num [frontCamera, Camera.new, Vector.crossProductR, Vector.normalizeR,
      Vector.magnitudeR, tableOps, tableSqrt, Vector.ext_iff3, round32_zero, r1]
  have eV : frontCamera.getVR round32 tableOps = ⟨0, 1, 0⟩ := by
    rw [Camera.getVR, eW, eU]
    norm_num [Vector.crossProductR, Vector.ext_iff3, round32_zero, r1]
  exact ⟨⟨eW, eU, eV⟩, h.2.2.1, h.2.2.2.2⟩

/-- C12 fails in binary32.  For the camera at `(2,3,6)` looking at the origin with up
    `(0,1,0)`, `eye ≠ lookAt` and `up` is not parallel to `eye - lookAt`, yet the axis
    `W = normalize(eye - lookAt)` has Euclidean sum of squares different from 1 and the
    computed magnitude `1 + 2^-23`. -/
theorem Camera.basis_counterexample :
    skewCamera.eye ≠ skewCamera.lookAt ∧
    skewCamera.up.crossProduct (skewCamera.eye - skewCamera.lookAt) ≠ ⟨0, 0, 0⟩ ∧
    (skewCamera.getWR round32 rootOps).dotProduct (skewCamera.getWR round32 rootOps) ≠ 1 ∧
    (skewCamera.getWR round32 rootOps).magnitudeR round32 rootOps = 8388609 / 8388608 ∧
    (skewCamera.getWR round32 rootOps).magnitudeR round32 rootOps ≠ 1 := by
  obtain ⟨r1, r2, r3, r4, r9, rm1, rm2, rm3⟩ := round32_small
  have r6 : round32 6 = 6 := by
    have h := round32_int 6 (by norm_num); norm_num at h; exact h
  obtain ⟨-, hn, hq, -⟩ := Vector.normalizeR_evaluated
  have hs : skewCamera.eye.subR round32 skewCamera.lookAt = ⟨2, 3, 6⟩ := by
    norm_num [skewCamera, Camera.new, Vector.subR, Vector.ext_iff3, r2, r3, r6]
  have hW : skewCamera.getWR round32 rootOps
      = (⟨2, 3, 6⟩ : Vector ℚ).normalizeR round32 rootOps := by
    rw [Camera.getWR, hs]
  have hm : (skewCamera.getWR round32 rootOps).magnitudeR round32 rootOps
      = 8388609 / 8388608 := by
    show rootOps.sqrt ((skewCamera.getWR round32 rootOps).dotProductR round32
      (skewCamera.getWR round32 rootOps)) = _
    rw [hW, hn, hq]
    norm_num [rootOps, rootSqrt]
  refine ⟨?_, ?_, ?_, hm, ?_⟩
  · norm_num [skewCamera, Camera.new, Vector.ext_iff3]
  · norm_num [skewCamera, Camera.new, Vector.crossProduct, Vector.ext_iff3]
  · rw [hW, hn]
    norm_num [Vector.dotProduct]
  · rw [hm]
    norm_num

end CameraRoundedConcrete

section RefractionRounded

variable {F : Type} [LinearOrderedField F]

/-- C18, amended.  In `float` arithmetic the refracted vector has length 1 when the
    operations of `refractRay` incur no rounding error.  For unit vectors `W` and `N`,
    positive `eta1`, `eta2` and a positive Snell discriminant, with `sqrt` returning a
    root of the discriminant and `sqrt 1 = 1`, when the quotient `eta1/eta2`, its
    negation, `W.N`, the discriminant, the coefficient `b`, the sum `W*a + N*b` and the
    sum of squares of the result are computed exactly: `refractRay` returns the exact
    refracted vector, whose Euclidean sum of squares is 1 and whose computed magnitude
    is 1. -/
theorem refractRay_rounded (rnd : F → F) (ops : FloatOps F) (W pt N : Vector F)
    (eta1 eta2 : F) (shape : Shape F) (heta1 : 0 < eta1) (heta2 : 0 < eta2)
    (hW : W.dotProduct W = 1) (hN : N.dotProduct N = 1)
    (hdisc : 0 < 1 - (eta1 / eta2) * (eta1 / eta2) * (1 - W.dotProduct N * W.dotProduct N))
    (hs : ops.sqrt (1 - (eta1 / eta2) * (eta1 / eta2)
          * (1 - W.dotProduct N * W.dotProduct N))
        * ops.sqrt (1 - (eta1 / eta2) * (eta1 / eta2)
          * (1 - W.dotProduct N * W.dotProduct N))
      = 1 - (eta1 / eta2) * (eta1 / eta2) * (1 - W.dotProduct N * W.dotProduct N))
    (h1 : ops.sqrt 1 = 1)
    (hetar : rnd (eta1 / eta2) = eta1 / eta2)
    (ha : rnd (eta1 / eta2 * -1) = eta1 / eta2 * -1)
    (hwn : W.dotProductR rnd N = W.dotProduct N)
    (hrad : rnd (1 - rnd (rnd (eta1 / eta2 * (eta1 / eta2))
          * rnd (1 - rnd (W.dotProduct N * W.dotProduct N))))
      = 1 - (eta1 / eta2) * (eta1 / eta2) * (1 - W.dotProduct N * W.dotProduct N))
    (hb : rnd (rnd (eta1 / eta2 * W.dotProduct N)
          - ops.sqrt (1 - (eta1 / eta2) * (eta1 / eta2)
            * (1 - W.dotProduct N * W.dotProduct N)))
      = eta1 / eta2 * W.dotProduct N
          - ops.sqrt (1 - (eta1 / eta2) * (eta1 / eta2)
            * (1 - W.dotProduct N * W.dotProduct N)))
    (hsum : (W.scaleR rnd (eta1 / eta2 * -1)).addR rnd
          (N.scaleR rnd (eta1 / eta2 * W.dotProduct N
            - ops.sqrt (1 - (eta1 / eta2) * (eta1 / eta2)
              * (1 - W.dotProduct N * W.dotProduct N))))
      = W.scale (eta1 / eta2 * -1)
          + N.scale (eta1 / eta2 * W.dotProduct N
            - ops.sqrt (1 - (eta1 / eta2) * (eta1 / eta2)
              * (1 - W.dotProduct N * W.dotProduct N))))
    (hmag : (refractRay ops W pt N eta1 eta2 shape).dotProductR rnd
          (refractRay ops W pt N eta1 eta2 shape)
      = (refractRay ops W pt N eta1 eta2 shape).dotProduct
          (refractRay ops W pt N eta1 eta2 shape)) :
    0 < eta1 / eta2 ∧
    refractRayR rnd ops W pt N eta1 eta2 shape = refractRay ops W pt N eta1 eta2 shape ∧
    (refractRayR rnd ops W pt N eta1 eta2 shape).dotProduct
        (refractRayR rnd ops W pt N eta1 eta2 shape) = 1 ∧
    (refractRayR rnd ops W pt N eta1 eta2 shape).magnitudeR rnd ops = 1 := by
  have e : refractRayR rnd ops W pt N eta1 eta2 shape
      = refractRay ops W pt N eta1 eta2 shape := by
    simp only [refractRayR, refractRay]
    rw [hetar, ha, hwn, hrad, if_pos hdisc, if_pos hdisc, hb, hsum]
  obtain ⟨hsq, -⟩ := refractRay_unit_exact ops W pt N eta1 eta2 shape hW hN hdisc hs h1
  refine ⟨div_pos heta1 heta2, e, ?_, ?_⟩
  · rw [e]
    exact hsq
  · rw [e]
    show ops.sqrt ((refractRay ops W pt N eta1 eta2 shape).dotProductR rnd
      (refractRay ops W pt N eta1 eta2 shape)) = 1
    rw [hmag, hsq, h1]

end RefractionRounded

section RefractionRoundedWitness

/-- Witness of the amended C18 in binary32: at normal incidence, `W = N = (0,0,1)`, with
    `eta1 = 1`, `eta2 = 4`, every operation is exact and the refracted vector is
    `(0,0,-1)`. -/
theorem refractRay_rounded_witness :
    refractRayR round32 tableOps (⟨0, 0, 1⟩ : Vector ℚ) ⟨0, 0, 1⟩ ⟨0, 0, 1⟩ 1 4 unitSphere
      = ⟨0, 0, -1⟩ ∧
    (refractRayR round32 tableOps (⟨0, 0, 1⟩ : Vector ℚ) ⟨0, 0, 1⟩ ⟨0, 0, 1⟩ 1 4
        unitSphere).dotProduct
      (refractRayR round32 tableOps (⟨0, 0, 1⟩ : Vector ℚ) ⟨0, 0, 1⟩ ⟨0, 0, 1⟩ 1 4
        unitSphere) = 1 ∧
    (refractRayR round32 tableOps (⟨0, 0, 1⟩ : Vector ℚ) ⟨0, 0, 1⟩ ⟨0, 0, 1⟩ 1 4
        unitSphere).magnitudeR round32 tableOps = 1 := by
  obtain ⟨r1, r2, r3, r4, r9, rm1, rm2, rm3⟩ := round32_small
  have rq : round32 (1 / 4) = 1 / 4 := by
    have h := round32_dyadic 1 (-2) (by norm_num); norm_num at h; exact h
  have rmq : round32 (-(1 / 4)) = -(1 / 4) := by
    have h := round32_dyadic (-1) (-2) (by norm_num); norm_num at h; exact h
  have rs : round32 (1 / 16) = 1 / 16 := by
    have h := round32_dyadic 1 (-4) (by norm_num); norm_num at h; exact h
  have rt : round32 (-(3 / 4)) = -(3 / 4) := by
    have h := round32_dyadic (-3) (-2) (by norm_num); norm_num at h; exact h
  have hT : refractRay tableOps (⟨0, 0, 1⟩ : Vector ℚ) ⟨0, 0, 1⟩ ⟨0, 0, 1⟩ 1 4 unitSphere
      = ⟨0, 0, -1⟩ := by
    norm_num [refractRay, Vector.dotProduct, tableOps, tableSqrt, Vector.ext_iff3]
  have h := refractRay_rounded round32 tableOps (⟨0, 0, 1⟩ : Vector ℚ) ⟨0, 0, 1⟩ ⟨0, 0, 1⟩
    1 4 unitSphere (by norm_num) (by norm_num)
    (by norm_num [Vector.dotProduct]) (by norm_num [Vector.dotProduct])
    (by norm_num [Vector.dotProduct])
    (by norm_num [Vector.dotProduct, tableOps, tableSqrt])
    (by norm_num [tableOps, tableSqrt])
    (by norm_num [rq])
    (by norm_num [rmq])
    (by norm_num [Vector.dotProductR, Vector.dotProduct, round32_zero, r1])
    (by norm_num [Vector.dotProduct, round32_zero, r1, rs])
    (by norm_num [Vector.dotProduct, tableOps, tableSqrt, rq, rt])
    (by norm_num [Vector.dotProduct, tableOps, tableSqrt, Vector.scaleR, Vector.addR,
      Vector.ext_iff3, round32_zero, rmq, rt, rm1])
    (by rw [hT]; norm_num [Vector.dotProductR, Vector.dotProduct, round32_zero, r1])
  obtain ⟨-, e, hsq, hm⟩ := h
  exact ⟨e.trans hT, hsq, hm⟩

end RefractionRoundedWitness

section RefractionRoundedConcrete

/-- C18 fails in binary32.  For the unit vectors `W = (0,1,0)`, `N = (0,0,1)` and
    `eta1 = 10`, `eta2 = 17` the discriminant `1 - (10/17)^2` is positive; `10/17` is
    rounded, the computed discriminant is `5485975 / 2^23` and its binary32 root
    `13567563 / 2^24`; `refractRay` returns `(0, -9868951 / 2^24, -13567563 / 2^24)`,
    whose Euclidean sum of squares differs from 1 and whose computed magnitude is
    `1 - 2^-24`.  (`rootSqrt` holds the binary32 roots, the two inequalities on each
    certify them; as `W.N = 0` the difference `etar*wn - sqrt(radsq)` is the negated
    root, whether `sqrt` is evaluated in `float` or in `double`.) -/
theorem refractRay_counterexample :
    (((13567563 : ℚ) / 16777216 - 1 / 33554432) * (13567563 / 16777216 - 1 / 33554432)
        < 5485975 / 8388608 ∧
      (5485975 : ℚ) / 8388608
        < (13567563 / 16777216 + 1 / 33554432) * (13567563 / 16777216 + 1 / 33554432) ∧
      ((16777215 : ℚ) / 16777216 - 1 / 33554432) * (16777215 / 16777216 - 1 / 33554432)
        < 8388607 / 8388608 ∧
      (8388607 : ℚ) / 8388608
        < (16777215 / 16777216 + 1 / 33554432) * (16777215 / 16777216 + 1 / 33554432)) ∧
    ((⟨0, 1, 0⟩ : Vector ℚ).dotProduct ⟨0, 1, 0⟩ = 1 ∧
      (⟨0, 0, 1⟩ : Vector ℚ).dotProduct ⟨0, 0, 1⟩ = 1 ∧
      (0 : ℚ) < 1 - (10 / 17) * (10 / 17)
        * (1 - (⟨0, 1, 0⟩ : Vector ℚ).dotProduct ⟨0, 0, 1⟩
          * (⟨0, 1, 0⟩ : Vector ℚ).dotProduct ⟨0, 0, 1⟩)) ∧
    refractRayR round32 rootOps (⟨0, 1, 0⟩ : Vector ℚ) ⟨0, 0, 0⟩ ⟨0, 0, 1⟩ 10 17 unitSphere
      = ⟨0, -9868951 / 16777216, -13567563 / 16777216⟩ ∧
    (refractRayR round32 rootOps (⟨0, 1, 0⟩ : Vector ℚ) ⟨0, 0, 0⟩ ⟨0, 0, 1⟩ 10 17
        unitSphere).dotProduct
      (refractRayR round32 rootOps (⟨0, 1, 0⟩ : Vector ℚ) ⟨0, 0, 0⟩ ⟨0, 0, 1⟩ 10 17
        unitSphere) ≠ 1 ∧
    (refractRayR round32 rootOps (⟨0, 1, 0⟩ : Vector ℚ) ⟨0, 0, 0⟩ ⟨0, 0, 1⟩ 10 17
        unitSphere).magnitudeR round32 rootOps = 16777215 / 16777216 ∧
    (refractRayR round32 rootOps (⟨0, 1, 0⟩ : Vector ℚ) ⟨0, 0, 0⟩ ⟨0, 0, 1⟩ 10 17
        unitSphere).magnitudeR round32 rootOps ≠ 1 := by
  have r0 : round32 (10 / 17) = (9868951 / 16777216) := by
    rw [round32_eval (10 / 17) (9868951) (-24) (by norm_num [abs_of_pos, abs_of_neg]) (by norm_num [abs_of_pos, abs_of_neg])
      (by norm_num [abs_lt])]
    norm_num
  have r1 : round32 (-(9868951 / 16777216)) = (-(9868951 / 16777216)) := by
    have h := round32_dyadic (-9868951) (-24) (by norm_num); norm_num at h; exact h
  have r3 : round32 (97396193840401 / 281474976710656) = (11610531 / 33554432) := by
    rw [round32_eval (97396193840401 / 281474976710656) (11610531) (-25) (by norm_num [abs_of_pos, abs_of_neg]) (by norm_num [abs_of_pos, abs_of_neg])
      (by norm_num [abs_lt])]
    norm_num
  have r4 : round32 1 = 1 := by
    have h := round32_int (1) (by norm_num); norm_num at h; exact h
  have r5 : round32 (11610531 / 33554432) = (11610531 / 33554432) := by
    have h := round32_dyadic (11610531) (-25) (by norm_num); norm_num at h; exact h
  have r6 : round32 (21943901 / 33554432) = (5485975 / 8388608) := by
    rw [round32_tie (21943901 / 33554432) (10971950) (-24) (by norm_num [abs_of_pos, abs_of_neg]) (by norm_num [abs_of_pos, abs_of_neg])
      (by norm_num)]
    norm_num
  have r7 : round32 (-(13567563 / 16777216)) = (-(13567563 / 16777216)) := by
    have h := round32_dyadic (-13567563) (-24) (by norm_num); norm_num at h; exact h
  have r8 : round32 (184078765758969 / 281474976710656) = (10971949 / 16777216) := by
    rw [round32_eval (184078765758969 / 281474976710656) (10971949) (-24) (by norm_num [abs_of_pos, abs_of_neg]) (by norm_num [abs_of_pos, abs_of_neg])
      (by norm_num [abs_lt])]
    norm_num
  have r9 : round32 (33554429 / 33554432) = (8388607 / 8388608) := by
    rw [round32_tie (33554429 / 33554432) (16777214) (-24) (by norm_num [abs_of_pos, abs_of_neg]) (by norm_num [abs_of_pos, abs_of_neg])
      (by norm_num)]
    norm_num
  have hT : refractRayR round32 rootOps (⟨0, 1, 0⟩ : Vector ℚ) ⟨0, 0, 0⟩ ⟨0, 0, 1⟩ 10 17
      unitSphere = ⟨0, -9868951 / 16777216, -13567563 / 16777216⟩ := by
    norm_num [refractRayR, Vector.dotProductR, Vector.scaleR, Vector.addR, rootOps, rootSqrt,
      Vector.ext_iff3, r0, r1, round32_zero, r3, r4, r5, r6, r7, r8, r9]
  have hm : (⟨0, -9868951 / 16777216, -13567563 / 16777216⟩ : Vector ℚ).magnitudeR
      round32 rootOps = 16777215 / 16777216 := by
    norm_num [Vector.magnitudeR, rootOps, rootSqrt,
      r0, r1, round32_zero, r3, r4, r5, r6, r7, r8, r9]
  refine ⟨⟨by norm_num, by norm_num, by norm_num, by norm_num⟩,
    ⟨by norm_num [Vector.dotProduct], by norm_num [Vector.dotProduct],
      by norm_num [Vector.dotProduct]⟩, hT, ?_, ?_, ?_⟩
  · rw [hT]
    norm_num [Vector.dotProduct]
  · rw [hT, hm]
  · rw [hT, hm]
    norm_num

end RefractionRoundedConcrete

section NormalDivisionByZero

variable {F : Type} [LinearOrderedField F]

/-- The guarded `normalize` signals exactly a zero magnitude, and otherwise returns what
    `normalize` returns. -/
theorem Vector.normalizeGuarded_eq (ops : FloatOps F) (a : Vector F) :
    (a.normalizeGuarded ops = none ↔ a.magnitude ops = 0) ∧
    (a.magnitude ops ≠ 0 → a.normalizeGuarded ops = some (a.normalize ops)) := by
  constructor
  · by_cases h : a.magnitude ops = 0
    · simp [Vector.normalizeGuarded, guardedInv, h]
    · simp [Vector.normalizeGuarded, guardedInv, h]
  · intro h
    simp [Vector.normalizeGuarded, guardedInv, h, Vector.normalize]

end NormalDivisionByZero

section OriginScene

/-- The scan of `originScene` for the ray from `(0,0,2)` down the `z` axis selects the
    triangle, at `t = 2`. -/
theorem originScene_nearestHit :
    Scene.nearestHit tableOps originScene.shapes rayAtOrigin
      = (((2 : ℚ) : WithTop ℚ), some originTriangle) := by
  have hi : originTriangle.intersect tableOps rayAtOrigin ⊤ ⊤
      = (true, ((2 : ℚ) : WithTop ℚ), ⊤) := by
    norm_num [originTriangle, Shape.intersect, Triangle.intersect, Triangle.new,
      rayAtOrigin, Vector.dotProduct, Vector.crossProduct]
  have h2 : ¬ (((2 : ℚ) : WithTop ℚ) < 0) := by
    rw [← WithTop.coe_zero, WithTop.coe_lt_coe]; norm_num
  simp only [Scene.nearestHit, originScene, List.foldl_cons, List.foldl_nil,
    Scene.scanStep, hi, h2, WithTop.coe_lt_top, if_true, if_false]

/-- The hit point of `rayAtOrigin` in `originScene` is the world origin, which is also
    the triangle's `position`. -/
theorem originScene_ptos :
    Scene.ptos tableOps originScene rayAtOrigin = ⟨0, 0, 0⟩ ∧
    originTriangle.getPos = ⟨0, 0, 0⟩ := by
  constructor
  · rw [Scene.ptos, originScene_nearestHit]
    simp only [WithTop.untop'_coe, rayAtOrigin]
    norm_num [Vector.ext_iff3]
  · rfl

/-- C9, the code at the failing input.  In `originScene` the ray from `(0,0,2)` down the
    `z` axis hits the triangle, whose material has `KR = KO = (0,0,0)`, at the world
    origin.  The triangle's `position` is the default `(0,0,0)`, so the vector
    `ptos - shape->getPos()` that `Scene::draw` normalises into `snorm` is the zero
    vector, its magnitude is 0 and `normalize` divides by zero. -/
theorem Scene.matte_normal_division_by_zero :
    (Scene.nearestHit tableOps originScene.shapes rayAtOrigin).2 = some originTriangle ∧
    (originTriangle.getMat.KR = ⟨0, 0, 0⟩ ∧ originTriangle.getMat.KO = ⟨0, 0, 0⟩) ∧
    Scene.ptos tableOps originScene rayAtOrigin - originTriangle.getPos = ⟨0, 0, 0⟩ ∧
    (Scene.ptos tableOps originScene rayAtOrigin - originTriangle.getPos).magnitude tableOps
      = 0 ∧
    (Scene.ptos tableOps originScene rayAtOrigin - originTriangle.getPos).normalizeGuarded
      tableOps = none := by
  obtain ⟨hp, hg⟩ := originScene_ptos
  have hz : Scene.ptos tableOps originScene rayAtOrigin - originTriangle.getPos
      = ⟨0, 0, 0⟩ := by
    rw [hp, hg]
    norm_num [Vector.ext_iff3]
  have hm : (Scene.ptos tableOps originScene rayAtOrigin
      - originTriangle.getPos).magnitude tableOps = 0 := by
    rw [hz]
    norm_num [Vector.magnitude, tableOps, tableSqrt]
  refine ⟨by rw [originScene_nearestHit], ⟨rfl, rfl⟩, hz, hm, ?_⟩
  exact (Vector.normalizeGuarded_eq tableOps _).1.mpr hm

/-- C20, the code at the failing input.  In `originScene` every light colour and every
    coefficient `KD`, `KS`, `KR`, `KO` has no negative component; the ray from `(0,0,2)`
    down the `z` axis hits the triangle at the world origin, where the vector normalised
    into `snorm` is the zero vector and `normalize` divides by zero. -/
theorem Scene.nonneg_normal_division_by_zero :
    (∀ sh ∈ originScene.shapes, sh.NonnegCoefficients) ∧
    (Scene.nearestHit tableOps originScene.shapes rayAtOrigin).2 = some originTriangle ∧
    (Scene.ptos tableOps originScene rayAtOrigin - originTriangle.getPos).magnitude tableOps
      = 0 ∧
    (Scene.ptos tableOps originScene rayAtOrigin - originTriangle.getPos).normalizeGuarded
      tableOps = none := by
  obtain ⟨hp, hg⟩ := originScene_ptos
  have hm : (Scene.ptos tableOps originScene rayAtOrigin
      - originTriangle.getPos).magnitude tableOps = 0 := by
    rw [hp, hg]
    norm_num [Vector.magnitude, tableOps, tableSqrt]
  refine ⟨?_, by rw [originScene_nearestHit], hm,
    (Vector.normalizeGuarded_eq tableOps _).1.mpr hm⟩
  intro sh hsh
  simp only [originScene, List.mem_singleton] at hsh
  subst hsh
  refine ⟨?_, ?_, ?_, ?_, ?_⟩
  · intro l hl
    simp only [originTriangle, Shape.getLights, Triangle.new, List.mem_singleton] at hl
    subst hl
    simp [Vector.Nonneg, whiteLight]
  · simp [Vector.Nonneg, originTriangle, Shape.getMat, Triangle.new, matteWhite]
  · simp [Vector.Nonneg, originTriangle, Shape.getMat, Triangle.new, matteWhite]
  · simp [Vector.Nonneg, originTriangle, Shape.getMat, Triangle.new, matteWhite]
  · simp [Vector.Nonneg, originTriangle, Shape.getMat, Triangle.new, matteWhite]

end OriginScene

end raytrace
